import Mathlib

/-!
MGNREGA dashboard: the file-backed cache (`server/cache.js`).

A shallow embedding of `server/cache.js` and of the parts of the Node.js
runtime it calls (`Buffer.from`, base64 text, `path.join`, the synchronous
`fs` calls, `JSON.parse`, property access and `>=`), followed by the
properties of the cache that the specification states.

Conventions of the embedding:

* a JavaScript string is the list of its UTF-16 code units (`JSString`);
* a path is the list of its components below the root (`Path`);
* the disk is a value passed in and out of every `fs` call (`Disk`);
* a JavaScript exception is the `error` side of `Except JSError`;
* `Date.now()` is an argument of the function that calls it, one argument per
  call, in epoch milliseconds;
* `JSON.stringify`, `JSON.parse` and the numeric coercion of non-numbers are
  the fields of `Runtime`; JSON numbers are integers.
-/

namespace Cache

/-! ## JavaScript strings and `Buffer.from(key)` -/

/-- A JavaScript string: its UTF-16 code units, each below `65536`. -/
abbrev JSString := List Nat

/-- The code units of one Unicode scalar value. -/
def charUnits (c : Char) : List Nat :=
  if c.toNat < 0x10000 then [c.toNat]
  else [0xD800 + (c.toNat - 0x10000) / 1024, 0xDC00 + (c.toNat - 0x10000) % 1024]

/-- The JavaScript string written with the characters of `s`. -/
def js (s : String) : JSString := s.toList.flatMap charUnits

/-- A code unit in `0xD800..0xDBFF`. -/
def isHighSurrogate (u : Nat) : Bool := 0xD800 ≤ u && u ≤ 0xDBFF

/-- A code unit in `0xDC00..0xDFFF`. -/
def isLowSurrogate (u : Nat) : Bool := 0xDC00 ≤ u && u ≤ 0xDFFF

/-- UTF-8 bytes of one code point. -/
def utf8EncodeScalar (c : Nat) : List Nat :=
  if c < 0x80 then [c]
  else if c < 0x800 then [0xC0 + c / 64, 0x80 + c % 64]
  else if c < 0x10000 then [0xE0 + c / 4096, 0x80 + c / 64 % 64, 0x80 + c % 64]
  else [0xF0 + c / 262144 % 8, 0x80 + c / 4096 % 64, 0x80 + c / 64 % 64, 0x80 + c % 64]

/-- UTF-8 bytes of U+FFFD, which `Buffer.from` writes for an unpaired surrogate. -/
def replacementBytes : List Nat := [0xEF, 0xBF, 0xBD]

/-- Embeds `Buffer.from(key)`: the UTF-8 bytes of a string. A high surrogate followed
by a low surrogate is one code point; any other surrogate code unit is written
as U+FFFD. -/
def bufferFrom : JSString → List Nat
  | [] => []
  | [u] =>
    if isHighSurrogate u || isLowSurrogate u then replacementBytes
    else utf8EncodeScalar u
  | u :: lo :: rest =>
    if isHighSurrogate u then
      if isLowSurrogate lo then
        utf8EncodeScalar (0x10000 + (u - 0xD800) * 1024 + (lo - 0xDC00)) ++ bufferFrom rest
      else replacementBytes ++ bufferFrom (lo :: rest)
    else if isLowSurrogate u then replacementBytes ++ bufferFrom (lo :: rest)
    else utf8EncodeScalar u ++ bufferFrom (lo :: rest)

/-! ## `.toString('base64')` and `.replace(/=/g,'')` -/

/-- The 64 digits of standard base64, in order. -/
def base64Alphabet : List Char :=
  "ABCDEFGHIJKLMNOPQRSTUVWXYZabcdefghijklmnopqrstuvwxyz0123456789+/".toList

/-- The base64 digit of a 6-bit value. -/
def base64Char (i : Nat) : Char := base64Alphabet.getD i '/'

/-- Embeds `buf.toString('base64')`: standard base64 with `=` padding. -/
def toBase64 : List Nat → List Char
  | [] => []
  | [a] => [base64Char (a / 4), base64Char (a % 4 * 16), '=', '=']
  | [a, b] =>
    [base64Char (a / 4), base64Char (a % 4 * 16 + b / 16), base64Char (b % 16 * 4), '=']
  | a :: b :: c :: rest =>
    base64Char (a / 4) :: base64Char (a % 4 * 16 + b / 16) ::
      base64Char (b % 16 * 4 + c / 64) :: base64Char (c % 64) :: toBase64 rest

/-- Embeds `s.replace(/=/g,'')`. -/
def stripPadding (s : List Char) : List Char := s.filter (fun c => c != '=')

/-! ## `path.join` -/

/-- A normalised absolute path: its components below the root. -/
abbrev Path := List (List Char)

/-- The pieces of a string between its `/` characters. -/
def splitSlash : List Char → List (List Char)
  | [] => [[]]
  | c :: cs =>
    if c = '/' then [] :: splitSlash cs
    else
      match splitSlash cs with
      | [] => [[c]]
      | s :: ss => (c :: s) :: ss

/-- Normalisation of `path.join`: empty pieces and `.` are dropped, `..`
removes the last component. -/
def normalizeOnto (base : Path) : List (List Char) → Path
  | [] => base
  | seg :: segs =>
    if seg = [] ∨ seg = ['.'] then normalizeOnto base segs
    else if seg = ['.', '.'] then normalizeOnto base.dropLast segs
    else normalizeOnto (base ++ [seg]) segs

/-- Embeds `path.join(base, ...parts)` for a normalised absolute `base`. -/
def pathJoin (base : Path) (parts : List (List Char)) : Path :=
  parts.foldl (fun b p => normalizeOnto b (splitSlash p)) base

/-- Embeds `const cacheDir = path.join(process.cwd(), 'data', 'cache')`. -/
def cacheDir (cwd : Path) : Path := pathJoin cwd ["data".toList, "cache".toList]

/-- The text `safe` of `keyToFile`: base64 of the key's bytes without `=`. -/
def safeName (key : JSString) : List Char := stripPadding (toBase64 (bufferFrom key))

/-- Embeds `keyToFile(key)`. -/
def keyToFile (cwd : Path) (key : JSString) : Path :=
  let safe := safeName key
  pathJoin (cacheDir cwd) [safe ++ ".json".toList]

/-! ## The disk and the synchronous `fs` calls -/

/-- What a JavaScript call throws. -/
inductive JSError where
  | ENOENT
  | EISDIR
  | EEXIST
  | EACCES
  | SyntaxError
  | TypeError
  deriving DecidableEq, Repr

/-- The storage medium: the directories and files that exist, and whether the
medium rejects writes (disk full, permission denied). -/
structure Disk where
  dirs : List Path
  files : List (Path × String)
  rejectsWrites : Bool
  deriving DecidableEq, Repr

/-- The content of the file at `p`, when there is one. -/
def Disk.content (d : Disk) (p : Path) : Option String := d.files.lookup p

/-- The root and the listed directories are directories. -/
def Disk.isDir (d : Disk) (p : Path) : Bool := p = [] || d.dirs.contains p

/-- A path that has content is a file. -/
def Disk.isFile (d : Disk) (p : Path) : Bool := (d.content p).isSome

/-- Embeds `fs.existsSync(p)`. -/
def existsSync (p : Path) (d : Disk) : Bool × Disk :=
  (d.isDir p || d.isFile p, d)

/-- Embeds `fs.readFileSync(p, 'utf8')`. -/
def readFileSync (p : Path) (d : Disk) : Except JSError String × Disk :=
  if d.isDir p then (.error .EISDIR, d)
  else
    match d.content p with
    | some raw => (.ok raw, d)
    | none => (.error .ENOENT, d)

/-- Embeds `fs.writeFileSync(p, data)`: the file at `p` is created or replaced whole;
the call throws when `p` is a directory, when the directory of `p` is missing
and when the medium rejects the write. -/
def writeFileSync (p : Path) (data : String) (d : Disk) : Except JSError Unit × Disk :=
  if d.isDir p then (.error .EISDIR, d)
  else if !d.isDir p.dropLast then (.error .ENOENT, d)
  else if d.rejectsWrites then (.error .EACCES, d)
  else (.ok (), { d with files := (p, data) :: d.files.filter (fun f => f.1 != p) })

/-- Embeds `fs.mkdirSync(p, { recursive: true })`: the missing directories on the
way to `p` are created; nothing happens when `p` is a directory already. -/
def mkdirSync (p : Path) (d : Disk) : Except JSError Unit × Disk :=
  if d.isDir p then (.ok (), d)
  else if d.isFile p then (.error .EEXIST, d)
  else if d.rejectsWrites then (.error .EACCES, d)
  else (.ok (), { d with dirs := (p.inits.filter (fun q => !d.isDir q)) ++ d.dirs })

/-- Loading `cache.js`:
`if(!fs.existsSync(cacheDir)) fs.mkdirSync(cacheDir, { recursive: true })`. -/
def loadModule (cwd : Path) (d : Disk) : Except JSError Unit × Disk :=
  let (found, d1) := existsSync (cacheDir cwd) d
  if !found then mkdirSync (cacheDir cwd) d1 else (.ok (), d1)

/-- A disk with nothing on it that accepts writes. -/
def Disk.blank : Disk := { dirs := [], files := [], rejectsWrites := false }

/-! ## JSON values and the runtime -/

/-- A JSON value; numbers are integers. An object lists each property once. -/
inductive JSONValue where
  | null
  | bool (b : Bool)
  | num (n : Int)
  | str (s : String)
  | arr (items : List JSONValue)
  | obj (props : List (String × JSONValue))

/-- What an expression evaluates to: `undefined` or a JSON value. -/
inductive JSValue where
  | undefined
  | json (v : JSONValue)

/-- The built-ins of the runtime that `cache.js` calls. -/
structure Runtime where
  /-- `JSON.stringify(v)`. -/
  stringify : JSONValue → String
  /-- `JSON.parse(raw)`; `none` when it throws a `SyntaxError`. -/
  parse : String → Option JSONValue
  /-- `ToNumber` of a string, array or object; `none` is `NaN`. -/
  coerce : JSONValue → Option Int

/-- Embeds `v.name`: throws on `null`, is `undefined` when `v` has no such property. -/
def getProp (v : JSONValue) (name : String) : Except JSError JSValue :=
  match v with
  | .null => .error .TypeError
  | .obj props =>
    match props.lookup name with
    | some x => .ok (.json x)
    | none => .ok .undefined
  | _ => .ok .undefined

/-- Embeds `ToNumber(x)`; `none` is `NaN`. -/
def toNumber (rt : Runtime) : JSValue → Option Int
  | .undefined => none
  | .json .null => some 0
  | .json (.bool b) => some (if b then 1 else 0)
  | .json (.num n) => some n
  | .json v => rt.coerce v

/-- Embeds `x >= now` for a number `now`. -/
def jsGe (rt : Runtime) (x : JSValue) (now : Int) : Bool :=
  match toNumber rt x with
  | some n => decide (now ≤ n)
  | none => false

/-- The second argument of `getCached`: left out, `null`, or a value whose
`allowStale` property is truthy or not. -/
inductive Opts where
  | omitted
  | null
  | given (allowStale : Bool)
  deriving DecidableEq, Repr

/-- Embeds `opts.allowStale` as a condition, with the default `{ allowStale: false }`. -/
def allowStale : Opts → Except JSError Bool
  | .omitted => .ok false
  | .null => .error .TypeError
  | .given b => .ok b

/-! ## `setCached` and `getCached` -/

/-- The record `{ value, expires_at, stored_at }` that `setCached` builds. -/
def payload (value : JSONValue) (expiresAt storedAt : Int) : JSONValue :=
  .obj [("value", value), ("expires_at", .num expiresAt), ("stored_at", .num storedAt)]

/-- Embeds `setCached(key, value, ttlSeconds=3600)`; `now₁` and `now₂` are the results
of its two `Date.now()` calls, in source order. -/
def setCached (rt : Runtime) (cwd : Path) (key : JSString) (value : JSONValue)
    (ttlSeconds : Option Int) (now₁ now₂ : Nat) (d : Disk) : Except JSError Unit × Disk :=
  let file := keyToFile cwd key
  let p := payload value (((now₁ / 1000 : Nat) : Int) + ttlSeconds.getD 3600) now₂
  writeFileSync file (rt.stringify p) d

/-- The body of the `try` block of `getCached`. -/
def getCachedTry (rt : Runtime) (file : Path) (opts : Opts) (nowMs : Nat) (d : Disk) :
    Except JSError JSValue × Disk :=
  match readFileSync file d with
  | (.error e, d1) => (.error e, d1)
  | (.ok raw, d1) =>
    match rt.parse raw with
    | none => (.error .SyntaxError, d1)
    | some parsed =>
      let now : Nat := nowMs / 1000
      match getProp parsed "expires_at" with
      | .error e => (.error e, d1)
      | .ok expiresAt =>
        if jsGe rt expiresAt now then (getProp parsed "value", d1)
        else
          match allowStale opts with
          | .error e => (.error e, d1)
          | .ok true => (getProp parsed "value", d1)
          | .ok false => (.ok (.json .null), d1)

/-- Embeds `getCached(key, opts={ allowStale: false })`; `nowMs` is the result of its
`Date.now()` call. -/
def getCached (rt : Runtime) (cwd : Path) (key : JSString) (opts : Opts) (nowMs : Nat)
    (d : Disk) : Except JSError JSValue × Disk :=
  let file := keyToFile cwd key
  match existsSync file d with
  | (false, d1) => (.ok (.json .null), d1)
  | (true, d1) =>
    match getCachedTry rt file opts nowMs d1 with
    | (.ok v, d2) => (.ok v, d2)
    | (.error _, d2) => (.ok (.json .null), d2)

/-! ## Sequences of calls -/

/-- One call of the module's public interface, with the clock readings it sees. -/
inductive Call where
  | get (key : JSString) (opts : Opts) (nowMs : Nat)
  | set (key : JSString) (value : JSONValue) (ttlSeconds : Option Int) (now₁ now₂ : Nat)

/-- The disk after one call; what the call returns or throws is dropped. -/
def Call.run (rt : Runtime) (cwd : Path) : Call → Disk → Disk
  | .get key opts nowMs, d => (getCached rt cwd key opts nowMs d).2
  | .set key value ttl now₁ now₂, d => (setCached rt cwd key value ttl now₁ now₂ d).2

/-- The disk after a list of calls, run in order. -/
def runCalls (rt : Runtime) (cwd : Path) : List Call → Disk → Disk
  | [], d => d
  | c :: cs, d => runCalls rt cwd cs (c.run rt cwd d)

/-- Whether the call is a `setCached` whose record file is `file`. -/
def Call.writesTo (cwd : Path) (file : Path) : Call → Bool
  | .get _ _ _ => false
  | .set key _ _ _ _ => keyToFile cwd key = file

/-! ## Well-formed strings -/

/-- No unpaired surrogate: every high surrogate is followed by a low one, and
every low surrogate follows a high one. -/
def wellFormed : JSString → Bool
  | [] => true
  | [u] => decide (u < 0x10000) && !isHighSurrogate u && !isLowSurrogate u
  | u :: lo :: rest =>
    if isHighSurrogate u then isLowSurrogate lo && wellFormed rest
    else decide (u < 0x10000) && !isLowSurrogate u && wellFormed (lo :: rest)

/-! ## A runtime for examples -/

/-- Decimal digits of a natural number, least significant first; `fuel` bounds
the number of digits. -/
def digitsRev : Nat → Nat → List Char
  | 0, _ => []
  | fuel + 1, n =>
    if n < 10 then [Char.ofNat (48 + n)]
    else Char.ofNat (48 + n % 10) :: digitsRev fuel (n / 10)

/-- Decimal text of an integer. -/
def showInt (n : Int) : List Char :=
  match n with
  | .ofNat m => (digitsRev 40 m).reverse
  | .negSucc m => '-' :: (digitsRev 40 (m + 1)).reverse

/-- A string literal, with `"` and `\` escaped. -/
def showString (s : List Char) : List Char :=
  '"' :: s.flatMap (fun c => if c = '"' ∨ c = '\\' then ['\\', c] else [c]) ++ ['"']

/-! The text of a JSON value, without white space. -/
mutual
def showJSON : JSONValue → List Char
  | .null => "null".toList
  | .bool true => "true".toList
  | .bool false => "false".toList
  | .num n => showInt n
  | .str s => showString s.toList
  | .arr items => '[' :: showItems items ++ [']']
  | .obj props => '{' :: showProps props ++ ['}']
def showItems : List JSONValue → List Char
  | [] => []
  | [v] => showJSON v
  | v :: vs => showJSON v ++ ',' :: showItems vs
def showProps : List (String × JSONValue) → List Char
  | [] => []
  | [(k, v)] => showString k.toList ++ ':' :: showJSON v
  | (k, v) :: ps => showString k.toList ++ ':' :: showJSON v ++ ',' :: showProps ps
end

/-- The text without its leading white space. -/
def skipWs : List Char → List Char
  | [] => []
  | c :: cs => if c = ' ' ∨ c = '\n' ∨ c = '\t' ∨ c = '\r' then skipWs cs else c :: cs

/-- The leading decimal digits, added to `acc`, and the rest. -/
def readNat (acc : Nat) : List Char → Nat × List Char
  | [] => (acc, [])
  | c :: cs => if c.isDigit then readNat (acc * 10 + (c.toNat - 48)) cs else (acc, c :: cs)

/-- The characters of a string literal after its opening quote, and the rest. -/
def readString : List Char → Option (List Char × List Char)
  | [] => none
  | [c] => if c = '"' then some ([], []) else none
  | c :: c' :: cs =>
    if c = '"' then some ([], c' :: cs)
    else if c = '\\' then
      if c' = '"' ∨ c' = '\\' then (readString cs).map (fun p => (c' :: p.1, p.2)) else none
    else (readString (c' :: cs)).map (fun p => (c :: p.1, p.2))

/-! A reader for JSON text whose numbers are integers and whose only escapes
are `\"` and `\\`; `fuel` bounds the number of values read. -/
mutual
def readValue : Nat → List Char → Option (JSONValue × List Char)
  | 0, _ => none
  | fuel + 1, cs =>
    match skipWs cs with
    | 'n' :: 'u' :: 'l' :: 'l' :: r => some (.null, r)
    | 't' :: 'r' :: 'u' :: 'e' :: r => some (.bool true, r)
    | 'f' :: 'a' :: 'l' :: 's' :: 'e' :: r => some (.bool false, r)
    | '"' :: r => (readString r).map (fun p => (.str (String.mk p.1), p.2))
    | '[' :: r =>
      match skipWs r with
      | ']' :: r' => some (.arr [], r')
      | _ => (readItems fuel r).map (fun p => (.arr p.1, p.2))
    | '{' :: r =>
      match skipWs r with
      | '}' :: r' => some (.obj [], r')
      | _ => (readProps fuel r).map (fun p => (.obj p.1, p.2))
    | '-' :: c :: r =>
      if c.isDigit then some (.num (-((readNat 0 (c :: r)).1 : Int)), (readNat 0 (c :: r)).2)
      else none
    | c :: r =>
      if c.isDigit then some (.num ((readNat 0 (c :: r)).1 : Int), (readNat 0 (c :: r)).2)
      else none
    | [] => none
def readItems : Nat → List Char → Option (List JSONValue × List Char)
  | 0, _ => none
  | fuel + 1, cs =>
    match readValue fuel cs with
    | none => none
    | some (v, r) =>
      match skipWs r with
      | ',' :: r' => (readItems fuel r').map (fun p => (v :: p.1, p.2))
      | ']' :: r' => some ([v], r')
      | _ => none
def readProps : Nat → List Char → Option (List (String × JSONValue) × List Char)
  | 0, _ => none
  | fuel + 1, cs =>
    match skipWs cs with
    | '"' :: r =>
      match readString r with
      | none => none
      | some (k, r1) =>
        match skipWs r1 with
        | ':' :: r2 =>
          match readValue fuel r2 with
          | none => none
          | some (v, r3) =>
            match skipWs r3 with
            | ',' :: r4 => (readProps fuel r4).map (fun p => ((String.mk k, v) :: p.1, p.2))
            | '}' :: r4 => some ([(String.mk k, v)], r4)
            | _ => none
        | _ => none
    | _ => none
end

/-- The value that the whole text denotes; `none` when it denotes none. -/
def readJSON (raw : String) : Option JSONValue :=
  match readValue (raw.length + 1) raw.toList with
  | some (v, r) => if skipWs r = [] then some v else none
  | none => none

/-! ## Example data -/

/-- The sample runtime: `showJSON`, `readJSON`, and `NaN` for every coercion. -/
def sampleRuntime : Runtime where
  stringify v := String.mk (showJSON v)
  parse := readJSON
  coerce _ := none

/-- An example of `process.cwd()`. -/
def appRoot : Path := ["srv".toList, "mgnrega".toList]

/-- The disk right after `cache.js` was loaded on a blank disk. -/
def freshDisk : Disk := (loadModule appRoot Disk.blank).2

/-- The district list of the specification's scenario. -/
def kerala : JSONValue :=
  .obj [("districts", .arr [.str "Kollam", .str "Kottayam"]), ("count", .num 2)]

/-- The disk after `setCached("districts:KERALA", kerala, 86400)` at
`1700000000123` ms on the fresh disk. -/
def keralaDisk : Disk :=
  (setCached sampleRuntime appRoot (js "districts:KERALA") kerala (some 86400)
    1700000000123 1700000000123 freshDisk).2

/-- The fresh disk with an unparsable record file for `"districts:KERALA"`. -/
def corruptDisk : Disk :=
  { freshDisk with files := [(keyToFile appRoot (js "districts:KERALA"), "\x7b\"value\":")] }

/-- The fresh disk when the medium rejects writes. -/
def rejectingDisk : Disk := { freshDisk with rejectsWrites := true }

/-- The key the geolocation handler builds for the query
`method=x%3F&lat=26.85&lon=80.95`. -/
def slashKey : JSString := js "geolocate:x?:26.85:80.95"

/-! ## Definitions used in the proofs about `keyToFile` -/

/-- The position of a character in the base64 alphabet. -/
def base64Index (c : Char) : Nat := base64Alphabet.indexOf c

/-- The pieces put back together with `/` between them. -/
def joinSlash : List (List Char) → List Char
  | [] => []
  | [s] => s
  | s :: t :: rest => s ++ '/' :: joinSlash (t :: rest)

/-- No piece between slashes is empty; `atStart` says that the piece being
read is empty so far. -/
def noEmptyPiece (atStart : Bool) : List Char → Bool
  | [] => !atStart
  | c :: cs => if c = '/' then !atStart && noEmptyPiece true cs else noEmptyPiece false cs

/-- Every `.` is followed by a character other than `/` and `.`. -/
def dotsFollowed : List Char → Bool
  | [] => true
  | [c] => c != '.'
  | c :: c' :: cs => (c != '.' || (c' != '/' && c' != '.')) && dotsFollowed (c' :: cs)

/-! ## Strings in the handlers: `trim`, case conversion, `parseInt` -/

/-- White space and line terminators: the code units that `trim` and
`parseInt` skip. -/
def isWhiteSpace (u : Nat) : Bool :=
  u = 9 || u = 10 || u = 11 || u = 12 || u = 13 || u = 32 || u = 0xA0 || u = 0x1680 ||
    (0x2000 ≤ u && u ≤ 0x200A) || u = 0x2028 || u = 0x2029 || u = 0x202F || u = 0x205F ||
    u = 0x3000 || u = 0xFEFF

/-- Embeds `s.trim()`. -/
def trim (s : JSString) : JSString :=
  ((s.dropWhile isWhiteSpace).reverse.dropWhile isWhiteSpace).reverse

/-- Lower case of an ASCII code unit. -/
def asciiLower (u : Nat) : Nat := if 65 ≤ u ∧ u ≤ 90 then u + 32 else u

/-- Upper case of an ASCII code unit. -/
def asciiUpper (u : Nat) : Nat := if 97 ≤ u ∧ u ≤ 122 then u - 32 else u

/-- The case conversions of the runtime on strings that are not all ASCII. -/
structure CaseTables where
  lower : JSString → JSString
  upper : JSString → JSString

/-- Embeds `s.toLowerCase()`. -/
def toLowerCase (ct : CaseTables) (s : JSString) : JSString :=
  if s.all (fun u => decide (u < 128)) then s.map asciiLower else ct.lower s

/-- Embeds `s.toUpperCase()`. -/
def toUpperCase (ct : CaseTables) (s : JSString) : JSString :=
  if s.all (fun u => decide (u < 128)) then s.map asciiUpper else ct.upper s

/-- Case tables that leave every other string as it is, for examples. -/
def sampleCase : CaseTables := { lower := fun s => s, upper := fun s => s }

/-- Whether a code unit is a decimal digit. -/
def isDigitUnit (u : Nat) : Bool := 48 ≤ u && u ≤ 57

/-- The number written by a list of decimal digits, most significant first. -/
def digitsValue (ds : List Nat) : Nat := ds.foldl (fun acc u => acc * 10 + (u - 48)) 0

/-- Embeds `parseInt(s, 10)` for a string: white space is skipped, a sign is
read, then the longest run of digits; `none` is `NaN`. -/
def parseInt10 (s : JSString) : Option Int :=
  let t := s.dropWhile isWhiteSpace
  let negative := t.head? = some 45
  let body := if t.head? = some 45 ∨ t.head? = some 43 then t.tail else t
  let ds := body.takeWhile isDigitUnit
  if ds = [] then none
  else some (if negative then -(digitsValue ds : Int) else (digitsValue ds : Int))

/-- The constant `DEFAULT_MONTHS`. -/
def DEFAULT_MONTHS : Nat := 12

/-- Embeds `parseMonths(value)`; `none` is `undefined`, whose text `"undefined"`
has no leading digits. -/
def parseMonths (value : Option JSString) : Nat :=
  match value with
  | none => DEFAULT_MONTHS
  | some s =>
    match parseInt10 s with
    | some n => if 0 < n ∧ n ≤ 24 then n.toNat else DEFAULT_MONTHS
    | none => DEFAULT_MONTHS

/-- Embeds `normaliseKey(value)` for a string. -/
def normaliseKey (ct : CaseTables) (value : JSString) : JSString :=
  toLowerCase ct (trim value)

/-- Embeds `normaliseKey(value='')` for any argument: the default applies to
`undefined`, and `.trim` is not a function on a value that is not a string. -/
def normaliseKeyOf (ct : CaseTables) : JSValue → Except JSError JSString
  | .undefined => .ok (normaliseKey ct [])
  | .json (.str s) => .ok (normaliseKey ct (js s))
  | .json _ => .error .TypeError

/-- Decimal digits of a number below one hundred, as a string. -/
def smallNumberText (n : Nat) : JSString :=
  if n < 10 then [48 + n] else [48 + n / 10 % 10, 48 + n % 10]

/-- The query of a request to `/api/mgnrega`; `none` is `undefined`. -/
structure Query where
  state : Option JSString
  district : Option JSString
  lastMonths : Option JSString
  month : Option JSString

/-- Truthiness of a query value: `undefined` and `''` are falsy. -/
def truthyText : Option JSString → Bool
  | none => false
  | some s => !s.isEmpty

/-- The cache key of the statistics handler:
`mgnrega:${normaliseKey(state)}:${normaliseKey(district)}:${month || 'recent'}:${months}`. -/
def mgnregaCacheKey (ct : CaseTables) (state district : JSString)
    (month lastMonths : Option JSString) : JSString :=
  js "mgnrega:" ++ normaliseKey ct state ++ js ":" ++ normaliseKey ct district ++ js ":" ++
    (if truthyText month then month.getD [] else js "recent") ++ js ":" ++
    smallNumberText (parseMonths lastMonths)

/-! ## Values, object literals and responses in the handlers -/

/-- Truthiness of a value. -/
def truthy : JSValue → Bool
  | .undefined => false
  | .json .null => false
  | .json (.bool b) => b
  | .json (.num n) => n != 0
  | .json (.str s) => s != ""
  | .json (.arr _) => true
  | .json (.obj _) => true

/-- The items of an array under their indices `"0"`, `"1"`, and so on from `i`. -/
def indexedFrom : Nat → List JSONValue → List (String × JSONValue)
  | _, [] => []
  | i, v :: vs => (String.mk (showInt i), v) :: indexedFrom (i + 1) vs

/-- The own enumerable properties that `...v` copies into an object literal: the
properties of an object, the items of an array, the characters of a string,
nothing for any other value. -/
def spreadProps : JSValue → List (String × JSONValue)
  | .json (.obj props) => props
  | .json (.arr items) => indexedFrom 0 items
  | .json (.str s) => indexedFrom 0 (s.toList.map (fun c => JSONValue.str (String.singleton c)))
  | _ => []

/-- One property written in an object literal: a name already there keeps its
place and takes the new value, a new name goes to the end. -/
def setProp (props : List (String × JSONValue)) (name : String) (v : JSONValue) :
    List (String × JSONValue) :=
  if props.any (fun p => p.1 == name) then
    props.map (fun p => if p.1 == name then (name, v) else p)
  else props ++ [(name, v)]

/-- The properties `more` written one after the other into `props`. -/
def spreadInto (props more : List (String × JSONValue)) : List (String × JSONValue) :=
  more.foldl (fun acc p => setProp acc p.1 p.2) props

/-- What `res.status(status).json(body)` sends. -/
structure Response where
  status : Nat
  body : JSONValue

/-- How a run of a handler ends: the response it sent or the exception it
ended with, whether it called its upstream, and the disk it left. -/
structure Run where
  result : Except JSError Response
  fetched : Bool
  disk : Disk

/-! ## The statistics handler (`pages/api/mgnrega.js`) -/

/-- The object that `fetchFromGov` resolves to when it has data: the object
literal that `normalizeUpstream` returns, whose `trend` is an array. -/
structure Upstream where
  latest : JSONValue
  trend : List JSONValue
  stateAverage : JSONValue
  comparison : JSONValue
  source : JSONValue

/-- How `await fetchFromGov(state, district, month)` ends: it throws, it
resolves to `null`, or it resolves to data. -/
inductive Fetched where
  | throws
  | noData
  | data (u : Upstream)

/-- The `payload` of the handler:
`{ latest, trend: upstream.trend.slice(-(months || DEFAULT_MONTHS)), stateAverage,
comparison, source }`. -/
def Mgnrega.payloadOf (months : Nat) (u : Upstream) : Upstream :=
  let k := if months = 0 then DEFAULT_MONTHS else months
  { u with trend := u.trend.drop (u.trend.length - k) }

/-- The properties of `payload`, in the order of the object literal. -/
def Mgnrega.payloadProps (p : Upstream) : List (String × JSONValue) :=
  [("latest", p.latest), ("trend", .arr p.trend), ("stateAverage", p.stateAverage),
    ("comparison", p.comparison), ("source", p.source)]

/-- The value written to the cache: `{ ...payload, source }` with `source = 'upstream'`. -/
def Mgnrega.cachedValue (p : Upstream) : JSONValue :=
  .obj (setProp (spreadInto [] (Mgnrega.payloadProps p)) "source" (.str "upstream"))

/-- The constant `cacheTTL = 24 * 60 * 60` of the handler. -/
def Mgnrega.cacheTTL : Int := 24 * 60 * 60

/-- A block of the handler that reads the key in stale mode and answers `200`
with `{ fromCache: true, stale: true, ...stale }` when the value is truthy, and
otherwise answers `status` with the error text. -/
def Mgnrega.staleOr (rt : Runtime) (cwd : Path) (cacheKey : JSString) (nowMs : Nat)
    (status : Nat) (error : String) (fetched : Bool) (d : Disk) : Run :=
  match getCached rt cwd cacheKey (.given true) nowMs d with
  | (.error e, d1) => { result := .error e, fetched := fetched, disk := d1 }
  | (.ok stale, d1) =>
    if truthy stale then
      { result := .ok ⟨200, .obj (spreadInto [("fromCache", .bool true), ("stale", .bool true)]
          (spreadProps stale))⟩,
        fetched := fetched, disk := d1 }
    else { result := .ok ⟨status, .obj [("error", .str error)]⟩, fetched := fetched, disk := d1 }

/-- The `payload` after the `try` block: `null` when `fetchFromGov` threw or
resolved to `null`, the object built from its data otherwise. -/
def Mgnrega.payloadFrom (months : Nat) : Fetched → Option Upstream
  | .throws => none
  | .noData => none
  | .data u => some (Mgnrega.payloadOf months u)

/-- The part of the handler after the `try` block: the stale block for no
payload, the stale block for a payload without `latest` or `trend`, the write
to the cache and the answer, and the last stale block. -/
def Mgnrega.afterFetch (rt : Runtime) (cwd : Path) (cacheKey : JSString)
    (payload : Option Upstream) (clock : Nat → Nat) (d : Disk) : Run :=
  if payload.isNone then
    Mgnrega.staleOr rt cwd cacheKey (clock 1) 503
      "Service temporarily unavailable. API is down and no cached data available." true d
  else if payload.isSome &&
      (payload.any (fun p => !truthy (.json p.latest) || !truthy (.json (.arr p.trend)))) then
    Mgnrega.staleOr rt cwd cacheKey (clock 1) 503
      "Service temporarily unavailable. Invalid data and no cache available." true d
  else
    match payload with
    | some p =>
      match setCached rt cwd cacheKey (Mgnrega.cachedValue p) (some Mgnrega.cacheTTL)
          (clock 1) (clock 2) d with
      | (.error e, d2) => { result := .error e, fetched := true, disk := d2 }
      | (.ok _, d2) =>
        { result := .ok ⟨200, .obj (setProp
            (spreadInto [("fromCache", .bool false)] (Mgnrega.payloadProps p))
            "source" (.str "upstream"))⟩,
          fetched := true, disk := d2 }
    | none =>
      Mgnrega.staleOr rt cwd cacheKey (clock 1) 504 "no data available for request" true d

/-- Embeds the `handler` of `pages/api/mgnrega.js`. `upstream` is how the awaited
`fetchFromGov` ends, used only when the handler calls it; `clock i` is the
result of the `i`-th `Date.now()` call of the run. -/
def Mgnrega.handler (rt : Runtime) (ct : CaseTables) (cwd : Path) (q : Query)
    (upstream : Fetched) (clock : Nat → Nat) (d : Disk) : Run :=
  if !truthyText q.state || !truthyText q.district then
    { result := .ok ⟨400, .obj [("error", .str "state and district required")]⟩,
      fetched := false, disk := d }
  else
    match getCached rt cwd
        (mgnregaCacheKey ct (q.state.getD []) (q.district.getD []) q.month q.lastMonths)
        .omitted (clock 0) d with
    | (.error e, d1) => { result := .error e, fetched := false, disk := d1 }
    | (.ok cached, d1) =>
      if truthy cached then
        { result := .ok ⟨200, .obj (spreadInto [("fromCache", .bool true)] (spreadProps cached))⟩,
          fetched := false, disk := d1 }
      else
        Mgnrega.afterFetch rt cwd
          (mgnregaCacheKey ct (q.state.getD []) (q.district.getD []) q.month q.lastMonths)
          (Mgnrega.payloadFrom (parseMonths q.lastMonths) upstream) clock d1

/-! ## `ToString`, `new Set`, `sort()` and `includes` -/

/-! The text of a value under `ToString`: an array is its items joined by commas,
with `null` items as empty text, and an object is `[object Object]`. -/
mutual
def jsToString : JSONValue → JSString
  | .null => js "null"
  | .bool true => js "true"
  | .bool false => js "false"
  | .num n => js (String.mk (showInt n))
  | .str s => js s
  | .arr items => joinItems items
  | .obj _ => js "[object Object]"
def joinItems : List JSONValue → JSString
  | [] => []
  | [v] => itemText v
  | v :: vs => itemText v ++ js "," ++ joinItems vs
def itemText : JSONValue → JSString
  | .null => []
  | .bool true => js "true"
  | .bool false => js "false"
  | .num n => js (String.mk (showInt n))
  | .str s => js s
  | .arr items => joinItems items
  | .obj _ => js "[object Object]"
end

/-- The order of strings by code units: `a` is not after `b`. -/
def unitsLe : JSString → JSString → Bool
  | [], _ => true
  | _ :: _, [] => false
  | a :: as, b :: bs => a < b || (a = b && unitsLe as bs)

/-- Equality of two values as members of a `Set`: primitives by value, arrays
and objects never (each parsed array or object is a value of its own). -/
def sameValueZero : JSValue → JSValue → Bool
  | .undefined, .undefined => true
  | .json .null, .json .null => true
  | .json (.bool a), .json (.bool b) => a = b
  | .json (.num a), .json (.num b) => a = b
  | .json (.str a), .json (.str b) => a = b
  | _, _ => false

/-- Embeds `[...new Set(xs)]`: the first occurrence of each value, in order. -/
def uniqueValues : List JSValue → List JSValue
  | [] => []
  | x :: xs => x :: (uniqueValues xs).filter (fun y => !sameValueZero x y)

/-- One value put into a list sorted by text, before the first item whose text
is not before its own. -/
def insertByText (x : JSONValue) : List JSONValue → List JSONValue
  | [] => [x]
  | y :: ys =>
    if unitsLe (jsToString x) (jsToString y) then x :: y :: ys else y :: insertByText x ys

/-- The defined items of a list, in order. -/
def definedItems : List JSValue → List JSONValue
  | [] => []
  | .undefined :: xs => definedItems xs
  | .json v :: xs => v :: definedItems xs

/-- Embeds `xs.sort()` with the default order: the defined items in ascending order
of their text (items of equal text keep their order), then the `undefined` ones. -/
def defaultSort (xs : List JSValue) : List JSValue :=
  ((definedItems xs).foldr insertByText []).map JSValue.json ++
    xs.filter (fun x => match x with | .undefined => true | .json _ => false)

/-- Embeds `a.includes(b)` for strings: `b` occurs in `a`. -/
def includesText (a b : JSString) : Bool := a.tails.any (fun t => b.isPrefixOf t)

/-- The `district_name` of every record, as `records.map(r => r.district_name)`
reads them; it throws on a `null` record. -/
def districtNames : List JSONValue → Except JSError (List JSValue)
  | [] => .ok []
  | r :: rs =>
    match getProp r "district_name" with
    | .error e => .error e
    | .ok name =>
      match districtNames rs with
      | .error e => .error e
      | .ok names => .ok (name :: names)

/-! ## The district-list handler (`pages/api/districts.js`) -/

/-- How the `https.get` request of the handler ends: the response ends with
the text `data`, the request fails, or it times out. -/
inductive HttpsOutcome where
  | body (data : String)
  | failed
  | timedOut

/-- The list `[...new Set(names)].filter(Boolean).sort()` of the handler. -/
def Districts.listOf (names : List JSValue) : List JSONValue :=
  definedItems (defaultSort ((uniqueValues names).filter truthy))

/-- The `result` of the handler: `{ districts, count: districts.length }`. -/
def Districts.resultOf (names : List JSValue) : List (String × JSONValue) :=
  [("districts", .arr (Districts.listOf names)), ("count", .num (Districts.listOf names).length)]

/-- The body of the `try` block in the `end` callback, up to the response. -/
def Districts.onEnd (rt : Runtime) (cwd : Path) (cacheKey : JSString) (data : String)
    (now₁ now₂ : Nat) (d : Disk) : Except JSError Response × Disk :=
  match rt.parse data with
  | none => (.error .SyntaxError, d)
  | some json =>
    match getProp json "records" with
    | .error e => (.error e, d)
    | .ok (.json (.arr records)) =>
      match districtNames records with
      | .error e => (.error e, d)
      | .ok names =>
        match setCached rt cwd cacheKey (.obj (Districts.resultOf names)) (some (60 * 60 * 24))
            now₁ now₂ d with
        | (.error e, d1) => (.error e, d1)
        | (.ok _, d1) =>
          (.ok ⟨200, .obj (setProp (spreadInto [] (Districts.resultOf names)) "fromCache"
            (.bool false))⟩, d1)
    | .ok _ =>
      (.ok ⟨200, .obj [("districts", .arr []), ("count", .num 0)]⟩, d)

/-- The cache key of the handler: `districts:${state.toUpperCase()}`. -/
def Districts.cacheKey (ct : CaseTables) (state : JSString) : JSString :=
  js "districts:" ++ toUpperCase ct state

/-- Embeds the `handler` of `pages/api/districts.js`. `apiKeySet` says whether
`process.env.DATA_GOV_API_KEY` is set; `upstream` is how the request ends, used
only when the handler makes it. -/
def Districts.handler (rt : Runtime) (ct : CaseTables) (cwd : Path) (state : Option JSString)
    (apiKeySet : Bool) (upstream : HttpsOutcome) (clock : Nat → Nat) (d : Disk) : Run :=
  if !truthyText state then
    { result := .ok ⟨400, .obj [("error", .str "state parameter required")]⟩,
      fetched := false, disk := d }
  else if !apiKeySet then
    { result := .ok ⟨500, .obj [("error", .str "API key not configured")]⟩,
      fetched := false, disk := d }
  else
    match getCached rt cwd (Districts.cacheKey ct (state.getD [])) .omitted (clock 0) d with
    | (.error e, d1) => { result := .error e, fetched := false, disk := d1 }
    | (.ok cached, d1) =>
      if truthy cached then
        { result := .ok ⟨200, .obj (setProp (spreadInto [] (spreadProps cached)) "fromCache"
            (.bool true))⟩,
          fetched := false, disk := d1 }
      else
        match upstream with
        | .body data =>
          match Districts.onEnd rt cwd (Districts.cacheKey ct (state.getD [])) data (clock 1)
              (clock 2) d1 with
          | (.ok response, d2) => { result := .ok response, fetched := true, disk := d2 }
          | (.error _, d2) =>
            { result := .ok ⟨500, .obj [("error", .str "Failed to parse API response"),
                ("districts", .arr [])]⟩,
              fetched := true, disk := d2 }
        | .failed =>
          { result := .ok ⟨500, .obj [("error", .str "Failed to fetch districts"),
              ("districts", .arr [])]⟩,
            fetched := true, disk := d1 }
        | .timedOut =>
          { result := .ok ⟨504, .obj [("error", .str "Request timeout"), ("districts", .arr [])]⟩,
            fetched := true, disk := d1 }

/-! ## The cache writes of the other two handlers -/

/-- The cache key of `pages/api/geolocate.js`: `geolocate:${method}:${lat}:${lon}`. -/
def Geolocate.cacheKey (method lat lon : JSString) : JSString :=
  js "geolocate:" ++ method ++ js ":" ++ lat ++ js ":" ++ lon

/-- The `ttl` of `pages/api/geolocate.js`: `method === 'ip' ? 60 * 60 * 6 : 60 * 30`. -/
def Geolocate.ttl (method : JSString) : Int :=
  if method = js "ip" then 60 * 60 * 6 else 60 * 30

/-- The cache write of the geolocation handler:
`if(districtName){ setCached(cacheKey, result, ttl) }`. -/
def Geolocate.store (rt : Runtime) (cwd : Path) (method lat lon : JSString)
    (districtName : JSValue) (result : JSONValue) (now₁ now₂ : Nat) (d : Disk) :
    Except JSError Unit × Disk :=
  if truthy districtName then
    setCached rt cwd (Geolocate.cacheKey method lat lon) result (some (Geolocate.ttl method))
      now₁ now₂ d
  else (.ok (), d)

/-- The cache write of `pages/api/ip-location.js`:
`if (location) { setCached(cacheKey, location, 60 * 60 * 24) }`. -/
def IpLocation.store (rt : Runtime) (cwd : Path) (userIP : JSString) (location : JSValue)
    (now₁ now₂ : Nat) (d : Disk) : Except JSError Unit × Disk :=
  match location with
  | .undefined => (.ok (), d)
  | .json v =>
    if truthy (.json v) then
      setCached rt cwd (js "ip-location:" ++ userIP) v (some (60 * 60 * 24)) now₁ now₂ d
    else (.ok (), d)

/-! ## `findDistrictData` (`pages/api/mgnrega.js`) -/

/-- Embeds `uniqueDistricts.some(d => normaliseKey(d) === normalizedSearch)`: it stops at
the first match and throws where `normaliseKey` throws. -/
def someMatches (ct : CaseTables) (search : JSString) : List JSValue → Except JSError Bool
  | [] => .ok false
  | d :: ds =>
    match normaliseKeyOf ct d with
    | .error e => .error e
    | .ok k => if k = search then .ok true else someMatches ct search ds

/-- Embeds `uniqueDistricts.filter(d => normaliseKey(d).includes(normalizedSearch) ||
normalizedSearch.includes(normaliseKey(d)))`. -/
def similarNames (ct : CaseTables) (search : JSString) : List JSValue → Except JSError (List JSValue)
  | [] => .ok []
  | d :: ds =>
    match normaliseKeyOf ct d with
    | .error e => .error e
    | .ok k =>
      match similarNames ct search ds with
      | .error e => .error e
      | .ok rest => .ok (if includesText k search || includesText search k then d :: rest else rest)

/-- The logging block of `findDistrictData`; only whether it throws matters. -/
def logAvailable (ct : CaseTables) (search : JSString) (records : List JSONValue) :
    Except JSError Unit :=
  if records.length > 0 then
    match districtNames records with
    | .error e => .error e
    | .ok names =>
      let uniqueDistricts := defaultSort (uniqueValues names)
      match someMatches ct search uniqueDistricts with
      | .error e => .error e
      | .ok true => .ok ()
      | .ok false => (similarNames ct search uniqueDistricts).map (fun _ => ())
  else .ok ()

/-- Embeds `record.district_name || record.district || ''`. -/
def recordDistrict (record : JSONValue) : Except JSError JSValue :=
  match getProp record "district_name" with
  | .error e => .error e
  | .ok name =>
    if truthy name then .ok name
    else
      match getProp record "district" with
      | .error e => .error e
      | .ok other => if truthy other then .ok other else .ok (.json (.str ""))

/-- Embeds `records.find(record => ...)` of `findDistrictData`; `undefined` when no
record passes the test. -/
def findExact (ct : CaseTables) (search : JSString) : List JSONValue → Except JSError JSValue
  | [] => .ok .undefined
  | record :: rest =>
    match recordDistrict record with
    | .error e => .error e
    | .ok name =>
      match normaliseKeyOf ct name with
      | .error e => .error e
      | .ok k => if k = search then .ok (.json record) else findExact ct search rest

/-- Embeds `findDistrictData(records, districtName)` for a string `districtName`. -/
def findDistrictData (ct : CaseTables) (records : JSValue) (districtName : JSString) :
    Except JSError JSValue :=
  match records with
  | .json (.arr items) =>
    let normalizedSearch := normaliseKey ct districtName
    match logAvailable ct normalizedSearch items with
    | .error e => .error e
    | .ok _ => findExact ct normalizedSearch items
  | _ => .ok (.json .null)

/-! ## Words of the specification, for comparison with the code -/

/-- The name the specification compares: `district_name` when it is a
non-empty string, else `district` when it is a non-empty string, else `''`. -/
def comparedName (record : JSONValue) : JSString :=
  match record with
  | .obj props =>
    match props.lookup "district_name" with
    | some (.str s) => if s != "" then js s else
        match props.lookup "district" with
        | some (.str t) => js t
        | _ => []
    | _ =>
      match props.lookup "district" with
      | some (.str t) => js t
      | _ => []
  | _ => []

/-- The first record, in input order, whose compared name, trimmed and
lower-cased, equals the trimmed lower-cased search name. -/
def firstExactMatch (ct : CaseTables) (records : List JSONValue) (search : JSString) :
    Option JSONValue :=
  records.find? (fun r => normaliseKey ct (comparedName r) == normaliseKey ct search)

/-- A record of the upstream dataset: an object whose `district_name` and
`district`, when present, are strings. -/
def isDistrictRecord (record : JSONValue) : Bool :=
  match record with
  | .obj props =>
    (match props.lookup "district_name" with
      | none => true
      | some (.str _) => true
      | some _ => false) &&
    (match props.lookup "district" with
      | none => true
      | some (.str _) => true
      | some _ => false)
  | _ => false

/-- A record that the `find` callback of `findDistrictData` reads without an
exception: an object whose `district_name` and `district` are each absent,
`null` or a string. -/
def hasNullableNames (record : JSONValue) : Bool :=
  match record with
  | .obj props =>
    (match props.lookup "district_name" with
      | none => true
      | some .null => true
      | some (.str _) => true
      | some _ => false) &&
    (match props.lookup "district" with
      | none => true
      | some .null => true
      | some (.str _) => true
      | some _ => false)
  | _ => false

/-- Two strings that differ only in the case of ASCII letters and in leading
and trailing white space: each is a core between two runs of white space,
and the cores agree once their ASCII letters are lower-cased. -/
def differOnlyInCaseAndPadding (a b : JSString) : Prop :=
  ∃ pre core post pre' core' post',
    a = pre ++ core ++ post ∧ b = pre' ++ core' ++ post' ∧
    pre.all isWhiteSpace = true ∧ post.all isWhiteSpace = true ∧
    pre'.all isWhiteSpace = true ∧ post'.all isWhiteSpace = true ∧
    core.map asciiLower = core'.map asciiLower

/-! ## Example data for the handlers -/

/-- The fresh disk after `setCached("\uD800", kerala, 86400)`. -/
def surrogateDisk : Disk :=
  (setCached sampleRuntime appRoot [0xD800] kerala (some 86400)
    1700000000123 1700000000123 freshDisk).2

/-- The disk of `keralaDisk` with another `stored_at` in the record. -/
def keralaDiskLater : Disk :=
  (setCached sampleRuntime appRoot (js "districts:KERALA") kerala (some 86401)
    1699999999000 1700000055555 freshDisk).2

/-- A request for the statistics of Agra in `UP`, with no month and no window. -/
def agraQuery : Query :=
  { state := some (js "UP"), district := some (js " Agra"), lastMonths := none, month := none }

/-- The cache key of `agraQuery`: `mgnrega:up:agra:recent:12`. -/
def agraKey : JSString := js "mgnrega:up:agra:recent:12"

/-- A clock that reads the same at every call. -/
def fixedClock (t : Nat) : Nat → Nat := fun _ => t

/-- The fresh disk after `setCached(agraKey, 0, 60)` at `1700000000123` ms. -/
def zeroDisk : Disk :=
  (setCached sampleRuntime appRoot agraKey (.num 0) (some 60) 1700000000123 1700000000123
    freshDisk).2

/-- Data that `fetchFromGov` may resolve to. -/
def sampleUpstream : Upstream :=
  { latest := .obj [("total_workers", .num 1200)],
    trend := [.obj [("month", .str "2023-10")], .obj [("month", .str "2023-11")]],
    stateAverage := .null,
    comparison := .obj [("rankByWorkers", .num 3)],
    source := .str "upstream" }

/-- The fresh disk after the statistics handler stored `sampleUpstream` for
`agraQuery` at `1700000000123` ms. -/
def agraDisk : Disk :=
  (Mgnrega.handler sampleRuntime sampleCase appRoot agraQuery (.data sampleUpstream)
    (fixedClock 1700000000123) freshDisk).disk

/-- The same request as `agraQuery` in another spelling. -/
def agraQueryAgain : Query :=
  { state := some (js "up "), district := some (js "AGRA"), lastMonths := none, month := none }

/-- An upstream response with three records, two of them for Kollam. -/
def keralaBody : String :=
  "\x7b\"records\":[\x7b\"district_name\":\"Kottayam\"\x7d,\x7b\"district_name\":\"Kollam\"\x7d,\x7b\"district_name\":\"Kollam\"\x7d]\x7d"

/-! ## Object literals with string values and what they inherit -/

/-- The names of the properties that every object literal inherits from
`Object.prototype`. -/
def objectPrototypeNames : List JSString :=
  [js "constructor", js "__defineGetter__", js "__defineSetter__", js "hasOwnProperty",
    js "__lookupGetter__", js "__lookupSetter__", js "isPrototypeOf",
    js "propertyIsEnumerable", js "toString", js "valueOf", js "__proto__",
    js "toLocaleString"]

/-- What `object[name]` evaluates to on an object literal whose own values are
strings: `undefined`, an own string, or the function or object that
`Object.prototype` holds under `name`, which is truthy and is not a string. -/
inductive Looked where
  | undefined
  | text (s : JSString)
  | inherited (name : JSString)
  deriving DecidableEq

/-- Embeds `object[name]`: the own property first, then the prototype. -/
def lookupProperty (own : List (JSString × JSString)) (name : JSString) : Looked :=
  match own.lookup name with
  | some v => .text v
  | none => if name ∈ objectPrototypeNames then .inherited name else .undefined

/-- The object exported by `data/district-mappings.js`. -/
def districtMappings : List (JSString × JSString) :=
  [(js "Allahabad", js "Prayagraj"), (js "Faizabad", js "Ayodhya")]

/-- Embeds `const mappedDistrict = districtMappings[district] || district` of
`fetchFromGov`. -/
def mappedDistrict (district : JSString) : Looked :=
  match lookupProperty districtMappings district with
  | .text v => if v = [] then .text district else .text v
  | .inherited name => .inherited name
  | .undefined => .text district

/-- Embeds `normaliseKey(mappedDistrict)`, the `normalizedSearch` under which
`findDistrictData` compares: `trim` is not a function on an inherited value. -/
def Gov.searchKey (ct : CaseTables) (district : JSString) : Except JSError JSString :=
  match mappedDistrict district with
  | .text s => .ok (normaliseKey ct s)
  | .undefined => .ok (normaliseKey ct [])
  | .inherited _ => .error .TypeError

/-- Embeds `const districtData = findDistrictData(data.records, mappedDistrict)`
of `fetchFromGov`: with an inherited value the call returns `null` for
`records` that is not an array and throws at `normaliseKey` otherwise. -/
def Gov.districtData (ct : CaseTables) (records : JSValue) (district : JSString) :
    Except JSError JSValue :=
  match mappedDistrict district with
  | .text s => findDistrictData ct records s
  | .undefined => findDistrictData ct records []
  | .inherited _ =>
    match records with
    | .json (.arr _) => .error .TypeError
    | _ => .ok (.json .null)

/-! ## The trend months of `normalizeUpstream` -/

/-- A `Date` on a server whose time zone is UTC, as its calendar fields in the
common era: `month` counts from `0` as `getMonth()` does and `day` is the day
of the month. The time of day is left out: `setMonth` keeps it and the month
label does not show it. -/
structure CivilDate where
  year : Nat
  month : Nat
  day : Nat
  deriving DecidableEq

/-- Whether a year has a 29th of February. -/
def isLeapYear (y : Nat) : Bool := (y % 4 = 0 && y % 100 != 0) || y % 400 = 0

/-- The number of days of month `m` (from `0`) of year `y`. -/
def daysInMonth (y m : Nat) : Nat :=
  if m = 1 then (if isLeapYear y then 29 else 28)
  else if m = 3 ∨ m = 5 ∨ m = 8 ∨ m = 10 then 30
  else 31

/-- Embeds `date.setMonth(date.getMonth() - i)` for a day of the month of at
most 31, as `new Date()` has: the month is carried into the year, and a day
after the end of that month is carried into the following month. -/
def setMonthBack (date : CivilDate) (i : Nat) : CivilDate :=
  if date.day ≤ daysInMonth ((date.year * 12 + date.month - i) / 12)
      ((date.year * 12 + date.month - i) % 12) then
    { year := (date.year * 12 + date.month - i) / 12,
      month := (date.year * 12 + date.month - i) % 12,
      day := date.day }
  else
    { year := (date.year * 12 + date.month - i + 1) / 12,
      month := (date.year * 12 + date.month - i + 1) % 12,
      day := date.day - daysInMonth ((date.year * 12 + date.month - i) / 12)
        ((date.year * 12 + date.month - i) % 12) }

/-- The last `width` decimal digits of `n`, as text. -/
def padDigits (width n : Nat) : JSString :=
  (List.range width).reverse.map (fun k => 48 + n / 10 ^ k % 10)

/-- Embeds `date.toISOString().slice(0, 7)`: `YYYY-MM` up to the year 9999; the
text of a later year starts with `+` and six digits. -/
def isoMonth (date : CivilDate) : JSString :=
  if date.year ≤ 9999 then padDigits 4 date.year ++ js "-" ++ padDigits 2 (date.month + 1)
  else (js "+" ++ padDigits 6 date.year).take 7

/-- The constant `seasonalPattern`, in hundredths. -/
def seasonalPattern : List Nat := [75, 78, 82, 88, 93, 96, 91, 85, 90, 95, 98, 100]

/-- A point of the trend: its `month` and the `baselineFactor` of its pass, in
hundredths. The other fields of the point are numbers computed from `latest`,
this factor and `Math.random()`; they are not part of this model. -/
structure TrendPoint where
  month : JSString
  baselineFactor : Nat
  deriving DecidableEq

/-- Embeds the loop `for(let i = monthsBack - 1; i >= 0; i--)` of
`normalizeUpstream`, pass `k` being the one with `i = 11 - k`; `now k` is the
`new Date()` of pass `k`. -/
def trendPoints (now : Nat → CivilDate) : List TrendPoint :=
  (List.range 12).map (fun k =>
    { month := isoMonth (setMonthBack (now k) (11 - k)),
      baselineFactor := seasonalPattern.getD k 0 })

/-! ## The ranking of `computeComparisonFromRecords` -/

/-- A number that `parseInt` returns: `NaN`, an infinity, or a double that is
an integer, given as that integer (`-0` as `0`). -/
inductive ParsedNumber where
  | nan
  | negInf
  | finite (n : Int)
  | posInf
  deriving DecidableEq

/-- The built-in of the runtime that `computeComparisonFromRecords` calls on
`Total_Individuals_Worked`: `parseInt(x)` with one argument, on any value. It
reads the text of the value in base 16 after `0x` and in base 10 otherwise,
and returns a double. -/
structure NumberRuntime where
  parseInt : JSValue → ParsedNumber

/-- Embeds `x || 0` for a number: `NaN` and zero are falsy. -/
def orZero : ParsedNumber → ParsedNumber
  | .nan => .finite 0
  | v => v

/-- Embeds `parseInt(r.Total_Individuals_Worked) || 0` for a record that is not
`null`. -/
def workersOf (nr : NumberRuntime) (record : JSONValue) : ParsedNumber :=
  match getProp record "Total_Individuals_Worked" with
  | .ok x => orZero (nr.parseInt x)
  | .error _ => .finite 0

/-- The sign of the double `b - a` as `sort` reads the value of a comparator:
the difference of two doubles has the sign of their exact difference,
`Infinity - Infinity` is `NaN`, and `NaN` counts as `0`. -/
def differenceSign : ParsedNumber → ParsedNumber → Int
  | .nan, _ => 0
  | _, .nan => 0
  | .finite m, .finite n => Int.sign (m - n)
  | .posInf, .posInf => 0
  | .negInf, .negInf => 0
  | .posInf, _ => 1
  | _, .negInf => 1
  | .negInf, _ => -1
  | _, .posInf => -1

/-- One record put into a list sorted by the comparator
`(a, b) => (parseInt(b.Total_Individuals_Worked) || 0) -
(parseInt(a.Total_Individuals_Worked) || 0)`: before the first record `y` for
which the comparator, called on the record and `y`, is not positive. -/
def insertByWorkers (nr : NumberRuntime) (x : JSONValue) : List JSONValue → List JSONValue
  | [] => [x]
  | y :: ys =>
    if differenceSign (workersOf nr y) (workersOf nr x) ≤ 0 then x :: y :: ys
    else y :: insertByWorkers nr x ys

/-- Embeds `[...stateRecords].sort((a, b) => (parseInt(b.Total_Individuals_Worked) || 0) -
(parseInt(a.Total_Individuals_Worked) || 0))` for records that are not `null`:
descending order of workers, records with equally many keeping their order. -/
def sortByWorkers (nr : NumberRuntime) (records : List JSONValue) : List JSONValue :=
  records.foldr (insertByWorkers nr) []

/-- Embeds `sorted.findIndex(r => normaliseKey(r.district_name) ===
normaliseKey(districtRecord.district_name)) + 1`, counting from position `i`;
`target` is `districtRecord.district_name`. -/
def findRank (ct : CaseTables) (target : JSValue) : List JSONValue → Nat → Except JSError Nat
  | [], _ => .ok 0
  | r :: rs, i =>
    match getProp r "district_name" with
    | .error e => .error e
    | .ok name =>
      match normaliseKeyOf ct name with
      | .error e => .error e
      | .ok k =>
        match normaliseKeyOf ct target with
        | .error e => .error e
        | .ok t => if k = t then .ok (i + 1) else findRank ct target rs (i + 1)

/-- The two counts in the object that `computeComparisonFromRecords` returns.
Its other properties are numbers computed in floating point from the
records; they are not part of this model. -/
structure Comparison where
  rankByWorkers : Nat
  totalDistricts : Nat
  deriving DecidableEq

/-- Whether a value is `null`. -/
def isNull : JSONValue → Bool
  | .null => true
  | _ => false

/-- Embeds `computeComparisonFromRecords(districtRecord, stateRecords)` for an
array `stateRecords`; `none` is `null`. A `null` among the state records makes
the `reduce` callback throw. -/
def computeComparisonFromRecords (ct : CaseTables) (nr : NumberRuntime)
    (districtRecord : JSValue) (stateRecords : List JSONValue) :
    Except JSError (Option Comparison) :=
  if !truthy districtRecord || stateRecords.length = 0 then .ok none
  else if stateRecords.any isNull then .error .TypeError
  else
    match districtRecord with
    | .undefined => .ok none
    | .json record =>
      match getProp record "district_name" with
      | .error e => .error e
      | .ok target =>
        match findRank ct target (sortByWorkers nr stateRecords) 0 with
        | .error e => .error e
        | .ok rank => .ok (some { rankByWorkers := rank, totalDistricts := stateRecords.length })

/-! ## A `parseInt` for examples -/

/-- The number of binary digits of `n`; `fuel` bounds the halvings. -/
def bitLengthFrom : Nat → Nat → Nat
  | 0, _ => 0
  | fuel + 1, n => if n = 0 then 0 else bitLengthFrom fuel (n / 2) + 1

/-- The double nearest to the natural number `n`, ties to the even
significand of 53 bits, as the natural number it equals; a result of more
than 1024 binary digits stands for an infinity. -/
def roundToDouble (n : Nat) : Nat :=
  if bitLengthFrom n n ≤ 53 then n
  else
    (n / 2 ^ (bitLengthFrom n n - 53) +
        (if 2 ^ (bitLengthFrom n n - 54) < n % 2 ^ (bitLengthFrom n n - 53) ∨
            (n % 2 ^ (bitLengthFrom n n - 53) = 2 ^ (bitLengthFrom n n - 54) ∧
              n / 2 ^ (bitLengthFrom n n - 53) % 2 = 1) then 1 else 0)) *
      2 ^ (bitLengthFrom n n - 53)

/-- The value of a hexadecimal digit; `none` for any other code unit. -/
def hexDigitValue (u : Nat) : Option Nat :=
  if 48 ≤ u ∧ u ≤ 57 then some (u - 48)
  else if 97 ≤ u ∧ u ≤ 102 then some (u - 87)
  else if 65 ≤ u ∧ u ≤ 70 then some (u - 55)
  else none

/-- The double with the given sign and the magnitude nearest to `n`; a
magnitude of more than 1024 binary digits, that is `2^1024` or more, is an
infinity. -/
def signedDouble (negative : Bool) (n : Nat) : ParsedNumber :=
  if 1024 < bitLengthFrom (roundToDouble n) (roundToDouble n) then
    (if negative then .negInf else .posInf)
  else .finite (if negative then -(roundToDouble n : Int) else (roundToDouble n : Int))

/-- The `parseInt(s)` of the examples for a string: white space is skipped, a
sign is read, then after `0x` or `0X` the longest run of hexadecimal digits,
and otherwise the longest run of decimal digits; no digit gives `NaN`. -/
def sampleParseIntText (s : JSString) : ParsedNumber :=
  let t := s.dropWhile isWhiteSpace
  let negative := decide (t.head? = some 45)
  let body := if t.head? = some 45 ∨ t.head? = some 43 then t.tail else t
  if body.take 2 = [48, 120] ∨ body.take 2 = [48, 88] then
    let ds := (body.drop 2).takeWhile (fun u => (hexDigitValue u).isSome)
    if ds = [] then .nan
    else signedDouble negative (ds.foldl (fun acc u => acc * 16 + (hexDigitValue u).getD 0) 0)
  else
    let ds := body.takeWhile isDigitUnit
    if ds = [] then .nan else signedDouble negative (digitsValue ds)

/-- The number runtime of the examples: a string and the text of an array are
read by `sampleParseIntText`, a number is read as the double nearest to it
(what `parseInt` gives below `10^21`), every other value gives `NaN`. -/
def sampleNumbers : NumberRuntime where
  parseInt x :=
    match x with
    | .json (.str s) => sampleParseIntText (js s)
    | .json (.arr items) => sampleParseIntText (joinItems items)
    | .json (.num n) => signedDouble (decide (n < 0)) n.natAbs
    | _ => .nan

/-! ## `findDistrictName` (`pages/api/geolocate.js`) -/

/-- The text without the occurrences of `word`, found from left to right;
`skip` counts the code units of an occurrence that are still to be dropped. -/
def removeWordFrom (word : JSString) : Nat → JSString → JSString
  | _, [] => []
  | skip + 1, _ :: rest => removeWordFrom word skip rest
  | 0, u :: rest =>
    if word.isPrefixOf (u :: rest) then removeWordFrom word (word.length - 1) rest
    else u :: removeWordFrom word 0 rest

/-- Embeds `normalise(value)` of `geolocate.js` for a string:
`value.toLowerCase().replace(/district/g, '').replace(/\s+/g, '').trim()`. -/
def Geolocate.normalise (ct : CaseTables) (value : JSString) : JSString :=
  trim ((removeWordFrom (js "district") 0 (toLowerCase ct value)).filter
    (fun u => !isWhiteSpace u))

/-- Embeds `normalise(value='')` for any argument: the default applies to
`undefined`, and `toLowerCase` is not a function on a value that is not a
string. -/
def Geolocate.normaliseOf (ct : CaseTables) : JSValue → Except JSError JSString
  | .undefined => .ok (Geolocate.normalise ct [])
  | .json (.str s) => .ok (Geolocate.normalise ct (js s))
  | .json _ => .error .TypeError

/-- Embeds `acc[key] = value` on an object literal: the name `__proto__` is the
setter of `Object.prototype`, which ignores a string; a name already there
keeps its place and takes the new value; a new name goes to the end. -/
def assignProperty (own : List (JSString × JSString)) (key value : JSString) :
    List (JSString × JSString) :=
  if key = js "__proto__" then own
  else if own.any (fun p => p.1 == key) then
    own.map (fun p => if p.1 == key then (key, value) else p)
  else own ++ [(key, value)]

/-- Embeds `districts.reduce((acc, name) => { acc[normalise(name)] = name; return acc }, {})`
for a list of strings. -/
def districtMapOf (ct : CaseTables) (districts : List JSString) : List (JSString × JSString) :=
  districts.foldl (fun acc name => assignProperty acc (Geolocate.normalise ct name) name) []

/-- The number that a property name denotes when it is an array index: a
canonical decimal numeral below `2^32 - 1`. -/
def arrayIndex (key : JSString) : Option Nat :=
  if key ≠ [] ∧ key.all isDigitUnit = true ∧ (key = [48] ∨ key.head? ≠ some 48) ∧
      digitsValue key < 4294967295 then
    some (digitsValue key)
  else none

/-- One indexed property put into a list in ascending order of index. -/
def insertByIndex (p : Nat × (JSString × JSString)) :
    List (Nat × (JSString × JSString)) → List (Nat × (JSString × JSString))
  | [] => [p]
  | q :: qs => if p.1 ≤ q.1 then p :: q :: qs else q :: insertByIndex p qs

/-- Embeds `Object.entries(object)`: the array indices in ascending order, then
the other names in the order of their creation. -/
def objectEntries (own : List (JSString × JSString)) : List (JSString × JSString) :=
  ((own.filterMap (fun p => (arrayIndex p.1).map (fun i => (i, p)))).foldr insertByIndex []).map
      (fun q => q.2) ++
    own.filter (fun p => (arrayIndex p.1).isNone)

/-- Embeds the inner loop of `findDistrictName`: the first entry whose key
contains `key` or is contained in it; `none` when the loop ends. -/
def partialMatch (key : JSString) : List (JSString × JSString) → Option JSString
  | [] => none
  | (mapKey, mapName) :: rest =>
    if includesText key mapKey || includesText mapKey key then some mapName
    else partialMatch key rest

/-- Embeds the loop `for(const name of possibleNames)` of `findDistrictName` over
the object `districtMap`; `none` is the `null` after the loop. -/
def findAmong (ct : CaseTables) (districtMap : List (JSString × JSString)) :
    List JSValue → Except JSError (Option Looked)
  | [] => .ok none
  | name :: rest =>
    if !truthy name then findAmong ct districtMap rest
    else
      match Geolocate.normaliseOf ct name with
      | .error e => .error e
      | .ok key =>
        match lookupProperty districtMap key with
        | .inherited inheritedName => .ok (some (.inherited inheritedName))
        | .text v =>
          if v ≠ [] then .ok (some (.text v))
          else
            match partialMatch key (objectEntries districtMap) with
            | some mapName => .ok (some (.text mapName))
            | none => findAmong ct districtMap rest
        | .undefined =>
          match partialMatch key (objectEntries districtMap) with
          | some mapName => .ok (some (.text mapName))
          | none => findAmong ct districtMap rest

/-- Embeds `findDistrictName(possibleNames, stateName)`; `districts` is the list
of strings that `fetchDistrictsForState(stateName)` resolves to. -/
def findDistrictName (ct : CaseTables) (possibleNames : List JSValue)
    (districts : List JSString) : Except JSError (Option Looked) :=
  if districts.length = 0 then .ok none
  else findAmong ct (districtMapOf ct districts) possibleNames

/-! ## Records whose names are text -/

/-- A record that is not `null` and whose `district_name`, when present, is a
string. -/
def namedByText (record : JSONValue) : Bool :=
  match getProp record "district_name" with
  | .ok .undefined => true
  | .ok (.json (.str _)) => true
  | _ => false

/-! ## Example data for the upstream search, the trend and the ranking -/

/-- Two upstream records of one state, for the old and the new name of a
district. -/
def renamedRecords : List JSONValue :=
  [.obj [("district_name", .str "PRAYAGRAJ"), ("Total_Individuals_Worked", .str "5")],
    .obj [("district_name", .str "ALLAHABAD"), ("Total_Individuals_Worked", .str "7")]]

/-- A record list with a district whose name is `constructor`. -/
def inheritedNameRecords : List JSONValue := [.obj [("district_name", .str "constructor")]]

/-! ## Words of the specification on names -/

/-- The `district_name` of a record as text; the empty string when the record
has none, which is the default of `normaliseKey`. -/
def districtNameText (record : JSONValue) : JSString :=
  match getProp record "district_name" with
  | .ok (.json (.str s)) => js s
  | _ => []

/-- Whether the record `r` carries the name of `districtRecord`, both trimmed
and lower-cased. -/
def carriesName (ct : CaseTables) (districtRecord r : JSONValue) : Bool :=
  normaliseKey ct (districtNameText r) == normaliseKey ct (districtNameText districtRecord)

/-- The order of worker counts: `a` is at most `b`; `NaN` is in no order. -/
def numberLe : ParsedNumber → ParsedNumber → Bool
  | .nan, _ => false
  | _, .nan => false
  | .negInf, _ => true
  | _, .posInf => true
  | .finite m, .finite n => decide (m ≤ n)
  | _, _ => false

/-- The order of the district list: the text of `a` is not after the text of
`b` in code units. -/
def textLe (a b : JSONValue) : Prop := unitsLe (jsToString a) (jsToString b) = true

instance : DecidableRel textLe :=
  fun a b => inferInstanceAs (Decidable (unitsLe (jsToString a) (jsToString b) = true))

/-! ## Example data for the district list and the ranking -/

/-- An upstream response whose only record is `null`. -/
def nullRecordBody : String := "\x7b\"records\":[null]\x7d"

/-- An upstream response with two records whose `district_name` is the array
`["a"]`. -/
def arrayNameBody : String :=
  "\x7b\"records\":[\x7b\"district_name\":[\"a\"]\x7d,\x7b\"district_name\":[\"a\"]\x7d]\x7d"

/-- A district record of Agra with five workers. -/
def agraRecord : JSONValue :=
  .obj [("district_name", .str "Agra"), ("Total_Individuals_Worked", .str "5")]

/-- State records in which a record whose `district_name` is the number `7`
has more workers than Agra. -/
def numberNameRecords : List JSONValue :=
  [agraRecord, .obj [("district_name", .num 7), ("Total_Individuals_Worked", .str "9")]]

/-- State records in which Mathura has `0x1F`, that is 31, workers and Agra
has 20. -/
def hexRecords : List JSONValue :=
  [.obj [("district_name", .str "Agra"), ("Total_Individuals_Worked", .str "20")],
    .obj [("district_name", .str "Mathura"), ("Total_Individuals_Worked", .str "0x1F")]]

/-- State records whose worker counts `2^53` and `2^53 + 1` are the same
double. -/
def largeRecords : List JSONValue :=
  [.obj [("district_name", .str "Agra"),
      ("Total_Individuals_Worked", .str "9007199254740992")],
    .obj [("district_name", .str "Mathura"),
      ("Total_Individuals_Worked", .str "9007199254740993")]]

/-- State records of three districts, Agra being second by workers. -/
def threeRecords : List JSONValue :=
  [.obj [("district_name", .str "Aligarh"), ("Total_Individuals_Worked", .str "3")],
    .obj [("district_name", .str " AGRA"), ("Total_Individuals_Worked", .num 5)],
    .obj [("district_name", .str "Mathura"), ("Total_Individuals_Worked", .str "12abc")]]

/-! ## Lemmas on the disk and on `getCached` -/

theorem lookup_filter_ne {α β : Type} [BEq α] [LawfulBEq α] (p q : α) (h : q ≠ p)
    (l : List (α × β)) : (l.filter (fun f => f.1 != p)).lookup q = l.lookup q := by
  induction l with
  | nil => rfl
  | cons x xs ih =>
    obtain ⟨a, b⟩ := x
    by_cases hap : a = p
    · subst hap
      have hqa : (q == a) = false := by simpa using h
      simp [List.filter, List.lookup, hqa, ih]
    · have : (a != p) = true := by simpa using hap
      simp only [List.filter, this, List.lookup]
      rw [ih]

theorem writeFileSync_ok {p : Path} {data : String} {d d' : Disk}
    (h : writeFileSync p data d = (.ok (), d')) :
    d.isDir p = false ∧
      d' = { d with files := (p, data) :: d.files.filter (fun f => f.1 != p) } := by
  unfold writeFileSync at h
  split at h
  · simp at h
  · split at h
    · simp at h
    · split at h
      · simp at h
      · simp only [Prod.mk.injEq, true_and] at h
        refine ⟨by simpa using ‹¬ d.isDir p = true›, h.symm⟩

theorem getProp_payload_expires (v : JSONValue) (e s : Int) :
    getProp (payload v e s) "expires_at" = .ok (.json (.num e)) := by
  simp [getProp, payload, List.lookup]

theorem getProp_payload_value (v : JSONValue) (e s : Int) :
    getProp (payload v e s) "value" = .ok (.json v) := by
  simp [getProp, payload, List.lookup]

theorem getCached_record {rt : Runtime} {cwd : Path} {key : JSString} {d : Disk} {raw : String}
    {v : JSONValue} {e s : Int}
    (hdir : d.isDir (keyToFile cwd key) = false)
    (hraw : d.content (keyToFile cwd key) = some raw)
    (hparse : rt.parse raw = some (payload v e s)) (opts : Opts) (nowMs : Nat) :
    getCached rt cwd key opts nowMs d =
      (if ((nowMs / 1000 : Nat) : Int) ≤ e then .ok (.json v)
        else if opts = .given true then .ok (.json v) else .ok (.json .null), d) := by
  have h1 : existsSync (keyToFile cwd key) d = (true, d) := by
    simp [existsSync, Disk.isFile, hdir, hraw]
  have h2 : readFileSync (keyToFile cwd key) d = (.ok raw, d) := by
    simp [readFileSync, hdir, hraw]
  unfold getCached
  simp only [h1]
  unfold getCachedTry
  simp only [h2, hparse, getProp_payload_expires, getProp_payload_value, jsGe, toNumber]
  generalize ((nowMs / 1000 : Nat) : Int) = now
  by_cases hle : now ≤ e
  · simp [hle]
  · cases opts with
    | omitted => simp [hle, allowStale]
    | null => simp [hle, allowStale]
    | given b => cases b <;> simp [hle, allowStale]

/-- The disk after a successful `setCached`. -/
theorem setCached_ok {rt : Runtime} {cwd : Path} {key : JSString} {value : JSONValue}
    {ttl : Option Int} {t₁ t₂ : Nat} {d d' : Disk}
    (h : setCached rt cwd key value ttl t₁ t₂ d = (.ok (), d')) :
    d'.isDir (keyToFile cwd key) = false ∧
      d'.content (keyToFile cwd key) =
        some (rt.stringify (payload value (((t₁ / 1000 : Nat) : Int) + ttl.getD 3600) t₂)) := by
  obtain ⟨hdir, hd'⟩ := writeFileSync_ok h
  subst hd'
  refine ⟨hdir, ?_⟩
  simp [Disk.content, List.lookup]

theorem readFileSync_disk (p : Path) (d : Disk) : (readFileSync p d).2 = d := by
  unfold readFileSync
  repeat' split
  all_goals rfl

theorem getCachedTry_disk (rt : Runtime) (file : Path) (opts : Opts) (nowMs : Nat) (d : Disk) :
    (getCachedTry rt file opts nowMs d).2 = d := by
  have hr := readFileSync_disk file d
  unfold getCachedTry
  repeat' split
  all_goals simp_all
  all_goals split <;> rfl

theorem getCached_disk (rt : Runtime) (cwd : Path) (key : JSString) (opts : Opts) (nowMs : Nat)
    (d : Disk) : (getCached rt cwd key opts nowMs d).2 = d := by
  have ht := getCachedTry_disk rt (keyToFile cwd key) opts nowMs d
  simp only [getCached, existsSync]
  cases d.isDir (keyToFile cwd key) || d.isFile (keyToFile cwd key)
  · rfl
  · simp only
    split
    · next h => rw [h] at ht; exact ht
    · next h => rw [h] at ht; exact ht

theorem writeFileSync_frame {p q : Path} (hpq : p ≠ q) (data : String) (d : Disk) :
    (writeFileSync p data d).2.isDir q = d.isDir q ∧
      (writeFileSync p data d).2.content q = d.content q := by
  unfold writeFileSync
  split
  · exact ⟨rfl, rfl⟩
  · split
    · exact ⟨rfl, rfl⟩
    · split
      · exact ⟨rfl, rfl⟩
      · refine ⟨rfl, ?_⟩
        have hqp : (q == p) = false := by simpa using fun h => hpq h.symm
        simp only [Disk.content, List.lookup, hqp]
        exact lookup_filter_ne p q (fun h => hpq h.symm) d.files

theorem Call.run_frame (rt : Runtime) (cwd : Path) (file : Path) (c : Call) (d : Disk)
    (hc : c.writesTo cwd file = false) :
    (c.run rt cwd d).isDir file = d.isDir file ∧ (c.run rt cwd d).content file = d.content file := by
  cases c with
  | get key opts nowMs => simp [Call.run, getCached_disk]
  | set key value ttl now₁ now₂ =>
    have hne : keyToFile cwd key ≠ file := by simpa [Call.writesTo] using hc
    exact writeFileSync_frame hne _ d

theorem runCalls_frame (rt : Runtime) (cwd : Path) (file : Path) (calls : List Call)
    (hcalls : ∀ c ∈ calls, c.writesTo cwd file = false) (d : Disk) :
    (runCalls rt cwd calls d).isDir file = d.isDir file ∧
      (runCalls rt cwd calls d).content file = d.content file := by
  induction calls generalizing d with
  | nil => exact ⟨rfl, rfl⟩
  | cons c cs ih =>
    have hc := Call.run_frame rt cwd file c d (hcalls c (List.mem_cons_self _ _))
    have hrest := ih (fun c' hc' => hcalls c' (List.mem_cons_of_mem _ hc')) (c.run rt cwd d)
    simp only [runCalls]
    exact ⟨hrest.1.trans hc.1, hrest.2.trans hc.2⟩

theorem getCached_no_content {rt : Runtime} {cwd : Path} {key : JSString} {d : Disk}
    (h : d.content (keyToFile cwd key) = none) (opts : Opts) (nowMs : Nat) :
    getCached rt cwd key opts nowMs d = (.ok (.json .null), d) := by
  simp only [getCached, existsSync, Disk.isFile, h, Option.isSome_none, Bool.or_false]
  cases hdir : d.isDir (keyToFile cwd key)
  · rfl
  · simp [getCachedTry, readFileSync, hdir]

theorem getCached_corrupt {rt : Runtime} {cwd : Path} {key : JSString} {d : Disk} {raw : String}
    (hraw : d.content (keyToFile cwd key) = some raw) (hparse : rt.parse raw = none)
    (opts : Opts) (nowMs : Nat) :
    getCached rt cwd key opts nowMs d = (.ok (.json .null), d) := by
  simp only [getCached, existsSync, Disk.isFile, hraw, Option.isSome_some, Bool.or_true]
  cases hdir : d.isDir (keyToFile cwd key)
  · simp [getCachedTry, readFileSync, hdir, hraw, hparse]
  · simp [getCachedTry, readFileSync, hdir]

theorem getCached_returns (rt : Runtime) (cwd : Path) (key : JSString) (opts : Opts)
    (nowMs : Nat) (d : Disk) : ∃ v, (getCached rt cwd key opts nowMs d).1 = .ok v := by
  simp only [getCached, existsSync]
  cases d.isDir (keyToFile cwd key) || d.isFile (keyToFile cwd key)
  · exact ⟨_, rfl⟩
  · simp only
    split
    · exact ⟨_, rfl⟩
    · exact ⟨_, rfl⟩

theorem filter_eq_filter_ne {α β : Type} [BEq α] [LawfulBEq α] (p : α) (l : List (α × β)) :
    (l.filter (fun f => f.1 != p)).filter (fun f => f.1 == p) = [] := by
  induction l with
  | nil => rfl
  | cons x xs ih =>
    by_cases h : x.1 = p
    · simp [List.filter, h, ih]
    · have h1 : (x.1 != p) = true := by simpa using h
      have h2 : (x.1 == p) = false := by simpa using h
      simp [List.filter, h1, h2, ih]

/-! ## Lemmas on the encoding of keys -/

theorem base64Index_base64Char : ∀ i < 64, base64Index (base64Char i) = i := by decide

theorem base64Char_injOn {i j : Nat} (hi : i < 64) (hj : j < 64)
    (h : base64Char i = base64Char j) : i = j := by
  have := congrArg base64Index h
  rwa [base64Index_base64Char i hi, base64Index_base64Char j hj] at this

theorem base64Char_ne_pad (i : Nat) : base64Char i ≠ '=' := by
  by_cases hi : i < 64
  · revert i
    decide
  · have : base64Alphabet.length ≤ i := by
      have : base64Alphabet.length = 64 := by decide
      omega
    simp [base64Char, List.getD, List.getElem?_eq_none this]

theorem base64Char_eq_slash {i : Nat} (hi : i < 64) : base64Char i = '/' ↔ i = 63 := by
  revert i
  decide

theorem stripPadding_cons_digit (i : Nat) (s : List Char) :
    stripPadding (base64Char i :: s) = base64Char i :: stripPadding s := by
  have h : (base64Char i != '=') = true := by simpa using base64Char_ne_pad i
  simp [stripPadding, List.filter, h]

theorem safe_nil : stripPadding (toBase64 []) = [] := rfl

theorem safe_one (a : Nat) :
    stripPadding (toBase64 [a]) = [base64Char (a / 4), base64Char (a % 4 * 16)] := by
  simp only [toBase64, stripPadding_cons_digit]
  rfl

theorem safe_two (a b : Nat) :
    stripPadding (toBase64 [a, b]) =
      [base64Char (a / 4), base64Char (a % 4 * 16 + b / 16), base64Char (b % 16 * 4)] := by
  simp only [toBase64, stripPadding_cons_digit]
  rfl

theorem safe_three (a b c : Nat) (rest : List Nat) :
    stripPadding (toBase64 (a :: b :: c :: rest)) =
      base64Char (a / 4) :: base64Char (a % 4 * 16 + b / 16) ::
        base64Char (b % 16 * 4 + c / 64) :: base64Char (c % 64) ::
          stripPadding (toBase64 rest) := by
  simp only [toBase64, stripPadding_cons_digit]

/-- Bytes are recovered from the base64 text without its padding. -/
theorem stripPadding_toBase64_injective (b₁ : List Nat) :
    ∀ b₂ : List Nat, (∀ x ∈ b₁, x < 256) → (∀ x ∈ b₂, x < 256) →
      stripPadding (toBase64 b₁) = stripPadding (toBase64 b₂) → b₁ = b₂ := by
  induction b₁ using toBase64.induct with
  | case1 =>
    intro b₂ _ _ h
    rcases b₂ with _ | ⟨a', _ | ⟨b', _ | ⟨c', rest'⟩⟩⟩
    · rfl
    · simp [safe_nil, safe_one] at h
    · simp [safe_nil, safe_two] at h
    · simp [safe_nil, safe_three] at h
  | case2 a =>
    intro b₂ h₁ h₂ h
    rcases b₂ with _ | ⟨a', _ | ⟨b', _ | ⟨c', rest'⟩⟩⟩
    · simp [safe_nil, safe_one] at h
    · simp only [safe_one, List.cons.injEq, and_true] at h
      have ha : a < 256 := h₁ a (by simp)
      have ha' : a' < 256 := h₂ a' (by simp)
      have e1 := base64Char_injOn (by omega) (by omega) h.1
      have e2 := base64Char_injOn (by omega) (by omega) h.2
      have : a = a' := by omega
      rw [this]
    · simp [safe_one, safe_two] at h
    · simp [safe_one, safe_three] at h
  | case3 a b =>
    intro b₂ h₁ h₂ h
    rcases b₂ with _ | ⟨a', _ | ⟨b', _ | ⟨c', rest'⟩⟩⟩
    · simp [safe_nil, safe_two] at h
    · simp [safe_one, safe_two] at h
    · simp only [safe_two, List.cons.injEq, and_true] at h
      have ha : a < 256 := h₁ a (by simp)
      have hb : b < 256 := h₁ b (by simp)
      have ha' : a' < 256 := h₂ a' (by simp)
      have hb' : b' < 256 := h₂ b' (by simp)
      have e1 := base64Char_injOn (by omega) (by omega) h.1
      have e2 := base64Char_injOn (by omega) (by omega) h.2.1
      have e3 := base64Char_injOn (by omega) (by omega) h.2.2
      have : a = a' := by omega
      have : b = b' := by omega
      simp [*]
    · simp [safe_two, safe_three] at h
  | case4 a b c rest ih =>
    intro b₂ h₁ h₂ h
    rcases b₂ with _ | ⟨a', _ | ⟨b', _ | ⟨c', rest'⟩⟩⟩
    · simp [safe_nil, safe_three] at h
    · simp [safe_one, safe_three] at h
    · simp [safe_two, safe_three] at h
    · simp only [safe_three, List.cons.injEq] at h
      have ha : a < 256 := h₁ a (by simp)
      have hb : b < 256 := h₁ b (by simp)
      have hc : c < 256 := h₁ c (by simp)
      have ha' : a' < 256 := h₂ a' (by simp)
      have hb' : b' < 256 := h₂ b' (by simp)
      have hc' : c' < 256 := h₂ c' (by simp)
      have e1 := base64Char_injOn (by omega) (by omega) h.1
      have e2 := base64Char_injOn (by omega) (by omega) h.2.1
      have e3 := base64Char_injOn (by omega) (by omega) h.2.2.1
      have e4 := base64Char_injOn (by omega) (by omega) h.2.2.2.1
      have hrest := ih rest' (fun x hx => h₁ x (by simp [hx])) (fun x hx => h₂ x (by simp [hx]))
        h.2.2.2.2
      have : a = a' := by omega
      have : b = b' := by omega
      have : c = c' := by omega
      simp [*]

theorem utf8EncodeScalar_ne_nil (c : Nat) : utf8EncodeScalar c ≠ [] := by
  unfold utf8EncodeScalar
  split_ifs <;> simp

/-- UTF-8 is a prefix code on the code points below `0x110000`. -/
theorem utf8EncodeScalar_append_inj {a b : Nat} {r₁ r₂ : List Nat}
    (ha : a < 0x110000) (hb : b < 0x110000)
    (h : utf8EncodeScalar a ++ r₁ = utf8EncodeScalar b ++ r₂) : a = b ∧ r₁ = r₂ := by
  unfold utf8EncodeScalar at h
  split_ifs at h <;>
    simp only [List.cons_append, List.nil_append, List.cons.injEq] at h <;>
    first
      | (exfalso; omega)
      | (refine ⟨by omega, ?_⟩; simp [h])

theorem utf8EncodeScalar_lt (c : Nat) : ∀ x ∈ utf8EncodeScalar c, x < 248 := by
  unfold utf8EncodeScalar
  split_ifs <;> simp <;> omega

theorem replacementBytes_lt : ∀ x ∈ replacementBytes, x < 248 := by decide

theorem bufferFrom_lt (k : JSString) : ∀ x ∈ bufferFrom k, x < 248 := by
  induction k using bufferFrom.induct with
  | case1 => simp [bufferFrom]
  | case2 u h =>
    have e : bufferFrom [u] = replacementBytes := by simp [bufferFrom, h]
    rw [e]
    exact replacementBytes_lt
  | case3 u h =>
    have e : bufferFrom [u] = utf8EncodeScalar u := by simp [bufferFrom, h]
    rw [e]
    exact utf8EncodeScalar_lt u
  | case4 u lo rest h1 h2 ih =>
    have e : bufferFrom (u :: lo :: rest) =
        utf8EncodeScalar (0x10000 + (u - 0xD800) * 1024 + (lo - 0xDC00)) ++ bufferFrom rest := by
      simp [bufferFrom, h1, h2]
    rw [e]
    intro x hx
    rcases List.mem_append.1 hx with hx | hx
    · exact utf8EncodeScalar_lt _ x hx
    · exact ih x hx
  | case5 u lo rest h1 h2 ih =>
    have e : bufferFrom (u :: lo :: rest) = replacementBytes ++ bufferFrom (lo :: rest) := by
      simp [bufferFrom, h1, h2]
    rw [e]
    intro x hx
    rcases List.mem_append.1 hx with hx | hx
    · exact replacementBytes_lt x hx
    · exact ih x hx
  | case6 u lo rest h1 h2 ih =>
    have e : bufferFrom (u :: lo :: rest) = replacementBytes ++ bufferFrom (lo :: rest) := by
      simp [bufferFrom, h1, h2]
    rw [e]
    intro x hx
    rcases List.mem_append.1 hx with hx | hx
    · exact replacementBytes_lt x hx
    · exact ih x hx
  | case7 u lo rest h1 h2 ih =>
    have e : bufferFrom (u :: lo :: rest) = utf8EncodeScalar u ++ bufferFrom (lo :: rest) := by
      simp [bufferFrom, h1, h2]
    rw [e]
    intro x hx
    rcases List.mem_append.1 hx with hx | hx
    · exact utf8EncodeScalar_lt _ x hx
    · exact ih x hx

/-- The first code point of a well-formed, non-empty string: one unit outside
the surrogate range or a surrogate pair. -/
theorem wellFormed_head (k : JSString) (hk : wellFormed k = true) (hne : k ≠ []) :
    ∃ c units tail, k = units ++ tail ∧ wellFormed tail = true ∧ tail.length < k.length ∧
      bufferFrom k = utf8EncodeScalar c ++ bufferFrom tail ∧ c < 0x110000 ∧
      ((units = [c] ∧ c < 0x10000) ∨
        (∃ hi lo, units = [hi, lo] ∧ 0xD800 ≤ hi ∧ hi ≤ 0xDBFF ∧ 0xDC00 ≤ lo ∧ lo ≤ 0xDFFF ∧
          c = 0x10000 + (hi - 0xD800) * 1024 + (lo - 0xDC00))) := by
  rcases k with _ | ⟨u, _ | ⟨lo, rest⟩⟩
  · exact absurd rfl hne
  · simp only [wellFormed, Bool.and_eq_true, decide_eq_true_eq, Bool.not_eq_true'] at hk
    obtain ⟨⟨hu, hh⟩, hl⟩ := hk
    refine ⟨u, [u], [], rfl, rfl, by simp, ?_, by omega, Or.inl ⟨rfl, hu⟩⟩
    simp [bufferFrom, hh, hl]
  · by_cases hh : isHighSurrogate u = true
    · simp only [wellFormed, hh, if_true, Bool.and_eq_true] at hk
      obtain ⟨hl, hrest⟩ := hk
      have hh' := hh
      have hl' := hl
      simp only [isHighSurrogate, isLowSurrogate, Bool.and_eq_true, decide_eq_true_eq] at hh' hl'
      refine ⟨0x10000 + (u - 0xD800) * 1024 + (lo - 0xDC00), [u, lo], rest, rfl, hrest,
        by simp only [List.length_cons]; omega, ?_, by omega, Or.inr ⟨u, lo, rfl, hh'.1, hh'.2, hl'.1, hl'.2, rfl⟩⟩
      simp [bufferFrom, hh, hl]
    · rw [wellFormed, if_neg hh] at hk
      simp only [Bool.and_eq_true, decide_eq_true_eq, Bool.not_eq_true'] at hk
      obtain ⟨⟨hu, hl⟩, hrest⟩ := hk
      refine ⟨u, [u], lo :: rest, rfl, hrest, by simp, ?_, by omega, Or.inl ⟨rfl, hu⟩⟩
      simp [bufferFrom, hh, hl]

theorem bufferFrom_injective_aux (n : Nat) :
    ∀ k₁ k₂ : JSString, k₁.length ≤ n → wellFormed k₁ = true → wellFormed k₂ = true →
      bufferFrom k₁ = bufferFrom k₂ → k₁ = k₂ := by
  induction n with
  | zero =>
    intro k₁ k₂ hlen _ h₂ h
    have hk₁ : k₁ = [] := List.length_eq_zero.1 (by omega)
    subst hk₁
    by_cases hk₂ : k₂ = []
    · exact hk₂.symm
    · obtain ⟨c, _, tail, -, -, -, hb, -, -⟩ := wellFormed_head k₂ h₂ hk₂
      rw [hb] at h
      have : utf8EncodeScalar c = [] := (List.append_eq_nil.1 h.symm).1
      exact absurd this (utf8EncodeScalar_ne_nil c)
  | succ n ih =>
    intro k₁ k₂ hlen h₁ h₂ h
    by_cases hk₁ : k₁ = []
    · subst hk₁
      by_cases hk₂ : k₂ = []
      · exact hk₂.symm
      · obtain ⟨c, _, tail, -, -, -, hb, -, -⟩ := wellFormed_head k₂ h₂ hk₂
        rw [hb] at h
        have : utf8EncodeScalar c = [] := (List.append_eq_nil.1 h.symm).1
        exact absurd this (utf8EncodeScalar_ne_nil c)
    · by_cases hk₂ : k₂ = []
      · subst hk₂
        obtain ⟨c, _, tail, -, -, -, hb, -, -⟩ := wellFormed_head k₁ h₁ hk₁
        rw [hb] at h
        have : utf8EncodeScalar c = [] := (List.append_eq_nil.1 h).1
        exact absurd this (utf8EncodeScalar_ne_nil c)
      · obtain ⟨c₁, u₁, t₁, e₁, w₁, l₁, hb₁, hc₁, hu₁⟩ := wellFormed_head k₁ h₁ hk₁
        obtain ⟨c₂, u₂, t₂, e₂, w₂, -, hb₂, hc₂, hu₂⟩ := wellFormed_head k₂ h₂ hk₂
        rw [hb₁, hb₂] at h
        obtain ⟨hc, ht⟩ := utf8EncodeScalar_append_inj hc₁ hc₂ h
        have htail : t₁ = t₂ := ih t₁ t₂ (by omega) w₁ w₂ ht
        have hunits : u₁ = u₂ := by
          rcases hu₁ with ⟨e, hlt⟩ | ⟨hi, lo, e, a1, a2, a3, a4, a5⟩ <;>
            rcases hu₂ with ⟨e', hlt'⟩ | ⟨hi', lo', e', b1, b2, b3, b4, b5⟩
          · rw [e, e', hc]
          · omega
          · omega
          · have : hi = hi' := by omega
            have : lo = lo' := by omega
            simp [e, e', *]
        rw [e₁, e₂, hunits, htail]

/-- On strings without unpaired surrogates, the bytes determine the string. -/
theorem bufferFrom_injective {k₁ k₂ : JSString} (h₁ : wellFormed k₁ = true)
    (h₂ : wellFormed k₂ = true) (h : bufferFrom k₁ = bufferFrom k₂) : k₁ = k₂ :=
  bufferFrom_injective_aux k₁.length k₁ k₂ (Nat.le_refl _) h₁ h₂ h

theorem splitSlash_ne_nil (s : List Char) : splitSlash s ≠ [] := by
  cases s with
  | nil => simp [splitSlash]
  | cons c cs =>
    unfold splitSlash
    split
    · simp
    · split <;> simp

theorem splitSlash_cons_slash (cs : List Char) : splitSlash ('/' :: cs) = [] :: splitSlash cs := by
  simp [splitSlash]

theorem splitSlash_cons_other {c : Char} (hc : c ≠ '/') (cs : List Char) :
    ∃ s ss, splitSlash cs = s :: ss ∧ splitSlash (c :: cs) = (c :: s) :: ss := by
  rcases h : splitSlash cs with _ | ⟨s, ss⟩
  · exact absurd h (splitSlash_ne_nil cs)
  · exact ⟨s, ss, rfl, by simp [splitSlash, hc, h]⟩

theorem joinSlash_cons_cons (c : Char) (s : List Char) (ss : List (List Char)) :
    joinSlash ((c :: s) :: ss) = c :: joinSlash (s :: ss) := by
  cases ss <;> simp [joinSlash]

theorem joinSlash_nil_cons {ss : List (List Char)} (h : ss ≠ []) :
    joinSlash ([] :: ss) = '/' :: joinSlash ss := by
  cases ss with
  | nil => exact absurd rfl h
  | cons t rest => simp [joinSlash]

theorem joinSlash_splitSlash (s : List Char) : joinSlash (splitSlash s) = s := by
  induction s with
  | nil => simp [splitSlash, joinSlash]
  | cons c cs ih =>
    by_cases hc : c = '/'
    · subst hc
      rw [splitSlash_cons_slash, joinSlash_nil_cons (splitSlash_ne_nil cs), ih]
    · obtain ⟨s, ss, h1, h2⟩ := splitSlash_cons_other hc cs
      rw [h2, joinSlash_cons_cons, ← h1, ih]

theorem splitSlash_injective {s t : List Char} (h : splitSlash s = splitSlash t) : s = t := by
  have := congrArg joinSlash h
  rwa [joinSlash_splitSlash, joinSlash_splitSlash] at this

theorem normalizeOnto_plain (segs : List (List Char)) :
    ∀ base : Path, (∀ seg ∈ segs, seg ≠ [] ∧ seg ≠ ['.'] ∧ seg ≠ ['.', '.']) →
      normalizeOnto base segs = base ++ segs := by
  induction segs with
  | nil => intro base _; simp [normalizeOnto]
  | cons seg segs ih =>
    intro base h
    obtain ⟨h1, h2, h3⟩ := h seg (by simp)
    rw [normalizeOnto, if_neg (by simp [h1, h2]), if_neg h3,
      ih _ (fun x hx => h x (by simp [hx]))]
    simp

theorem noEmptyPiece_mono {x : List Char} (h : noEmptyPiece true x = true) :
    noEmptyPiece false x = true := by
  cases x with
  | nil => simp [noEmptyPiece] at h
  | cons c cs =>
    by_cases hc : c = '/'
    · simp [noEmptyPiece, hc] at h
    · simpa [noEmptyPiece, hc] using h

theorem noEmptyPiece_pieces (t : List Char) :
    ∀ b : Bool, noEmptyPiece b t = true →
      (∀ seg ∈ (splitSlash t).tail, seg ≠ []) ∧
        (b = true → ∀ x, (splitSlash t).head? = some x → x ≠ []) := by
  induction t with
  | nil =>
    intro b h
    cases b <;> simp [noEmptyPiece, splitSlash] at h ⊢
  | cons c cs ih =>
    intro b h
    by_cases hc : c = '/'
    · subst hc
      simp only [noEmptyPiece, if_true, Bool.and_eq_true, Bool.not_eq_true'] at h
      obtain ⟨hb, hcs⟩ := h
      obtain ⟨htail, hhead⟩ := ih true hcs
      rw [splitSlash_cons_slash]
      refine ⟨?_, by simp [hb]⟩
      intro seg hseg
      simp only [List.tail_cons] at hseg
      rcases hl : splitSlash cs with _ | ⟨s, ss⟩
      · exact absurd hl (splitSlash_ne_nil cs)
      · rw [hl] at hseg htail hhead
        rcases List.mem_cons.1 hseg with hs | hs
        · rw [hs]; exact hhead rfl s rfl
        · exact htail seg (by simpa using hs)
    · simp only [noEmptyPiece, if_neg hc] at h
      obtain ⟨htail, -⟩ := ih false h
      obtain ⟨s, ss, h1, h2⟩ := splitSlash_cons_other hc cs
      rw [h2]
      rw [h1] at htail
      refine ⟨by simpa using htail, ?_⟩
      intro _ x hx
      simp only [List.head?_cons, Option.some.injEq] at hx
      simp [← hx]

theorem noEmptyPiece_all {t : List Char} (h : noEmptyPiece true t = true) :
    ∀ seg ∈ splitSlash t, seg ≠ [] := by
  obtain ⟨htail, hhead⟩ := noEmptyPiece_pieces t true h
  intro seg hseg
  rcases hl : splitSlash t with _ | ⟨s, ss⟩
  · exact absurd hl (splitSlash_ne_nil t)
  · rw [hl] at hseg htail hhead
    rcases List.mem_cons.1 hseg with hs | hs
    · rw [hs]; exact hhead rfl s rfl
    · exact htail seg (by simpa using hs)

theorem dotsFollowed_pieces (t : List Char) :
    dotsFollowed t = true → ∀ seg ∈ splitSlash t, seg ≠ ['.'] ∧ seg ≠ ['.', '.'] := by
  induction t using dotsFollowed.induct with
  | case1 => intro _ seg hseg; simp [splitSlash] at hseg; simp [hseg]
  | case2 c =>
    intro h seg hseg
    have hc : c ≠ '.' := by simpa [dotsFollowed] using h
    by_cases hs : c = '/'
    · subst hs
      simp [splitSlash] at hseg
      simp [hseg]
    · simp [splitSlash, hs] at hseg
      simp [hseg, hc]
  | case3 c c' cs ih =>
    intro h seg hseg
    simp only [dotsFollowed, Bool.and_eq_true, Bool.or_eq_true, bne_iff_ne, ne_eq] at h
    obtain ⟨hcond, hrest⟩ := h
    have ih' := ih hrest
    by_cases hs : c = '/'
    · subst hs
      rw [splitSlash_cons_slash] at hseg
      rcases List.mem_cons.1 hseg with rfl | hmem
      · simp
      · exact ih' seg hmem
    · obtain ⟨s, ss, h1, h2⟩ := splitSlash_cons_other hs (c' :: cs)
      rw [h2] at hseg
      rw [h1] at ih'
      rcases List.mem_cons.1 hseg with rfl | hmem
      · by_cases hdot : c = '.'
        · have hc' : c' ≠ '/' ∧ c' ≠ '.' := by
            rcases hcond with h | h
            · exact absurd hdot h
            · exact h
          obtain ⟨s', ss', -, h2'⟩ := splitSlash_cons_other hc'.1 cs
          rw [h2'] at h1
          simp only [List.cons.injEq] at h1
          rw [← h1.1]
          simp [hc'.2]
        · simp [hdot]
      · exact ih' seg (by simp [hmem])

theorem dotsFollowed_cons {c : Char} (hc : c ≠ '.') {x : List Char}
    (hx : dotsFollowed x = true) : dotsFollowed (c :: x) = true := by
  cases x with
  | nil => simpa [dotsFollowed] using hc
  | cons c' cs => simp [dotsFollowed, hc, hx]

theorem dotsFollowed_append (s w : List Char) (hs : ∀ c ∈ s, c ≠ '.')
    (hw : dotsFollowed w = true) : dotsFollowed (s ++ w) = true := by
  induction s with
  | nil => simpa using hw
  | cons c cs ih =>
    exact dotsFollowed_cons (hs c (by simp)) (ih (fun x hx => hs x (by simp [hx])))

theorem base64Char_ne_dot (i : Nat) : base64Char i ≠ '.' := by
  by_cases hi : i < 64
  · revert i
    decide
  · have : base64Alphabet.length ≤ i := by
      have : base64Alphabet.length = 64 := by decide
      omega
    simp [base64Char, List.getD, List.getElem?_eq_none this]

theorem safe_no_dot (bs : List Nat) : ∀ c ∈ stripPadding (toBase64 bs), c ≠ '.' := by
  induction bs using toBase64.induct with
  | case1 => simp [safe_nil]
  | case2 a =>
    intro c hc
    simp only [safe_one, List.mem_cons, List.mem_singleton, List.not_mem_nil, or_false] at hc
    rcases hc with rfl | rfl <;> exact base64Char_ne_dot _
  | case3 a b =>
    intro c hc
    simp only [safe_two, List.mem_cons, List.mem_singleton, List.not_mem_nil, or_false] at hc
    rcases hc with rfl | rfl | rfl <;> exact base64Char_ne_dot _
  | case4 a b c rest ih =>
    intro x hx
    simp only [safe_three, List.mem_cons] at hx
    rcases hx with rfl | rfl | rfl | rfl | hx
    · exact base64Char_ne_dot _
    · exact base64Char_ne_dot _
    · exact base64Char_ne_dot _
    · exact base64Char_ne_dot _
    · exact ih x hx

theorem noEmptyPiece_quad {c₀ c₁ c₂ c₃ : Char} {tail : List Char} (h₀ : c₀ ≠ '/')
    (h₁₂ : c₁ = '/' → c₂ ≠ '/') (h₂₃ : c₂ = '/' → c₃ ≠ '/')
    (htail : noEmptyPiece true tail = true) :
    noEmptyPiece true (c₀ :: c₁ :: c₂ :: c₃ :: tail) = true := by
  have hmono := noEmptyPiece_mono htail
  by_cases h1 : c₁ = '/' <;> by_cases h2 : c₂ = '/' <;> by_cases h3 : c₃ = '/' <;>
    simp_all [noEmptyPiece]

theorem noEmptyPiece_triple {c₀ c₁ c₂ : Char} {tail : List Char} (h₀ : c₀ ≠ '/')
    (h₂ : c₂ ≠ '/') (htail : noEmptyPiece false tail = true) :
    noEmptyPiece true (c₀ :: c₁ :: c₂ :: tail) = true := by
  by_cases h1 : c₁ = '/' <;> simp_all [noEmptyPiece]

theorem noEmptyPiece_pair {c₀ c₁ : Char} {tail : List Char} (h₀ : c₀ ≠ '/')
    (h₁ : c₁ ≠ '/') (htail : noEmptyPiece false tail = true) :
    noEmptyPiece true (c₀ :: c₁ :: tail) = true := by
  simp_all [noEmptyPiece]

theorem safe_noEmptyPiece (w : List Char) (hw : noEmptyPiece true w = true) (bs : List Nat) :
    (∀ x ∈ bs, x < 252) → noEmptyPiece true (stripPadding (toBase64 bs) ++ w) = true := by
  induction bs using toBase64.induct with
  | case1 => intro _; simpa [safe_nil] using hw
  | case2 a =>
    intro h
    have ha : a < 252 := h a (by simp)
    rw [safe_one]
    refine noEmptyPiece_pair ?_ ?_ (noEmptyPiece_mono hw)
    · intro e
      have := (base64Char_eq_slash (by omega)).1 e
      omega
    · intro e
      have := (base64Char_eq_slash (by omega)).1 e
      omega
  | case3 a b =>
    intro h
    have ha : a < 252 := h a (by simp)
    have hb : b < 252 := h b (by simp)
    rw [safe_two]
    refine noEmptyPiece_triple ?_ ?_ (noEmptyPiece_mono hw)
    · intro e
      have := (base64Char_eq_slash (by omega)).1 e
      omega
    · intro e
      have := (base64Char_eq_slash (by omega)).1 e
      omega
  | case4 a b c rest ih =>
    intro h
    have ha : a < 252 := h a (by simp)
    have hb : b < 252 := h b (by simp)
    have hc : c < 252 := h c (by simp)
    rw [safe_three]
    refine noEmptyPiece_quad ?_ ?_ ?_ (ih (fun x hx => h x (by simp [hx])))
    · intro e
      have := (base64Char_eq_slash (by omega)).1 e
      omega
    · intro e e'
      have := (base64Char_eq_slash (by omega)).1 e
      have := (base64Char_eq_slash (by omega)).1 e'
      omega
    · intro e e'
      have := (base64Char_eq_slash (by omega)).1 e
      have := (base64Char_eq_slash (by omega)).1 e'
      omega

/-- The record file of a key: the pieces of `safe + '.json'` between its
slashes, below the cache directory; nothing is dropped by `path.join`. -/
theorem keyToFile_eq (cwd : Path) (key : JSString) :
    keyToFile cwd key = cacheDir cwd ++ splitSlash (safeName key ++ ".json".toList) := by
  have hlt : ∀ x ∈ bufferFrom key, x < 252 := fun x hx => by
    have := bufferFrom_lt key x hx
    omega
  have hne := noEmptyPiece_all
    (safe_noEmptyPiece ".json".toList (by decide) (bufferFrom key) hlt)
  have hdot := dotsFollowed_pieces _
    (dotsFollowed_append _ ".json".toList (safe_no_dot (bufferFrom key)) (by decide))
  simp only [keyToFile, pathJoin, List.foldl]
  exact normalizeOnto_plain _ _ (fun seg hseg => ⟨hne seg hseg, hdot seg hseg⟩)

theorem splitSlash_no_slash {s : List Char} (h : '/' ∉ s) : splitSlash s = [s] := by
  induction s with
  | nil => rfl
  | cons c cs ih =>
    have hc : c ≠ '/' := fun e => h (by simp [e])
    have hcs : '/' ∉ cs := fun e => h (by simp [e])
    simp [splitSlash, hc, ih hcs]

/-- A key whose encoded name has no `/` has its record file directly inside
the cache directory, under the name `safe + '.json'`. -/
theorem keyToFile_of_no_slash (cwd : Path) (key : JSString) (h : '/' ∉ safeName key) :
    keyToFile cwd key = cacheDir cwd ++ [safeName key ++ ".json".toList] := by
  have hs : '/' ∉ safeName key ++ ".json".toList := by
    intro hmem
    rcases List.mem_append.1 hmem with h' | h'
    · exact h h'
    · revert h'
      decide
  rw [keyToFile_eq, splitSlash_no_slash hs]

theorem keyToFile_injective {cwd : Path} {k₁ k₂ : JSString} (h₁ : wellFormed k₁ = true)
    (h₂ : wellFormed k₂ = true) (h : keyToFile cwd k₁ = keyToFile cwd k₂) : k₁ = k₂ := by
  rw [keyToFile_eq, keyToFile_eq] at h
  have hs := List.append_cancel_right (splitSlash_injective (List.append_cancel_left h))
  have hb := stripPadding_toBase64_injective _ _
    (fun x hx => by have := bufferFrom_lt k₁ x hx; omega)
    (fun x hx => by have := bufferFrom_lt k₂ x hx; omega) hs
  exact bufferFrom_injective h₁ h₂ hb

/-! ## The properties of the cache -/

/-- Claim C1 (round trip). After `setCached(k, v, ttl)` with `ttl > 0` succeeds
at time `t`, for a value that survives `JSON.stringify` then `JSON.parse` inside
its record, `getCached(k)` evaluated at the same time `t` on the disk the write
left returns `v`, whatever the options, and leaves the disk as it is. -/
theorem setCached_getCached_roundTrip (rt : Runtime) (cwd : Path) (key : JSString)
    (value : JSONValue) (ttl : Option Int) (t : Nat) (d d' : Disk)
    (httl : 0 < ttl.getD 3600)
    (hset : setCached rt cwd key value ttl t t d = (.ok (), d'))
    (hjson : rt.parse (rt.stringify (payload value (((t / 1000 : Nat) : Int) + ttl.getD 3600) t))
      = some (payload value (((t / 1000 : Nat) : Int) + ttl.getD 3600) t))
    (opts : Opts) :
    getCached rt cwd key opts t d' = (.ok (.json value), d') := by
  obtain ⟨hdir, hraw⟩ := setCached_ok hset
  have hle : ((t / 1000 : Nat) : Int) ≤ ((t / 1000 : Nat) : Int) + ttl.getD 3600 := by omega
  rw [getCached_record hdir hraw hjson opts t, if_pos hle]

theorem setCached_getCached_roundTrip_witness :
    setCached sampleRuntime appRoot (js "districts:KERALA") kerala (some 86400)
        1700000000123 1700000000123 freshDisk = (.ok (), keralaDisk) ∧
      getCached sampleRuntime appRoot (js "districts:KERALA") .omitted 1700000000123 keralaDisk
        = (.ok (.json kerala), keralaDisk) :=
  ⟨rfl, setCached_getCached_roundTrip sampleRuntime appRoot (js "districts:KERALA") kerala
    (some 86400) 1700000000123 freshDisk keralaDisk (by decide) rfl rfl .omitted⟩

/-- Claim C2 (fresh-only expiry rule). For a record written by `setCached` with
expiry instant `E = floor(now₁ / 1000) + ttl`, `getCached(key)` with `allowStale`
false or left out, called when the clock reads `nowMs`, returns the stored value
when `floor(nowMs / 1000) ≤ E` (the boundary included) and `null` when
`floor(nowMs / 1000) > E`. -/
theorem getCached_fresh_expiry (rt : Runtime) (cwd : Path) (key : JSString)
    (value : JSONValue) (ttl : Option Int) (now₁ now₂ : Nat) (d d' : Disk)
    (hset : setCached rt cwd key value ttl now₁ now₂ d = (.ok (), d'))
    (hjson :
      rt.parse (rt.stringify (payload value (((now₁ / 1000 : Nat) : Int) + ttl.getD 3600) now₂))
        = some (payload value (((now₁ / 1000 : Nat) : Int) + ttl.getD 3600) now₂))
    (opts : Opts) (hfresh : opts = .omitted ∨ opts = .given false) (nowMs : Nat) :
    (((nowMs / 1000 : Nat) : Int) ≤ ((now₁ / 1000 : Nat) : Int) + ttl.getD 3600 →
        getCached rt cwd key opts nowMs d' = (.ok (.json value), d')) ∧
      (((now₁ / 1000 : Nat) : Int) + ttl.getD 3600 < ((nowMs / 1000 : Nat) : Int) →
        getCached rt cwd key opts nowMs d' = (.ok (.json .null), d')) := by
  obtain ⟨hdir, hraw⟩ := setCached_ok hset
  rw [getCached_record hdir hraw hjson opts nowMs]
  have hstale : opts ≠ .given true := by rcases hfresh with h | h <;> simp [h]
  constructor
  · intro hle
    rw [if_pos hle]
  · intro hlt
    have hle : ¬ ((nowMs / 1000 : Nat) : Int) ≤ ((now₁ / 1000 : Nat) : Int) + ttl.getD 3600 := by
      omega
    rw [if_neg hle, if_neg hstale]

theorem getCached_fresh_expiry_witness :
    getCached sampleRuntime appRoot (js "districts:KERALA") .omitted 1700086400999 keralaDisk
        = (.ok (.json kerala), keralaDisk) ∧
      getCached sampleRuntime appRoot (js "districts:KERALA") .omitted 1700086401000 keralaDisk
        = (.ok (.json .null), keralaDisk) :=
  ⟨(getCached_fresh_expiry sampleRuntime appRoot (js "districts:KERALA") kerala (some 86400)
      1700000000123 1700000000123 freshDisk keralaDisk rfl rfl .omitted (Or.inl rfl)
      1700086400999).1 (by decide),
    (getCached_fresh_expiry sampleRuntime appRoot (js "districts:KERALA") kerala (some 86400)
      1700000000123 1700000000123 freshDisk keralaDisk rfl rfl .omitted (Or.inl rfl)
      1700086401000).2 (by decide)⟩

/-- Claim C3 (stale fallback). After a successful `setCached(k, v, ttl)`, and
after any list of further calls (reads of any key in any mode at any time, and
writes that do not go to the record file of `k`), `getCached(k, { allowStale:
true })` returns `v` at every clock reading. -/
theorem getCached_stale_fallback (rt : Runtime) (cwd : Path) (key : JSString)
    (value : JSONValue) (ttl : Option Int) (now₁ now₂ : Nat) (d d' : Disk)
    (hset : setCached rt cwd key value ttl now₁ now₂ d = (.ok (), d'))
    (hjson :
      rt.parse (rt.stringify (payload value (((now₁ / 1000 : Nat) : Int) + ttl.getD 3600) now₂))
        = some (payload value (((now₁ / 1000 : Nat) : Int) + ttl.getD 3600) now₂))
    (calls : List Call) (hcalls : ∀ c ∈ calls, c.writesTo cwd (keyToFile cwd key) = false)
    (nowMs : Nat) :
    getCached rt cwd key (.given true) nowMs (runCalls rt cwd calls d')
      = (.ok (.json value), runCalls rt cwd calls d') := by
  obtain ⟨hdir, hraw⟩ := setCached_ok hset
  obtain ⟨hdir', hraw'⟩ := runCalls_frame rt cwd (keyToFile cwd key) calls hcalls d'
  rw [getCached_record (hdir'.trans hdir) (hraw'.trans hraw) hjson (.given true) nowMs]
  split
  · rfl
  · rw [if_pos rfl]

theorem getCached_stale_fallback_witness :
    getCached sampleRuntime appRoot (js "districts:KERALA") (.given true) 4102444800000
        (runCalls sampleRuntime appRoot
          [.get (js "districts:KERALA") .omitted 1800000000000,
           .set (js "districts:GOA") (.num 1) (some 60) 1800000000000 1800000000000,
           .get (js "districts:GOA") (.given true) 1900000000000] keralaDisk)
      = (.ok (.json kerala),
          runCalls sampleRuntime appRoot
            [.get (js "districts:KERALA") .omitted 1800000000000,
             .set (js "districts:GOA") (.num 1) (some 60) 1800000000000 1800000000000,
             .get (js "districts:GOA") (.given true) 1900000000000] keralaDisk) :=
  getCached_stale_fallback sampleRuntime appRoot (js "districts:KERALA") kerala (some 86400)
    1700000000123 1700000000123 freshDisk keralaDisk rfl rfl _ (by decide) 4102444800000

/-- Claim C4 (absent key). When no record file exists for the key, and after
any list of further calls none of which writes that file, `getCached` returns
`null` for every options value, so with `allowStale` false and with
`allowStale` true. -/
theorem getCached_absent_key (rt : Runtime) (cwd : Path) (key : JSString) (d : Disk)
    (habsent : d.content (keyToFile cwd key) = none)
    (calls : List Call) (hcalls : ∀ c ∈ calls, c.writesTo cwd (keyToFile cwd key) = false)
    (opts : Opts) (nowMs : Nat) :
    getCached rt cwd key opts nowMs (runCalls rt cwd calls d)
      = (.ok (.json .null), runCalls rt cwd calls d) := by
  obtain ⟨-, hraw⟩ := runCalls_frame rt cwd (keyToFile cwd key) calls hcalls d
  exact getCached_no_content (hraw.trans habsent) opts nowMs

theorem getCached_absent_key_witness :
    getCached sampleRuntime appRoot (js "never-set-key") (.given true) 1700000000123
        (runCalls sampleRuntime appRoot
          [.set (js "districts:GOA") (.num 1) (some 60) 1700000000000 1700000000000] keralaDisk)
      = (.ok (.json .null),
          runCalls sampleRuntime appRoot
            [.set (js "districts:GOA") (.num 1) (some 60) 1700000000000 1700000000000]
            keralaDisk) :=
  getCached_absent_key sampleRuntime appRoot (js "never-set-key") keralaDisk rfl _ (by decide)
    (.given true) 1700000000123

/-- Claim C5 (overwrite). After `setCached(k, v₁, ttl₁)` and then a successful
`setCached(k, v₂, ttl₂)` whose clock readings are `t₁` and `t₂`, the disk holds
exactly one record file for `k`; its content is the record of `v₂` with expiry
`floor(t₁ / 1000) + ttl₂` and nothing of `v₁`; `getCached(k)` returns `v₂` while
that expiry has not passed (so right after the write when `ttl₂ ≥ 0`) and in
stale mode, and at every time and in every mode it returns `v₂` or `null`. -/
theorem setCached_overwrite (rt : Runtime) (cwd : Path) (key : JSString)
    (v₁ v₂ : JSONValue) (ttl₁ ttl₂ : Option Int) (s₁ s₂ t₁ t₂ : Nat) (d d₂ : Disk)
    (hset : setCached rt cwd key v₂ ttl₂ t₁ t₂ (setCached rt cwd key v₁ ttl₁ s₁ s₂ d).2
      = (.ok (), d₂))
    (hjson :
      rt.parse (rt.stringify (payload v₂ (((t₁ / 1000 : Nat) : Int) + ttl₂.getD 3600) t₂))
        = some (payload v₂ (((t₁ / 1000 : Nat) : Int) + ttl₂.getD 3600) t₂)) :
    d₂.files.filter (fun f => f.1 == keyToFile cwd key)
        = [(keyToFile cwd key,
            rt.stringify (payload v₂ (((t₁ / 1000 : Nat) : Int) + ttl₂.getD 3600) t₂))] ∧
      (∀ opts nowMs, ((nowMs / 1000 : Nat) : Int) ≤ ((t₁ / 1000 : Nat) : Int) + ttl₂.getD 3600 →
        getCached rt cwd key opts nowMs d₂ = (.ok (.json v₂), d₂)) ∧
      (0 ≤ ttl₂.getD 3600 → ∀ opts, getCached rt cwd key opts t₁ d₂ = (.ok (.json v₂), d₂)) ∧
      (∀ nowMs, getCached rt cwd key (.given true) nowMs d₂ = (.ok (.json v₂), d₂)) ∧
      (∀ opts nowMs, getCached rt cwd key opts nowMs d₂ = (.ok (.json v₂), d₂) ∨
        getCached rt cwd key opts nowMs d₂ = (.ok (.json .null), d₂)) := by
  obtain ⟨hdir, hraw⟩ := setCached_ok hset
  have hrec := getCached_record hdir hraw hjson
  refine ⟨?_, ?_, ?_, ?_, ?_⟩
  · obtain ⟨-, hd₂⟩ := writeFileSync_ok hset
    subst hd₂
    simp only [List.filter, beq_self_eq_true]
    rw [filter_eq_filter_ne]
  · intro opts nowMs hle
    rw [hrec, if_pos hle]
  · intro httl opts
    have hle : ((t₁ / 1000 : Nat) : Int) ≤ ((t₁ / 1000 : Nat) : Int) + ttl₂.getD 3600 := by
      omega
    rw [hrec, if_pos hle]
  · intro nowMs
    rw [hrec]
    split
    · rfl
    · rw [if_pos rfl]
  · intro opts nowMs
    rw [hrec]
    split
    · exact Or.inl rfl
    · split
      · exact Or.inl rfl
      · exact Or.inr rfl

theorem setCached_overwrite_witness :
    getCached sampleRuntime appRoot (js "districts:KERALA") .omitted 1700000500000
        (setCached sampleRuntime appRoot (js "districts:KERALA") (.num 7) (some 1800)
          1700000500000 1700000500000 keralaDisk).2
      = (.ok (.json (.num 7)),
          (setCached sampleRuntime appRoot (js "districts:KERALA") (.num 7) (some 1800)
            1700000500000 1700000500000 keralaDisk).2) :=
  (setCached_overwrite sampleRuntime appRoot (js "districts:KERALA") kerala (.num 7)
    (some 86400) (some 1800) 1700000000123 1700000000123 1700000500000 1700000500000 freshDisk
    _ rfl rfl).2.1 .omitted 1700000500000 (by decide)

/-- Claim C6, as amended. Two distinct key strings without unpaired surrogate
code units have distinct record files (keys with colons, non-ASCII characters
and mixed case, and keys one of which is the beginning of the other,
included); and the base64 text without its `=` padding determines the bytes. -/
theorem keyToFile_injective_on_wellFormed :
    (∀ (cwd : Path) (k₁ k₂ : JSString), wellFormed k₁ = true → wellFormed k₂ = true →
        k₁ ≠ k₂ → keyToFile cwd k₁ ≠ keyToFile cwd k₂) ∧
      (∀ b₁ b₂ : List Nat, (∀ x ∈ b₁, x < 256) → (∀ x ∈ b₂, x < 256) →
        stripPadding (toBase64 b₁) = stripPadding (toBase64 b₂) → b₁ = b₂) :=
  ⟨fun _ _ _ h₁ h₂ hne h => hne (keyToFile_injective h₁ h₂ h),
    fun b₁ b₂ => stripPadding_toBase64_injective b₁ b₂⟩

theorem keyToFile_injective_on_wellFormed_witness :
    wellFormed (js "mgnrega:uttar pradesh:varanasi:recent:12") = true ∧
      wellFormed (js "mgnrega:uttar pradesh:varanasi:recent:1") = true ∧
      keyToFile appRoot (js "mgnrega:uttar pradesh:varanasi:recent:12")
        ≠ keyToFile appRoot (js "mgnrega:uttar pradesh:varanasi:recent:1") :=
  ⟨by decide, by decide,
    keyToFile_injective_on_wellFormed.1 appRoot _ _ (by decide) (by decide) (by decide)⟩

/-- Claim C6, as stated, fails: the key made of the lone surrogate `U+D800` and
the key made of `U+FFFD` are distinct strings with the same record file. -/
theorem keyToFile_collision :
    ([0xD800] : JSString) ≠ [0xFFFD] ∧ keyToFile appRoot [0xD800] = keyToFile appRoot [0xFFFD] := by
  refine ⟨by decide, by decide⟩

/-- Claim C7 (what the code does with a `/` in the base64 text). For the key
`"geolocate:x?:26.85:80.95"` the encoded name is `Z2VvbG9jYXRlOng/OjI2Ljg1OjgwLjk1`:
it contains `/`, the record file is `OjI2Ljg1OjgwLjk1.json` inside a directory
`Z2VvbG9jYXRlOng` that nothing creates, `setCached` throws `ENOENT` on the fresh
disk without writing, and `getCached` then returns `null`. -/
theorem keyToFile_slash_escapes_cacheDir :
    '/' ∈ safeName slashKey ∧
      keyToFile appRoot slashKey
        = cacheDir appRoot ++ ["Z2VvbG9jYXRlOng".toList, "OjI2Ljg1OjgwLjk1.json".toList] ∧
      (keyToFile appRoot slashKey).dropLast ≠ cacheDir appRoot ∧
      setCached sampleRuntime appRoot slashKey kerala (some 1800) 1700000000123 1700000000123
        freshDisk = (.error .ENOENT, freshDisk) ∧
      getCached sampleRuntime appRoot slashKey .omitted 1700000000123 freshDisk
        = (.ok (.json .null), freshDisk) := by
  refine ⟨by decide, by decide, by decide, rfl, rfl⟩

/-- Claim C8 (no exception from `getCached`). For every key, options value,
clock reading and disk, `getCached` returns a value and does not throw; and
when the record file holds content that `JSON.parse` rejects, it returns
`null` in every mode. -/
theorem getCached_never_throws (rt : Runtime) (cwd : Path) (key : JSString) (opts : Opts)
    (nowMs : Nat) (d : Disk) :
    (∃ v, (getCached rt cwd key opts nowMs d).1 = .ok v) ∧
      (∀ raw, d.content (keyToFile cwd key) = some raw → rt.parse raw = none →
        getCached rt cwd key opts nowMs d = (.ok (.json .null), d)) :=
  ⟨getCached_returns rt cwd key opts nowMs d,
    fun _ hraw hparse => getCached_corrupt hraw hparse opts nowMs⟩

theorem getCached_never_throws_witness :
    getCached sampleRuntime appRoot (js "districts:KERALA") (.given true) 1700000000123
      corruptDisk = (.ok (.json .null), corruptDisk) :=
  (getCached_never_throws sampleRuntime appRoot (js "districts:KERALA") (.given true)
    1700000000123 corruptDisk).2 "\x7b\"value\":" rfl rfl

/-- Claim C9 (what the code does on a rejected write). `setCached` has no
`try`: whenever the medium rejects writes, `setCached` throws for every key,
value and ttl; the disk is left as it was. -/
theorem setCached_throws_on_rejected_write (rt : Runtime) (cwd : Path) (key : JSString)
    (value : JSONValue) (ttl : Option Int) (now₁ now₂ : Nat) (d : Disk)
    (hrejects : d.rejectsWrites = true) :
    ∃ e, setCached rt cwd key value ttl now₁ now₂ d = (.error e, d) := by
  unfold setCached writeFileSync
  simp only [hrejects]
  split
  · exact ⟨_, rfl⟩
  · split
    · exact ⟨_, rfl⟩
    · exact ⟨_, rfl⟩

theorem setCached_throws_on_rejected_write_witness :
    rejectingDisk.rejectsWrites = true ∧
      ∃ e, setCached sampleRuntime appRoot (js "districts:KERALA") kerala (some 86400)
        1700000000123 1700000000123 rejectingDisk = (.error e, rejectingDisk) :=
  ⟨rfl, setCached_throws_on_rejected_write sampleRuntime appRoot (js "districts:KERALA") kerala
    (some 86400) 1700000000123 1700000000123 rejectingDisk rfl⟩

/-- Claim C10 (`getCached` is read-only). For every key, options value, clock
reading and disk, the disk after `getCached` is the disk before it. -/
theorem getCached_readOnly (rt : Runtime) (cwd : Path) (key : JSString) (opts : Opts)
    (nowMs : Nat) (d : Disk) : (getCached rt cwd key opts nowMs d).2 = d :=
  getCached_disk rt cwd key opts nowMs d

/-! ## Lemmas for the frame of `setCached` and for the record fields -/

theorem getCachedTry_result_congr (rt : Runtime) (file : Path) (opts : Opts) (nowMs : Nat)
    (d₁ d₂ : Disk) (hdir : d₁.isDir file = d₂.isDir file)
    (hcontent : d₁.content file = d₂.content file) :
    (getCachedTry rt file opts nowMs d₁).1 = (getCachedTry rt file opts nowMs d₂).1 := by
  unfold getCachedTry readFileSync
  rw [hdir, hcontent]
  cases d₂.isDir file
  · cases d₂.content file with
    | none => rfl
    | some raw =>
      simp only [Bool.false_eq_true, if_false]
      cases rt.parse raw with
      | none => rfl
      | some parsed =>
        simp only
        cases getProp parsed "expires_at" with
        | error e => rfl
        | ok expiresAt =>
          simp only
          split
          · rfl
          · cases allowStale opts with
            | error e => rfl
            | ok b => cases b <;> rfl
  · rfl

/-- What `getCached` returns depends on the disk only through the record file
of the key. -/
theorem getCached_result_congr (rt : Runtime) (cwd : Path) (key : JSString) (opts : Opts)
    (nowMs : Nat) (d₁ d₂ : Disk)
    (hdir : d₁.isDir (keyToFile cwd key) = d₂.isDir (keyToFile cwd key))
    (hcontent : d₁.content (keyToFile cwd key) = d₂.content (keyToFile cwd key)) :
    (getCached rt cwd key opts nowMs d₁).1 = (getCached rt cwd key opts nowMs d₂).1 := by
  have ht := getCachedTry_result_congr rt (keyToFile cwd key) opts nowMs d₁ d₂ hdir hcontent
  simp only [getCached, existsSync, Disk.isFile, hdir, hcontent]
  cases d₂.isDir (keyToFile cwd key) || (d₂.content (keyToFile cwd key)).isSome
  · rfl
  · simp only
    revert ht
    cases getCachedTry rt (keyToFile cwd key) opts nowMs d₁ with
    | mk r₁ e₁ =>
      cases getCachedTry rt (keyToFile cwd key) opts nowMs d₂ with
      | mk r₂ e₂ =>
        intro ht
        simp only at ht
        subst ht
        cases r₁ <;> rfl

theorem getProp_payload_stored (v : JSONValue) (e s : Int) :
    getProp (payload v e s) "stored_at" = .ok (.json (.num s)) := by
  simp [getProp, payload, List.lookup]

theorem getProp_payload_other (v : JSONValue) (e s₁ s₂ : Int) (name : String)
    (hname : name ≠ "stored_at") :
    getProp (payload v e s₁) name = getProp (payload v e s₂) name := by
  have h : (name == "stored_at") = false := by simpa using hname
  simp only [getProp, payload, List.lookup, h]

/-- What `getCachedTry` returns is settled by the `expires_at` and `value`
properties of the parsed record. -/
theorem getCachedTry_parsed_congr (rt : Runtime) (file : Path) (opts : Opts) (nowMs : Nat)
    (d₁ d₂ : Disk) (raw₁ raw₂ : String) (p₁ p₂ : JSONValue)
    (hdir₁ : d₁.isDir file = false) (hdir₂ : d₂.isDir file = false)
    (hraw₁ : d₁.content file = some raw₁) (hraw₂ : d₂.content file = some raw₂)
    (hp₁ : rt.parse raw₁ = some p₁) (hp₂ : rt.parse raw₂ = some p₂)
    (hexp : getProp p₁ "expires_at" = getProp p₂ "expires_at")
    (hval : getProp p₁ "value" = getProp p₂ "value") :
    (getCachedTry rt file opts nowMs d₁).1 = (getCachedTry rt file opts nowMs d₂).1 := by
  simp only [getCachedTry, readFileSync, hdir₁, hdir₂, hraw₁, hraw₂, hp₁, hp₂, hexp, hval,
    Bool.false_eq_true, if_false]
  cases getProp p₂ "expires_at" with
  | error e => rfl
  | ok expiresAt =>
    simp only
    split
    · rfl
    · cases allowStale opts with
      | error e => rfl
      | ok b => cases b <;> rfl

theorem getCached_parsed_congr (rt : Runtime) (cwd : Path) (key : JSString) (opts : Opts)
    (nowMs : Nat) (d₁ d₂ : Disk) (raw₁ raw₂ : String) (p₁ p₂ : JSONValue)
    (hdir₁ : d₁.isDir (keyToFile cwd key) = false) (hdir₂ : d₂.isDir (keyToFile cwd key) = false)
    (hraw₁ : d₁.content (keyToFile cwd key) = some raw₁)
    (hraw₂ : d₂.content (keyToFile cwd key) = some raw₂)
    (hp₁ : rt.parse raw₁ = some p₁) (hp₂ : rt.parse raw₂ = some p₂)
    (hexp : getProp p₁ "expires_at" = getProp p₂ "expires_at")
    (hval : getProp p₁ "value" = getProp p₂ "value") :
    (getCached rt cwd key opts nowMs d₁).1 = (getCached rt cwd key opts nowMs d₂).1 := by
  have ht := getCachedTry_parsed_congr rt (keyToFile cwd key) opts nowMs d₁ d₂ raw₁ raw₂ p₁ p₂
    hdir₁ hdir₂ hraw₁ hraw₂ hp₁ hp₂ hexp hval
  simp only [getCached, existsSync, Disk.isFile, hdir₁, hdir₂, hraw₁, hraw₂, Option.isSome_some,
    Bool.or_true]
  revert ht
  cases getCachedTry rt (keyToFile cwd key) opts nowMs d₁ with
  | mk r₁ e₁ =>
    cases getCachedTry rt (keyToFile cwd key) opts nowMs d₂ with
    | mk r₂ e₂ =>
      intro ht
      simp only at ht
      subst ht
      cases r₁ <;> rfl

/-! ## The properties of the cache, continued -/

/-- Claim C11, as amended. For two distinct keys without unpaired surrogate
code units, `setCached(k₁, v, ttl)` leaves the record file of `k₂` as it was,
whether the write succeeds or throws, so `getCached(k₂, opts)` returns the same
result at every clock reading before and after the write. -/
theorem setCached_frame_on_wellFormed (rt : Runtime) (cwd : Path) (k₁ k₂ : JSString)
    (value : JSONValue) (ttl : Option Int) (now₁ now₂ : Nat) (d : Disk)
    (h₁ : wellFormed k₁ = true) (h₂ : wellFormed k₂ = true) (hne : k₁ ≠ k₂) :
    (setCached rt cwd k₁ value ttl now₁ now₂ d).2.content (keyToFile cwd k₂)
        = d.content (keyToFile cwd k₂) ∧
      ∀ opts nowMs,
        (getCached rt cwd k₂ opts nowMs (setCached rt cwd k₁ value ttl now₁ now₂ d).2).1
          = (getCached rt cwd k₂ opts nowMs d).1 := by
  have hfile : keyToFile cwd k₁ ≠ keyToFile cwd k₂ := fun h => hne (keyToFile_injective h₁ h₂ h)
  obtain ⟨hdir, hcontent⟩ := writeFileSync_frame hfile
    (rt.stringify (payload value (((now₁ / 1000 : Nat) : Int) + ttl.getD 3600) now₂)) d
  exact ⟨hcontent, fun opts nowMs => getCached_result_congr rt cwd k₂ opts nowMs _ d hdir hcontent⟩

theorem setCached_frame_on_wellFormed_witness :
    (getCached sampleRuntime appRoot (js "districts:KERALA") .omitted 1700000000123
        (setCached sampleRuntime appRoot (js "districts:GOA") (.num 1) (some 60)
          1700000000123 1700000000123 keralaDisk).2).1
      = (getCached sampleRuntime appRoot (js "districts:KERALA") .omitted 1700000000123
          keralaDisk).1 :=
  (setCached_frame_on_wellFormed sampleRuntime appRoot (js "districts:GOA")
    (js "districts:KERALA") (.num 1) (some 60) 1700000000123 1700000000123 keralaDisk
    (by decide) (by decide) (by decide)).2 .omitted 1700000000123

/-- Claim C11, as stated, fails: `"\uFFFD"` and `"\uD800"` are distinct keys, and
`setCached("\uFFFD", 7, 60)` replaces the record that `getCached("\uD800")`
reads, so the read returns the district list before the write and `7` after. -/
theorem setCached_clobbers_colliding_key :
    ([0xFFFD] : JSString) ≠ [0xD800] ∧
      (getCached sampleRuntime appRoot [0xD800] .omitted 1700000000123 surrogateDisk).1
        = .ok (.json kerala) ∧
      (getCached sampleRuntime appRoot [0xD800] .omitted 1700000000123
          (setCached sampleRuntime appRoot [0xFFFD] (.num 7) (some 60)
            1700000000123 1700000000123 surrogateDisk).2).1
        = .ok (.json (.num 7)) ∧
      (getCached sampleRuntime appRoot [0xD800] .omitted 1700000000123
          (setCached sampleRuntime appRoot [0xFFFD] (.num 7) (some 60)
            1700000000123 1700000000123 surrogateDisk).2).1
        ≠ (getCached sampleRuntime appRoot [0xD800] .omitted 1700000000123 surrogateDisk).1 := by
  refine ⟨by decide, rfl, rfl, ?_⟩
  intro h
  have h' : (Except.ok (JSValue.json (JSONValue.num 7)) : Except JSError JSValue)
      = Except.ok (JSValue.json kerala) := h
  simp [kerala] at h'

/-- Claim C12 (expiry computation). A successful `setCached(key, value,
ttlSeconds)` whose two clock readings are `T₁` and `T₂` (both `T` when the clock
reads `T` throughout) writes the text of a record whose `value` is the value,
whose `expires_at` is `floor(T₁ / 1000) + ttlSeconds` and whose `stored_at` is
`T₂`; with `ttlSeconds` left out, `expires_at` is `floor(T₁ / 1000) + 3600`. -/
theorem setCached_expiry_computation (rt : Runtime) (cwd : Path) (key : JSString)
    (value : JSONValue) (ttl : Option Int) (T₁ T₂ : Nat) (d d' : Disk)
    (hset : setCached rt cwd key value ttl T₁ T₂ d = (.ok (), d')) :
    ∃ record, d'.content (keyToFile cwd key) = some (rt.stringify record) ∧
      getProp record "value" = .ok (.json value) ∧
      getProp record "expires_at"
        = .ok (.json (.num (((T₁ / 1000 : Nat) : Int) + ttl.getD 3600))) ∧
      getProp record "stored_at" = .ok (.json (.num T₂)) ∧
      (ttl = none →
        getProp record "expires_at" = .ok (.json (.num (((T₁ / 1000 : Nat) : Int) + 3600)))) := by
  refine ⟨payload value (((T₁ / 1000 : Nat) : Int) + ttl.getD 3600) T₂, (setCached_ok hset).2,
    getProp_payload_value _ _ _, getProp_payload_expires _ _ _, getProp_payload_stored _ _ _, ?_⟩
  intro hnone
  subst hnone
  exact getProp_payload_expires _ _ _

theorem setCached_expiry_computation_witness :
    ∃ record, keralaDisk.content (keyToFile appRoot (js "districts:KERALA"))
        = some (sampleRuntime.stringify record) ∧
      getProp record "value" = .ok (.json kerala) ∧
      getProp record "expires_at" = .ok (.json (.num (((1700000000123 / 1000 : Nat) : Int)
        + (some (86400 : Int)).getD 3600))) ∧
      getProp record "stored_at" = .ok (.json (.num (1700000000123 : Nat))) ∧
      ((some (86400 : Int)) = none →
        getProp record "expires_at"
          = .ok (.json (.num (((1700000000123 / 1000 : Nat) : Int) + 3600)))) :=
  setCached_expiry_computation sampleRuntime appRoot (js "districts:KERALA") kerala (some 86400)
    1700000000123 1700000000123 freshDisk keralaDisk rfl

/-- Claim C13 (`stored_at` plays no part). For two disks whose record files for
the key parse to records that agree on every property other than `stored_at`,
`getCached` returns the same result at every clock reading and for every
options value. -/
theorem getCached_ignores_stored_at (rt : Runtime) (cwd : Path) (key : JSString)
    (d₁ d₂ : Disk) (raw₁ raw₂ : String) (p₁ p₂ : JSONValue)
    (hdir₁ : d₁.isDir (keyToFile cwd key) = false) (hdir₂ : d₂.isDir (keyToFile cwd key) = false)
    (hraw₁ : d₁.content (keyToFile cwd key) = some raw₁)
    (hraw₂ : d₂.content (keyToFile cwd key) = some raw₂)
    (hp₁ : rt.parse raw₁ = some p₁) (hp₂ : rt.parse raw₂ = some p₂)
    (hsame : ∀ name : String, name ≠ "stored_at" → getProp p₁ name = getProp p₂ name)
    (opts : Opts) (nowMs : Nat) :
    (getCached rt cwd key opts nowMs d₁).1 = (getCached rt cwd key opts nowMs d₂).1 :=
  getCached_parsed_congr rt cwd key opts nowMs d₁ d₂ raw₁ raw₂ p₁ p₂ hdir₁ hdir₂ hraw₁ hraw₂
    hp₁ hp₂ (hsame "expires_at" (by decide)) (hsame "value" (by decide))

theorem getCached_ignores_stored_at_witness :
    (getCached sampleRuntime appRoot (js "districts:KERALA") .omitted 1700000000123 keralaDisk).1
      = (getCached sampleRuntime appRoot (js "districts:KERALA") .omitted 1700000000123
          keralaDiskLater).1 :=
  getCached_ignores_stored_at sampleRuntime appRoot (js "districts:KERALA") keralaDisk
    keralaDiskLater
    (sampleRuntime.stringify (payload kerala 1700086400 1700000000123))
    (sampleRuntime.stringify (payload kerala 1700086400 1700000055555))
    (payload kerala 1700086400 1700000000123) (payload kerala 1700086400 1700000055555)
    rfl rfl rfl rfl rfl rfl
    (fun name hname => getProp_payload_other kerala 1700086400 1700000000123 1700000055555
      name hname)
    .omitted 1700000000123

/-! ## Lemmas on the handlers -/

/-- A read returns a value and the disk it was given. -/
theorem getCached_ok (rt : Runtime) (cwd : Path) (key : JSString) (opts : Opts) (nowMs : Nat)
    (d : Disk) : ∃ v, getCached rt cwd key opts nowMs d = (.ok v, d) := by
  obtain ⟨v, hv⟩ := getCached_returns rt cwd key opts nowMs d
  have hd := getCached_disk rt cwd key opts nowMs d
  exact ⟨v, Prod.ext hv hd⟩

theorem Mgnrega.staleOr_eq (rt : Runtime) (cwd : Path) (cacheKey : JSString) (nowMs : Nat)
    (status : Nat) (error : String) (fetched : Bool) (d : Disk) (stale : JSValue)
    (hread : getCached rt cwd cacheKey (.given true) nowMs d = (.ok stale, d)) :
    Mgnrega.staleOr rt cwd cacheKey nowMs status error fetched d =
      if truthy stale then
        { result := .ok ⟨200, .obj (spreadInto [("fromCache", .bool true), ("stale", .bool true)]
            (spreadProps stale))⟩,
          fetched := fetched, disk := d }
      else { result := .ok ⟨status, .obj [("error", .str error)]⟩, fetched := fetched, disk := d } := by
  simp only [Mgnrega.staleOr, hread]

/-- The run of the statistics handler after a miss when `fetchFromGov` throws
or resolves to `null`: the first stale block. -/
theorem Mgnrega.handler_of_miss_without_data (rt : Runtime) (ct : CaseTables) (cwd : Path)
    (q : Query) (upstream : Fetched) (clock : Nat → Nat) (d : Disk) (cached : JSValue)
    (hstate : truthyText q.state = true) (hdistrict : truthyText q.district = true)
    (hread : getCached rt cwd
      (mgnregaCacheKey ct (q.state.getD []) (q.district.getD []) q.month q.lastMonths)
      .omitted (clock 0) d = (.ok cached, d))
    (hmiss : truthy cached = false)
    (hup : upstream = .throws ∨ upstream = .noData) :
    Mgnrega.handler rt ct cwd q upstream clock d =
      Mgnrega.staleOr rt cwd
        (mgnregaCacheKey ct (q.state.getD []) (q.district.getD []) q.month q.lastMonths)
        (clock 1) 503
        "Service temporarily unavailable. API is down and no cached data available." true d := by
  have hp : Mgnrega.payloadFrom (parseMonths q.lastMonths) upstream = none := by
    rcases hup with h | h <;> rw [h] <;> rfl
  simp only [Mgnrega.handler, hstate, hdistrict, hread, hmiss, hp, Mgnrega.afterFetch,
    Bool.not_true, Bool.or_self, Bool.false_eq_true, if_false, Option.isNone_none, if_true]

/-! ## The properties of the handlers -/

/-- Claim C14, as amended. For a request with state and district whose fresh
read gives no truthy value, when `fetchFromGov` throws or resolves to `null`,
the handler has called its upstream, leaves the disk as it is and re-reads the
same key with `allowStale` true: if a record exists for the key (expired or
not) whose value is truthy, it responds `200` with
`{ fromCache: true, stale: true, ...value }`; if the record's value is falsy,
or no record file exists, it responds `503`. -/
theorem Mgnrega.handler_stale_fallback (rt : Runtime) (ct : CaseTables) (cwd : Path)
    (q : Query) (upstream : Fetched) (clock : Nat → Nat) (d : Disk) (cached : JSValue)
    (hstate : truthyText q.state = true) (hdistrict : truthyText q.district = true)
    (hread : getCached rt cwd
      (mgnregaCacheKey ct (q.state.getD []) (q.district.getD []) q.month q.lastMonths)
      .omitted (clock 0) d = (.ok cached, d))
    (hmiss : truthy cached = false)
    (hup : upstream = .throws ∨ upstream = .noData) :
    (∀ raw value e s,
        d.isDir (keyToFile cwd
          (mgnregaCacheKey ct (q.state.getD []) (q.district.getD []) q.month q.lastMonths))
          = false →
        d.content (keyToFile cwd
          (mgnregaCacheKey ct (q.state.getD []) (q.district.getD []) q.month q.lastMonths))
          = some raw →
        rt.parse raw = some (payload value e s) →
        (truthy (.json value) = true →
          Mgnrega.handler rt ct cwd q upstream clock d =
            { result := .ok ⟨200, .obj (spreadInto
                [("fromCache", .bool true), ("stale", .bool true)] (spreadProps (.json value)))⟩,
              fetched := true, disk := d }) ∧
        (truthy (.json value) = false →
          Mgnrega.handler rt ct cwd q upstream clock d =
            { result := .ok ⟨503, .obj [("error", .str
                "Service temporarily unavailable. API is down and no cached data available.")]⟩,
              fetched := true, disk := d })) ∧
      (d.content (keyToFile cwd
          (mgnregaCacheKey ct (q.state.getD []) (q.district.getD []) q.month q.lastMonths))
          = none →
        Mgnrega.handler rt ct cwd q upstream clock d =
          { result := .ok ⟨503, .obj [("error", .str
              "Service temporarily unavailable. API is down and no cached data available.")]⟩,
            fetched := true, disk := d }) := by
  rw [Mgnrega.handler_of_miss_without_data rt ct cwd q upstream clock d cached hstate hdistrict
    hread hmiss hup]
  constructor
  · intro raw value e s hdir hraw hparse
    have hstale := getCached_record hdir hraw hparse (.given true) (clock 1)
    have hstale' : getCached rt cwd
        (mgnregaCacheKey ct (q.state.getD []) (q.district.getD []) q.month q.lastMonths)
        (.given true) (clock 1) d = (.ok (.json value), d) := by
      rw [hstale]
      split
      · rfl
      · rw [if_pos rfl]
    rw [Mgnrega.staleOr_eq rt cwd _ (clock 1) 503 _ true d (.json value) hstale']
    constructor
    · intro ht
      rw [if_pos ht]
    · intro hf
      rw [if_neg (by simp [hf])]
  · intro hnone
    rw [Mgnrega.staleOr_eq rt cwd _ (clock 1) 503 _ true d (.json .null)
      (getCached_no_content hnone (.given true) (clock 1))]
    rfl

/-- Claim C14, as stated, fails: an expired record exists for the key of the
request, holding the value `0`; `fetchFromGov` throws; the handler responds
`503`, not `200`. -/
theorem Mgnrega.handler_stale_zero :
    zeroDisk.content (keyToFile appRoot agraKey)
        = some (sampleRuntime.stringify (payload (.num 0) 1700000060 1700000000123)) ∧
      sampleRuntime.parse (sampleRuntime.stringify (payload (.num 0) 1700000060 1700000000123))
        = some (payload (.num 0) 1700000060 1700000000123) ∧
      mgnregaCacheKey sampleCase (js "UP") (js " Agra") none none = agraKey ∧
      Mgnrega.handler sampleRuntime sampleCase appRoot agraQuery .throws
          (fixedClock 1800000000000) zeroDisk =
        { result := .ok ⟨503, .obj [("error", .str
            "Service temporarily unavailable. API is down and no cached data available.")]⟩,
          fetched := true, disk := zeroDisk } := by
  refine ⟨rfl, rfl, by decide, rfl⟩

set_option maxRecDepth 100000 in
theorem Mgnrega.handler_stale_fallback_witness :
    Mgnrega.handler sampleRuntime sampleCase appRoot agraQuery .throws
        (fixedClock 1800000000000) agraDisk =
      { result := .ok ⟨200, .obj (spreadInto [("fromCache", .bool true), ("stale", .bool true)]
          (spreadProps (.json (Mgnrega.cachedValue (Mgnrega.payloadOf 12 sampleUpstream)))))⟩,
        fetched := true, disk := agraDisk } :=
  ((Mgnrega.handler_stale_fallback sampleRuntime sampleCase appRoot agraQuery .throws
    (fixedClock 1800000000000) agraDisk (.json .null) rfl rfl rfl rfl (Or.inl rfl)).1
    (sampleRuntime.stringify (payload (Mgnrega.cachedValue (Mgnrega.payloadOf 12 sampleUpstream))
      1700086400 1700000000123))
    (Mgnrega.cachedValue (Mgnrega.payloadOf 12 sampleUpstream)) 1700086400 1700000000123
    rfl rfl rfl).1 rfl

theorem Mgnrega.cachedValue_eq (p : Upstream) :
    Mgnrega.cachedValue p =
      .obj [("latest", p.latest), ("trend", .arr p.trend), ("stateAverage", p.stateAverage),
        ("comparison", p.comparison), ("source", .str "upstream")] := rfl

theorem Mgnrega.answer_body_eq (p : Upstream) :
    setProp (spreadInto [("fromCache", .bool false)] (Mgnrega.payloadProps p)) "source"
        (.str "upstream") =
      [("fromCache", .bool false), ("latest", p.latest), ("trend", .arr p.trend),
        ("stateAverage", p.stateAverage), ("comparison", p.comparison),
        ("source", .str "upstream")] := rfl

theorem Mgnrega.hit_body_eq (p : Upstream) :
    spreadInto [("fromCache", .bool true)] (spreadProps (.json (Mgnrega.cachedValue p))) =
      [("fromCache", .bool true), ("latest", p.latest), ("trend", .arr p.trend),
        ("stateAverage", p.stateAverage), ("comparison", p.comparison),
        ("source", .str "upstream")] := rfl

/-- The run of the statistics handler on a cache hit. -/
theorem Mgnrega.handler_of_hit (rt : Runtime) (ct : CaseTables) (cwd : Path)
    (q : Query) (upstream : Fetched) (clock : Nat → Nat) (d : Disk) (cached : JSValue)
    (hstate : truthyText q.state = true) (hdistrict : truthyText q.district = true)
    (hread : getCached rt cwd
      (mgnregaCacheKey ct (q.state.getD []) (q.district.getD []) q.month q.lastMonths)
      .omitted (clock 0) d = (.ok cached, d))
    (hhit : truthy cached = true) :
    Mgnrega.handler rt ct cwd q upstream clock d =
      { result := .ok ⟨200, .obj (spreadInto [("fromCache", .bool true)] (spreadProps cached))⟩,
        fetched := false, disk := d } := by
  simp only [Mgnrega.handler, hstate, hdistrict, hread, hhit, Bool.not_true, Bool.or_self,
    Bool.false_eq_true, if_false, if_true]

theorem Mgnrega.afterFetch_some (rt : Runtime) (cwd : Path) (cacheKey : JSString) (p : Upstream)
    (clock : Nat → Nat) (d : Disk) (hlatest : truthy (.json p.latest) = true) :
    Mgnrega.afterFetch rt cwd cacheKey (some p) clock d =
      match setCached rt cwd cacheKey (Mgnrega.cachedValue p) (some Mgnrega.cacheTTL)
          (clock 1) (clock 2) d with
      | (.error e, d2) => { result := .error e, fetched := true, disk := d2 }
      | (.ok _, d2) =>
        { result := .ok ⟨200, .obj (setProp (spreadInto [("fromCache", .bool false)]
            (Mgnrega.payloadProps p)) "source" (.str "upstream"))⟩,
          fetched := true, disk := d2 } := by
  have h1 : ¬ ((some p).isNone = true) := by simp
  have h2 : ¬ (((some p).isSome &&
      ((some p).any (fun p => !truthy (.json p.latest) || !truthy (.json (.arr p.trend))))) = true) := by
    have ht : truthy (.json (.arr p.trend)) = true := rfl
    simp [hlatest, ht]
  unfold Mgnrega.afterFetch
  rw [if_neg h1, if_neg h2]

/-- The run of the statistics handler after a miss when `fetchFromGov` resolves
to data whose `latest` is truthy: the write to the cache, then the answer. -/
theorem Mgnrega.handler_of_miss_with_data (rt : Runtime) (ct : CaseTables) (cwd : Path)
    (q : Query) (u : Upstream) (clock : Nat → Nat) (d : Disk) (cached : JSValue)
    (hstate : truthyText q.state = true) (hdistrict : truthyText q.district = true)
    (hread : getCached rt cwd
      (mgnregaCacheKey ct (q.state.getD []) (q.district.getD []) q.month q.lastMonths)
      .omitted (clock 0) d = (.ok cached, d))
    (hmiss : truthy cached = false) (hlatest : truthy (.json u.latest) = true) :
    Mgnrega.handler rt ct cwd q (.data u) clock d =
      match setCached rt cwd
          (mgnregaCacheKey ct (q.state.getD []) (q.district.getD []) q.month q.lastMonths)
          (Mgnrega.cachedValue (Mgnrega.payloadOf (parseMonths q.lastMonths) u))
          (some Mgnrega.cacheTTL) (clock 1) (clock 2) d with
      | (.error e, d2) => { result := .error e, fetched := true, disk := d2 }
      | (.ok _, d2) =>
        { result := .ok ⟨200, .obj (setProp (spreadInto [("fromCache", .bool false)]
            (Mgnrega.payloadProps (Mgnrega.payloadOf (parseMonths q.lastMonths) u)))
            "source" (.str "upstream"))⟩,
          fetched := true, disk := d2 } := by
  have hl : truthy (.json (Mgnrega.payloadOf (parseMonths q.lastMonths) u).latest) = true := hlatest
  have hq : (!truthyText q.state || !truthyText q.district) = false := by
    rw [hstate, hdistrict]; rfl
  have hp : Mgnrega.payloadFrom (parseMonths q.lastMonths) (.data u)
      = some (Mgnrega.payloadOf (parseMonths q.lastMonths) u) := rfl
  rw [← Mgnrega.afterFetch_some rt cwd _ _ clock d hl, ← hp]
  unfold Mgnrega.handler
  rw [if_neg (by rw [hq]; exact Bool.false_ne_true), hread]
  simp only
  rw [if_neg (by rw [hmiss]; exact Bool.false_ne_true)]

theorem mgnregaCacheKey_congr (ct : CaseTables) (s₁ s₂ d₁ d₂ : JSString)
    (month lastMonths : Option JSString)
    (hs : normaliseKey ct s₂ = normaliseKey ct s₁) (hd : normaliseKey ct d₂ = normaliseKey ct d₁) :
    mgnregaCacheKey ct s₂ d₂ month lastMonths = mgnregaCacheKey ct s₁ d₁ month lastMonths := by
  simp only [mgnregaCacheKey, hs, hd]

/-- Claim C15 (write-back then hit). Suppose the handler answers a request from
a successful upstream fetch: the fresh read gave no truthy value, the data had
a truthy `latest`, and the run ended with a response (so the cache write at
clock reading `clock₁ 1` did not throw). Then the response was `200` with
`fromCache: false` and the five fields; and a request with the same normalised
state and district, the same month and the same `lastMonths`, read when
`floor(clock₂ 0 / 1000) ≤ floor(clock₁ 1 / 1000) + 86400`, after any calls that
do not write the record file, is answered `200` with `fromCache: true` and the
same `latest`, `trend`, `stateAverage`, `comparison` and `source`, however the
upstream would end and without calling it. -/
theorem Mgnrega.handler_write_back_then_hit (rt : Runtime) (ct : CaseTables) (cwd : Path)
    (q₁ q₂ : Query) (u : Upstream) (upstream₂ : Fetched) (clock₁ clock₂ : Nat → Nat)
    (d : Disk) (cached : JSValue) (response : Response) (calls : List Call)
    (hstate₁ : truthyText q₁.state = true) (hdistrict₁ : truthyText q₁.district = true)
    (hread : getCached rt cwd
      (mgnregaCacheKey ct (q₁.state.getD []) (q₁.district.getD []) q₁.month q₁.lastMonths)
      .omitted (clock₁ 0) d = (.ok cached, d))
    (hmiss : truthy cached = false) (hlatest : truthy (.json u.latest) = true)
    (hanswer : (Mgnrega.handler rt ct cwd q₁ (.data u) clock₁ d).result = .ok response)
    (hjson : rt.parse (rt.stringify (payload
        (Mgnrega.cachedValue (Mgnrega.payloadOf (parseMonths q₁.lastMonths) u))
        (((clock₁ 1 / 1000 : Nat) : Int) + 86400) (clock₁ 2)))
      = some (payload (Mgnrega.cachedValue (Mgnrega.payloadOf (parseMonths q₁.lastMonths) u))
        (((clock₁ 1 / 1000 : Nat) : Int) + 86400) (clock₁ 2)))
    (hstate₂ : truthyText q₂.state = true) (hdistrict₂ : truthyText q₂.district = true)
    (hsameState : normaliseKey ct (q₂.state.getD []) = normaliseKey ct (q₁.state.getD []))
    (hsameDistrict :
      normaliseKey ct (q₂.district.getD []) = normaliseKey ct (q₁.district.getD []))
    (hmonth : q₂.month = q₁.month) (hlast : q₂.lastMonths = q₁.lastMonths)
    (hcalls : ∀ c ∈ calls, c.writesTo cwd (keyToFile cwd
      (mgnregaCacheKey ct (q₁.state.getD []) (q₁.district.getD []) q₁.month q₁.lastMonths))
      = false)
    (htime : ((clock₂ 0 / 1000 : Nat) : Int) ≤ ((clock₁ 1 / 1000 : Nat) : Int) + 86400) :
    response = ⟨200, .obj [("fromCache", .bool false),
        ("latest", u.latest),
        ("trend", .arr (Mgnrega.payloadOf (parseMonths q₁.lastMonths) u).trend),
        ("stateAverage", u.stateAverage), ("comparison", u.comparison),
        ("source", .str "upstream")]⟩ ∧
      Mgnrega.handler rt ct cwd q₂ upstream₂ clock₂
          (runCalls rt cwd calls (Mgnrega.handler rt ct cwd q₁ (.data u) clock₁ d).disk) =
        { result := .ok ⟨200, .obj [("fromCache", .bool true),
            ("latest", u.latest),
            ("trend", .arr (Mgnrega.payloadOf (parseMonths q₁.lastMonths) u).trend),
            ("stateAverage", u.stateAverage), ("comparison", u.comparison),
            ("source", .str "upstream")]⟩,
          fetched := false,
          disk := runCalls rt cwd calls
            (Mgnrega.handler rt ct cwd q₁ (.data u) clock₁ d).disk } := by
  have hrun := Mgnrega.handler_of_miss_with_data rt ct cwd q₁ u clock₁ d cached hstate₁
    hdistrict₁ hread hmiss hlatest
  have hkey : mgnregaCacheKey ct (q₂.state.getD []) (q₂.district.getD []) q₂.month q₂.lastMonths
      = mgnregaCacheKey ct (q₁.state.getD []) (q₁.district.getD []) q₁.month q₁.lastMonths := by
    rw [hmonth, hlast]
    exact mgnregaCacheKey_congr ct _ _ _ _ _ _ hsameState hsameDistrict
  rw [hrun] at hanswer ⊢
  rcases hset : setCached rt cwd
      (mgnregaCacheKey ct (q₁.state.getD []) (q₁.district.getD []) q₁.month q₁.lastMonths)
      (Mgnrega.cachedValue (Mgnrega.payloadOf (parseMonths q₁.lastMonths) u))
      (some Mgnrega.cacheTTL) (clock₁ 1) (clock₁ 2) d with ⟨written, d'⟩
  rw [hset] at hanswer
  cases written with
  | error e => simp at hanswer
  | ok done =>
    simp only [Except.ok.injEq] at hanswer
    obtain ⟨hdir, hraw⟩ := setCached_ok hset
    obtain ⟨hdir', hraw'⟩ := runCalls_frame rt cwd _ calls hcalls d'
    have hrec := getCached_record (hdir'.trans hdir) (hraw'.trans hraw) hjson .omitted (clock₂ 0)
    rw [if_pos htime] at hrec
    constructor
    · rw [← hanswer]
      rfl
    · simp only
      rw [Mgnrega.handler_of_hit rt ct cwd q₂ upstream₂ clock₂ _
        (.json (Mgnrega.cachedValue (Mgnrega.payloadOf (parseMonths q₁.lastMonths) u)))
        hstate₂ hdistrict₂ (by rw [hkey]; exact hrec) rfl]
      rfl

set_option maxRecDepth 100000 in
theorem Mgnrega.handler_write_back_then_hit_witness :
    Mgnrega.handler sampleRuntime sampleCase appRoot agraQueryAgain .throws
        (fixedClock 1700086400999) (runCalls sampleRuntime appRoot [] agraDisk) =
      { result := .ok ⟨200, .obj [("fromCache", .bool true),
          ("latest", sampleUpstream.latest),
          ("trend", .arr (Mgnrega.payloadOf (parseMonths agraQuery.lastMonths)
            sampleUpstream).trend),
          ("stateAverage", sampleUpstream.stateAverage),
          ("comparison", sampleUpstream.comparison), ("source", .str "upstream")]⟩,
        fetched := false, disk := runCalls sampleRuntime appRoot [] agraDisk } :=
  (Mgnrega.handler_write_back_then_hit sampleRuntime sampleCase appRoot agraQuery agraQueryAgain
    sampleUpstream .throws (fixedClock 1700000000123) (fixedClock 1700086400999) freshDisk
    (.json .null) _ [] rfl rfl rfl rfl rfl rfl rfl rfl rfl (by decide) (by decide) rfl rfl
    (by simp) (by decide)).2

/-- Claim C16 (what the code does when the cache write fails). On a medium
that rejects writes, the statistics handler, after a miss and a successful
fetch with `latest` and `trend`, ends with the exception of `setCached` and
sends no response; and the district-list handler, with an upstream body that
parses to the list `Kollam`, `Kottayam` (as its run on the fresh disk shows),
answers `500` with `Failed to parse API response`. -/
theorem handlers_blocked_by_failed_write :
    Mgnrega.handler sampleRuntime sampleCase appRoot agraQuery (.data sampleUpstream)
        (fixedClock 1700000000123) rejectingDisk =
      { result := .error .EACCES, fetched := true, disk := rejectingDisk } ∧
    Districts.handler sampleRuntime sampleCase appRoot (some (js "Kerala")) true
        (.body keralaBody) (fixedClock 1700000000123) rejectingDisk =
      { result := .ok ⟨500, .obj [("error", .str "Failed to parse API response"),
          ("districts", .arr [])]⟩,
        fetched := true, disk := rejectingDisk } ∧
    (Districts.handler sampleRuntime sampleCase appRoot (some (js "Kerala")) true
        (.body keralaBody) (fixedClock 1700000000123) freshDisk).result =
      .ok ⟨200, .obj [("districts", .arr [.str "Kollam", .str "Kottayam"]), ("count", .num 2),
        ("fromCache", .bool false)]⟩ := by
  refine ⟨rfl, rfl, rfl⟩

/-- Claim C17 (what the code does when the district-list request fails). The
disk holds the record of `districts:KERALA`, expired at the time of the
request, and a read in stale mode would return its district list; yet the
handler answers `500` when the request fails, `504` when it times out and `500`
when the body does not parse: it reads the cache once, in fresh-only mode, and
never sends the stored list. -/
theorem Districts.handler_no_stale_fallback :
    (getCached sampleRuntime appRoot (Districts.cacheKey sampleCase (js "Kerala")) (.given true)
        1800000000000 keralaDisk).1 = .ok (.json kerala) ∧
    Districts.handler sampleRuntime sampleCase appRoot (some (js "Kerala")) true .failed
        (fixedClock 1800000000000) keralaDisk =
      { result := .ok ⟨500, .obj [("error", .str "Failed to fetch districts"),
          ("districts", .arr [])]⟩,
        fetched := true, disk := keralaDisk } ∧
    Districts.handler sampleRuntime sampleCase appRoot (some (js "Kerala")) true .timedOut
        (fixedClock 1800000000000) keralaDisk =
      { result := .ok ⟨504, .obj [("error", .str "Request timeout"), ("districts", .arr [])]⟩,
        fetched := true, disk := keralaDisk } ∧
    Districts.handler sampleRuntime sampleCase appRoot (some (js "Kerala")) true
        (.body "<html>Bad Gateway</html>") (fixedClock 1800000000000) keralaDisk =
      { result := .ok ⟨500, .obj [("error", .str "Failed to parse API response"),
          ("districts", .arr [])]⟩,
        fetched := true, disk := keralaDisk } := by
  refine ⟨rfl, rfl, rfl, rfl⟩

/-! ## Lemmas on `trim` and on the case of ASCII letters -/

theorem isWhiteSpace_asciiLower (u : Nat) : isWhiteSpace (asciiLower u) = isWhiteSpace u := by
  unfold asciiLower
  split
  · next h =>
    have h1 : isWhiteSpace (u + 32) = false := by
      simp only [isWhiteSpace, Bool.or_eq_false_iff, Bool.and_eq_false_iff, decide_eq_false_iff_not]
      omega
    have h2 : isWhiteSpace u = false := by
      simp only [isWhiteSpace, Bool.or_eq_false_iff, Bool.and_eq_false_iff, decide_eq_false_iff_not]
      omega
    rw [h1, h2]
  · rfl

theorem all_of_all_isWhiteSpace {l : List Nat} (h : l.all isWhiteSpace = true) :
    ∀ a ∈ l, isWhiteSpace a = true := by
  simpa using h

theorem trim_padded (pre core post : JSString) (hpre : pre.all isWhiteSpace = true)
    (hpost : post.all isWhiteSpace = true) : trim (pre ++ core ++ post) = trim core := by
  have hpre' := all_of_all_isWhiteSpace hpre
  have hpost' := all_of_all_isWhiteSpace hpost
  have hrev : ∀ a ∈ post.reverse, isWhiteSpace a = true := fun a ha =>
    hpost' a (List.mem_reverse.1 ha)
  unfold trim
  rw [List.append_assoc, List.dropWhile_append_of_pos hpre', List.dropWhile_append]
  split
  · next hempty =>
    have hcore : core.dropWhile isWhiteSpace = [] := by simpa using hempty
    have hp : post.dropWhile isWhiteSpace = [] := by
      rw [← List.append_nil post, List.dropWhile_append_of_pos hpost']
      rfl
    rw [hcore, hp]
  · rw [List.reverse_append, List.dropWhile_append_of_pos hrev]

theorem trim_map_asciiLower (s : JSString) : (trim s).map asciiLower = trim (s.map asciiLower) := by
  have hfun : (isWhiteSpace ∘ asciiLower) = isWhiteSpace := by
    funext u
    exact isWhiteSpace_asciiLower u
  unfold trim
  rw [List.dropWhile_map, hfun, ← List.map_reverse, List.dropWhile_map, hfun, List.map_reverse]

theorem trim_all_ascii {s : JSString} (h : s.all (fun u => decide (u < 128)) = true) :
    (trim s).all (fun u => decide (u < 128)) = true := by
  rw [List.all_eq_true] at h ⊢
  intro u hu
  apply h
  unfold trim at hu
  have h1 := (List.dropWhile_sublist isWhiteSpace).subset (List.mem_reverse.1 hu)
  exact (List.dropWhile_sublist isWhiteSpace).subset (List.mem_reverse.1 h1)

/-- On ASCII text, `normaliseKey` sees neither the case of letters nor the
white space around the text. -/
theorem normaliseKey_of_differOnly (ct : CaseTables) (a b : JSString)
    (ha : a.all (fun u => decide (u < 128)) = true)
    (hb : b.all (fun u => decide (u < 128)) = true)
    (h : differOnlyInCaseAndPadding a b) : normaliseKey ct a = normaliseKey ct b := by
  obtain ⟨pre, core, post, pre', core', post', ea, eb, h1, h2, h3, h4, hcore⟩ := h
  have hta : trim a = trim core := by rw [ea]; exact trim_padded pre core post h1 h2
  have htb : trim b = trim core' := by rw [eb]; exact trim_padded pre' core' post' h3 h4
  unfold normaliseKey toLowerCase
  rw [if_pos (trim_all_ascii ha), if_pos (trim_all_ascii hb), hta, htb, trim_map_asciiLower,
    trim_map_asciiLower, hcore]

/-- Claim C18 (statistics key normalisation). The cache key is
`mgnrega:<state>:<district>:<month or 'recent'>:<months>` with state and
district trimmed then lower-cased and `months = parseMonths(lastMonths)`. Hence
two requests whose normalised states and districts agree, with the same month
and the same effective months, have the same key; in particular two requests in
ASCII text whose state and district differ only in the case of letters and in
leading and trailing white space. -/
theorem mgnregaCacheKey_normalised (ct : CaseTables) :
    (∀ state district month lastMonths,
        mgnregaCacheKey ct state district month lastMonths =
          js "mgnrega:" ++ toLowerCase ct (trim state) ++ js ":" ++
            toLowerCase ct (trim district) ++ js ":" ++
            (match month with
              | some m => if m = [] then js "recent" else m
              | none => js "recent") ++ js ":" ++
            smallNumberText (parseMonths lastMonths)) ∧
      (∀ s₁ s₂ d₁ d₂ month l₁ l₂,
        normaliseKey ct s₁ = normaliseKey ct s₂ → normaliseKey ct d₁ = normaliseKey ct d₂ →
        parseMonths l₁ = parseMonths l₂ →
        mgnregaCacheKey ct s₁ d₁ month l₁ = mgnregaCacheKey ct s₂ d₂ month l₂) ∧
      (∀ s₁ s₂ d₁ d₂ month l₁ l₂,
        s₁.all (fun u => decide (u < 128)) = true → s₂.all (fun u => decide (u < 128)) = true →
        d₁.all (fun u => decide (u < 128)) = true → d₂.all (fun u => decide (u < 128)) = true →
        differOnlyInCaseAndPadding s₁ s₂ → differOnlyInCaseAndPadding d₁ d₂ →
        parseMonths l₁ = parseMonths l₂ →
        mgnregaCacheKey ct s₁ d₁ month l₁ = mgnregaCacheKey ct s₂ d₂ month l₂) := by
  refine ⟨?_, ?_, ?_⟩
  · intro state district month lastMonths
    unfold mgnregaCacheKey normaliseKey
    cases month with
    | none => rfl
    | some m =>
      cases m with
      | nil => rfl
      | cons c cs => rfl
  · intro s₁ s₂ d₁ d₂ month l₁ l₂ hs hd hl
    simp only [mgnregaCacheKey, hs, hd, hl]
  · intro s₁ s₂ d₁ d₂ month l₁ l₂ hs₁ hs₂ hd₁ hd₂ hs hd hl
    simp only [mgnregaCacheKey, normaliseKey_of_differOnly ct s₁ s₂ hs₁ hs₂ hs,
      normaliseKey_of_differOnly ct d₁ d₂ hd₁ hd₂ hd, hl]

theorem mgnregaCacheKey_normalised_witness :
    mgnregaCacheKey sampleCase (js "  Uttar Pradesh ") (js "VARANASI") none (some (js "12"))
      = mgnregaCacheKey sampleCase (js "uttar pradesh") (js "Varanasi\t") none none :=
  (mgnregaCacheKey_normalised sampleCase).2.2 (js "  Uttar Pradesh ") (js "uttar pradesh")
    (js "VARANASI") (js "Varanasi\t") none (some (js "12")) none
    (by decide) (by decide) (by decide) (by decide)
    ⟨js "  ", js "Uttar Pradesh", js " ", [], js "uttar pradesh", [],
      by decide, by decide, by decide, by decide, by decide, by decide, by decide⟩
    ⟨[], js "VARANASI", [], [], js "Varanasi", js "\t",
      by decide, by decide, by decide, by decide, by decide, by decide, by decide⟩
    (by decide)

/-! ## Lemmas on the cache writes of the handlers -/

theorem Mgnrega.staleOr_disk (rt : Runtime) (cwd : Path) (cacheKey : JSString) (nowMs : Nat)
    (status : Nat) (error : String) (fetched : Bool) (d : Disk) :
    (Mgnrega.staleOr rt cwd cacheKey nowMs status error fetched d).disk = d := by
  obtain ⟨stale, hread⟩ := getCached_ok rt cwd cacheKey (.given true) nowMs d
  rw [Mgnrega.staleOr_eq rt cwd cacheKey nowMs status error fetched d stale hread]
  split <;> rfl

theorem Mgnrega.afterFetch_disk (rt : Runtime) (cwd : Path) (cacheKey : JSString)
    (payload : Option Upstream) (clock : Nat → Nat) (d : Disk) :
    (Mgnrega.afterFetch rt cwd cacheKey payload clock d).disk = d ∨
      ∃ value, (Mgnrega.afterFetch rt cwd cacheKey payload clock d).disk
        = (setCached rt cwd cacheKey value (some 86400) (clock 1) (clock 2) d).2 := by
  unfold Mgnrega.afterFetch
  split
  · exact Or.inl (Mgnrega.staleOr_disk ..)
  · split
    · exact Or.inl (Mgnrega.staleOr_disk ..)
    · cases payload with
      | none => exact Or.inl (Mgnrega.staleOr_disk ..)
      | some p =>
        refine Or.inr ⟨Mgnrega.cachedValue p, ?_⟩
        show (match setCached rt cwd cacheKey (Mgnrega.cachedValue p) (some Mgnrega.cacheTTL)
            (clock 1) (clock 2) d with
          | (.error e, d2) => ({ result := .error e, fetched := true, disk := d2 } : Run)
          | (.ok _, d2) =>
            { result := .ok ⟨200, .obj (setProp (spreadInto [("fromCache", .bool false)]
                (Mgnrega.payloadProps p)) "source" (.str "upstream"))⟩,
              fetched := true, disk := d2 }).disk
          = (setCached rt cwd cacheKey (Mgnrega.cachedValue p) (some Mgnrega.cacheTTL)
            (clock 1) (clock 2) d).2
        rcases setCached rt cwd cacheKey (Mgnrega.cachedValue p) (some Mgnrega.cacheTTL)
          (clock 1) (clock 2) d with ⟨written, d2⟩
        cases written <;> rfl

theorem Mgnrega.handler_disk (rt : Runtime) (ct : CaseTables) (cwd : Path) (q : Query)
    (upstream : Fetched) (clock : Nat → Nat) (d : Disk) :
    (Mgnrega.handler rt ct cwd q upstream clock d).disk = d ∨
      ∃ value, (Mgnrega.handler rt ct cwd q upstream clock d).disk
        = (setCached rt cwd
            (mgnregaCacheKey ct (q.state.getD []) (q.district.getD []) q.month q.lastMonths)
            value (some 86400) (clock 1) (clock 2) d).2 := by
  obtain ⟨cached, hread⟩ := getCached_ok rt cwd
    (mgnregaCacheKey ct (q.state.getD []) (q.district.getD []) q.month q.lastMonths)
    .omitted (clock 0) d
  unfold Mgnrega.handler
  split
  · exact Or.inl rfl
  · rw [hread]
    simp only
    split
    · exact Or.inl rfl
    · exact Mgnrega.afterFetch_disk ..

theorem Districts.onEnd_disk (rt : Runtime) (cwd : Path) (cacheKey : JSString) (data : String)
    (now₁ now₂ : Nat) (d : Disk) :
    (Districts.onEnd rt cwd cacheKey data now₁ now₂ d).2 = d ∨
      ∃ value, (Districts.onEnd rt cwd cacheKey data now₁ now₂ d).2
        = (setCached rt cwd cacheKey value (some 86400) now₁ now₂ d).2 := by
  unfold Districts.onEnd
  cases rt.parse data with
  | none => exact Or.inl rfl
  | some json =>
    simp only
    cases getProp json "records" with
    | error e => exact Or.inl rfl
    | ok records =>
      cases records with
      | undefined => exact Or.inl rfl
      | json v =>
        cases v with
        | arr records =>
          simp only
          cases districtNames records with
          | error e => exact Or.inl rfl
          | ok names =>
            refine Or.inr ⟨.obj (Districts.resultOf names), ?_⟩
            simp only
            rw [show (60 * 60 * 24 : Int) = 86400 from by norm_num]
            rcases setCached rt cwd cacheKey (.obj (Districts.resultOf names)) (some 86400)
              now₁ now₂ d with ⟨written, d1⟩
            cases written <;> rfl
        | _ => exact Or.inl rfl

theorem Districts.listing_disk (rt : Runtime) (ct : CaseTables) (cwd : Path)
    (state : Option JSString) (apiKeySet : Bool) (upstream : HttpsOutcome) (clock : Nat → Nat)
    (d : Disk) :
    (Districts.handler rt ct cwd state apiKeySet upstream clock d).disk = d ∨
      ∃ value, (Districts.handler rt ct cwd state apiKeySet upstream clock d).disk
        = (setCached rt cwd (Districts.cacheKey ct (state.getD [])) value (some 86400)
            (clock 1) (clock 2) d).2 := by
  obtain ⟨cached, hread⟩ := getCached_ok rt cwd (Districts.cacheKey ct (state.getD []))
    .omitted (clock 0) d
  unfold Districts.handler
  split
  · exact Or.inl rfl
  · split
    · exact Or.inl rfl
    · rw [hread]
      simp only
      split
      · exact Or.inl rfl
      · cases upstream with
        | failed => exact Or.inl rfl
        | timedOut => exact Or.inl rfl
        | body data =>
          simp only
          have h := Districts.onEnd_disk rt cwd (Districts.cacheKey ct (state.getD [])) data
            (clock 1) (clock 2) d
          generalize Districts.onEnd rt cwd (Districts.cacheKey ct (state.getD [])) data (clock 1)
            (clock 2) d = ended at h ⊢
          rcases ended with ⟨r, d2⟩
          cases r <;> exact h

/-- Claim C19 (explicit ttl at every cache write of the handlers). A run of the
statistics handler or of the district-list handler leaves the disk as it was or
as `setCached` with the explicit ttl `86400` leaves it; the write of the
geolocation handler, when it happens, is `setCached` with the explicit ttl
`21600` for the method `ip` and `1800` for every other method; the write of the
IP-location handler, when it happens, is `setCached` with the explicit ttl
`86400`; each ttl lies between `1800` and `86400`. -/
theorem handlers_pass_explicit_ttl (rt : Runtime) (cwd : Path) :
    (∀ ct q upstream clock d,
        (Mgnrega.handler rt ct cwd q upstream clock d).disk = d ∨
        ∃ value, (Mgnrega.handler rt ct cwd q upstream clock d).disk
          = (setCached rt cwd
              (mgnregaCacheKey ct (q.state.getD []) (q.district.getD []) q.month q.lastMonths)
              value (some 86400) (clock 1) (clock 2) d).2) ∧
      (∀ ct state apiKeySet upstream clock d,
        (Districts.handler rt ct cwd state apiKeySet upstream clock d).disk = d ∨
        ∃ value, (Districts.handler rt ct cwd state apiKeySet upstream clock d).disk
          = (setCached rt cwd (Districts.cacheKey ct (state.getD [])) value (some 86400)
              (clock 1) (clock 2) d).2) ∧
      (∀ method lat lon districtName result now₁ now₂ d,
        Geolocate.store rt cwd method lat lon districtName result now₁ now₂ d = (.ok (), d) ∨
        ∃ ttl : Int,
          Geolocate.store rt cwd method lat lon districtName result now₁ now₂ d
            = setCached rt cwd (Geolocate.cacheKey method lat lon) result (some ttl) now₁ now₂ d ∧
          ttl = (if method = js "ip" then 21600 else 1800) ∧ 1800 ≤ ttl ∧ ttl ≤ 86400) ∧
      (∀ userIP location now₁ now₂ d,
        IpLocation.store rt cwd userIP location now₁ now₂ d = (.ok (), d) ∨
        ∃ value,
          IpLocation.store rt cwd userIP location now₁ now₂ d
            = setCached rt cwd (js "ip-location:" ++ userIP) value (some 86400) now₁ now₂ d) := by
  refine ⟨fun ct q upstream clock d => Mgnrega.handler_disk rt ct cwd q upstream clock d,
    fun ct state apiKeySet upstream clock d =>
      Districts.listing_disk rt ct cwd state apiKeySet upstream clock d, ?_, ?_⟩
  · intro method lat lon districtName result now₁ now₂ d
    unfold Geolocate.store
    split
    · refine Or.inr ⟨Geolocate.ttl method, rfl, ?_, ?_, ?_⟩
      · unfold Geolocate.ttl
        split <;> norm_num
      · unfold Geolocate.ttl
        split <;> norm_num
      · unfold Geolocate.ttl
        split <;> norm_num
    · exact Or.inl rfl
  · intro userIP location now₁ now₂ d
    unfold IpLocation.store
    cases location with
    | undefined => exact Or.inl rfl
    | json v =>
      simp only
      split
      · refine Or.inr ⟨v, ?_⟩
        rw [show (60 * 60 * 24 : Int) = 86400 from by norm_num]
      · exact Or.inl rfl

/-! ## Lemmas on `findDistrictData` -/

/-- A value that is `undefined` or a string. -/
theorem normaliseKeyOf_text (ct : CaseTables) {x : JSValue}
    (hx : x = .undefined ∨ ∃ s, x = .json (.str s)) : ∃ k, normaliseKeyOf ct x = .ok k := by
  rcases hx with rfl | ⟨s, rfl⟩
  · exact ⟨_, rfl⟩
  · exact ⟨_, rfl⟩

theorem someMatches_text (ct : CaseTables) (search : JSString) (l : List JSValue)
    (hl : ∀ x ∈ l, x = .undefined ∨ ∃ s, x = .json (.str s)) :
    ∃ b, someMatches ct search l = .ok b := by
  induction l with
  | nil => exact ⟨false, rfl⟩
  | cons x xs ih =>
    obtain ⟨k, hk⟩ := normaliseKeyOf_text ct (hl x (by simp))
    obtain ⟨b, hb⟩ := ih (fun y hy => hl y (by simp [hy]))
    simp only [someMatches, hk]
    split
    · exact ⟨true, rfl⟩
    · exact ⟨b, hb⟩

theorem similarNames_text (ct : CaseTables) (search : JSString) (l : List JSValue)
    (hl : ∀ x ∈ l, x = .undefined ∨ ∃ s, x = .json (.str s)) :
    ∃ r, similarNames ct search l = .ok r := by
  induction l with
  | nil => exact ⟨[], rfl⟩
  | cons x xs ih =>
    obtain ⟨k, hk⟩ := normaliseKeyOf_text ct (hl x (by simp))
    obtain ⟨r, hr⟩ := ih (fun y hy => hl y (by simp [hy]))
    simp only [similarNames, hk, hr]
    exact ⟨_, rfl⟩

theorem mem_uniqueValues {l : List JSValue} {x : JSValue} (h : x ∈ uniqueValues l) : x ∈ l := by
  induction l with
  | nil => simp [uniqueValues] at h
  | cons y ys ih =>
    simp only [uniqueValues, List.mem_cons, List.mem_filter] at h
    rcases h with h | h
    · simp [h]
    · exact List.mem_cons_of_mem _ (ih h.1)

theorem mem_insertByText {x y : JSONValue} {l : List JSONValue} (h : y ∈ insertByText x l) :
    y = x ∨ y ∈ l := by
  induction l with
  | nil => simpa [insertByText] using h
  | cons z zs ih =>
    simp only [insertByText] at h
    split at h
    · simpa using h
    · rcases List.mem_cons.1 h with h | h
      · simp [h]
      · rcases ih h with h | h
        · exact Or.inl h
        · exact Or.inr (List.mem_cons_of_mem _ h)

theorem mem_sorted {v : JSONValue} {l : List JSONValue} (h : v ∈ l.foldr insertByText []) :
    v ∈ l := by
  induction l with
  | nil => simp at h
  | cons x xs ih =>
    rcases mem_insertByText h with h | h
    · simp [h]
    · exact List.mem_cons_of_mem _ (ih h)

theorem mem_definedItems {v : JSONValue} {l : List JSValue} (h : v ∈ definedItems l) :
    JSValue.json v ∈ l := by
  induction l with
  | nil => simp [definedItems] at h
  | cons x xs ih =>
    cases x with
    | undefined => exact List.mem_cons_of_mem _ (ih (by simpa [definedItems] using h))
    | json w =>
      simp only [definedItems, List.mem_cons] at h
      rcases h with h | h
      · simp [h]
      · exact List.mem_cons_of_mem _ (ih h)

theorem mem_defaultSort {x : JSValue} {l : List JSValue} (h : x ∈ defaultSort l) : x ∈ l := by
  simp only [defaultSort, List.mem_append, List.mem_map, List.mem_filter] at h
  rcases h with ⟨v, hv, rfl⟩ | ⟨h, -⟩
  · exact mem_definedItems (mem_sorted hv)
  · exact h

theorem isDistrictRecord_name {r : JSONValue} (h : isDistrictRecord r = true) :
    getProp r "district_name" = .ok .undefined ∨
      ∃ s, getProp r "district_name" = .ok (.json (.str s)) := by
  cases r with
  | obj props =>
    simp only [isDistrictRecord, Bool.and_eq_true] at h
    simp only [getProp]
    rcases hlook : props.lookup "district_name" with _ | v
    · exact Or.inl rfl
    · rw [hlook] at h
      cases v with
      | str s => exact Or.inr ⟨s, rfl⟩
      | _ => simp at h
  | _ => simp [isDistrictRecord] at h

theorem districtNames_typed (records : List JSONValue)
    (h : ∀ r ∈ records, isDistrictRecord r = true) :
    ∃ names, districtNames records = .ok names ∧
      ∀ x ∈ names, x = .undefined ∨ ∃ s, x = .json (.str s) := by
  induction records with
  | nil => exact ⟨[], rfl, by simp⟩
  | cons r rs ih =>
    obtain ⟨names, hnames, htext⟩ := ih (fun x hx => h x (List.mem_cons_of_mem _ hx))
    rcases isDistrictRecord_name (h r (List.mem_cons_self _ _)) with hr | ⟨s, hr⟩
    · refine ⟨.undefined :: names, by simp only [districtNames, hr, hnames], ?_⟩
      intro x hx
      rcases List.mem_cons.1 hx with rfl | hx
      · exact Or.inl rfl
      · exact htext x hx
    · refine ⟨.json (.str s) :: names, by simp only [districtNames, hr, hnames], ?_⟩
      intro x hx
      rcases List.mem_cons.1 hx with rfl | hx
      · exact Or.inr ⟨s, rfl⟩
      · exact htext x hx

theorem logAvailable_typed (ct : CaseTables) (search : JSString) (records : List JSONValue)
    (h : ∀ r ∈ records, isDistrictRecord r = true) : logAvailable ct search records = .ok () := by
  unfold logAvailable
  split
  · obtain ⟨names, hnames, htext⟩ := districtNames_typed records h
    have hsorted : ∀ x ∈ defaultSort (uniqueValues names),
        x = .undefined ∨ ∃ s, x = .json (.str s) :=
      fun x hx => htext x (mem_uniqueValues (mem_defaultSort hx))
    obtain ⟨b, hb⟩ := someMatches_text ct search _ hsorted
    obtain ⟨sim, hsim⟩ := similarNames_text ct search _ hsorted
    simp only [hnames, hb, hsim]
    cases b <;> rfl
  · rfl

theorem recordDistrict_typed (ct : CaseTables) {r : JSONValue}
    (h : isDistrictRecord r = true) :
    ∃ n, recordDistrict r = .ok n ∧
      normaliseKeyOf ct n = .ok (normaliseKey ct (comparedName r)) := by
  cases r with
  | obj props =>
    simp only [isDistrictRecord, Bool.and_eq_true] at h
    obtain ⟨h1, h2⟩ := h
    simp only [recordDistrict, getProp, comparedName]
    rcases hname : props.lookup "district_name" with _ | v
    · rcases hother : props.lookup "district" with _ | w
      · exact ⟨.json (.str ""), by simp [truthy], rfl⟩
      · rw [hother] at h2
        cases w with
        | str t =>
          by_cases ht : t = ""
          · subst ht
            exact ⟨.json (.str ""), by simp [truthy], rfl⟩
          · exact ⟨.json (.str t), by simp [truthy, ht], rfl⟩
        | _ => simp at h2
    · rw [hname] at h1
      cases v with
      | str s =>
        by_cases hs : s = ""
        · subst hs
          rcases hother : props.lookup "district" with _ | w
          · exact ⟨.json (.str ""), by simp [truthy], rfl⟩
          · rw [hother] at h2
            cases w with
            | str t =>
              by_cases ht : t = ""
              · subst ht
                exact ⟨.json (.str ""), by simp [truthy], rfl⟩
              · exact ⟨.json (.str t), by simp [truthy, ht], rfl⟩
            | _ => simp at h2
        · exact ⟨.json (.str s), by simp [truthy, hs], by simp [hs, normaliseKeyOf]⟩
      | _ => simp at h1
  | _ => simp [isDistrictRecord] at h

theorem findExact_typed (ct : CaseTables) (search : JSString) (records : List JSONValue)
    (h : ∀ r ∈ records, isDistrictRecord r = true) :
    findExact ct search records
      = .ok (match records.find? (fun r => normaliseKey ct (comparedName r) == search) with
          | some r => .json r
          | none => .undefined) := by
  induction records with
  | nil => rfl
  | cons r rs ih =>
    obtain ⟨n, hn, hkey⟩ := recordDistrict_typed ct (h r (List.mem_cons_self _ _))
    simp only [findExact, hn, hkey, List.find?_cons]
    by_cases heq : normaliseKey ct (comparedName r) = search
    · simp [heq]
    · rw [if_neg heq, ih (fun x hx => h x (List.mem_cons_of_mem _ hx))]
      have hb : (normaliseKey ct (comparedName r) == search) = false := by simpa using heq
      rw [hb]

theorem recordDistrict_fallback (ct : CaseTables) (props : List (String × JSONValue))
    (h : (match props.lookup "district" with
      | none => true
      | some .null => true
      | some (.str _) => true
      | some _ => false) = true) :
    ∃ n : JSValue, (match getProp (.obj props) "district" with
        | .error e => Except.error e
        | .ok other =>
          if truthy other then Except.ok other
          else Except.ok (JSValue.json (.str "")) : Except JSError JSValue) = .ok n ∧
      normaliseKeyOf ct n
        = .ok (normaliseKey ct (match props.lookup "district" with
            | some (.str t) => js t
            | _ => [])) := by
  simp only [getProp]
  rcases hother : props.lookup "district" with _ | w
  · exact ⟨.json (.str ""), by simp [truthy], rfl⟩
  · rw [hother] at h
    cases w with
    | null => exact ⟨.json (.str ""), by simp [truthy], rfl⟩
    | str t =>
      by_cases ht : t = ""
      · subst ht
        exact ⟨.json (.str ""), by simp [truthy], rfl⟩
      · exact ⟨.json (.str t), by simp [truthy, ht], rfl⟩
    | _ => simp at h

theorem recordDistrict_nullable (ct : CaseTables) {r : JSONValue}
    (h : hasNullableNames r = true) :
    ∃ n, recordDistrict r = .ok n ∧
      normaliseKeyOf ct n = .ok (normaliseKey ct (comparedName r)) := by
  cases r with
  | obj props =>
    simp only [hasNullableNames, Bool.and_eq_true] at h
    obtain ⟨h1, h2⟩ := h
    obtain ⟨n, hn, hkey⟩ := recordDistrict_fallback ct props h2
    rcases hname : props.lookup "district_name" with _ | v
    · refine ⟨n, ?_, ?_⟩
      · simpa [recordDistrict, getProp, hname, truthy] using hn
      · simpa [comparedName, hname] using hkey
    · rw [hname] at h1
      cases v with
      | null =>
        refine ⟨n, ?_, ?_⟩
        · simpa [recordDistrict, getProp, hname, truthy] using hn
        · simpa [comparedName, hname] using hkey
      | str s =>
        by_cases hs : s = ""
        · subst hs
          refine ⟨n, ?_, ?_⟩
          · simpa [recordDistrict, getProp, hname, truthy] using hn
          · simpa [comparedName, hname] using hkey
        · refine ⟨.json (.str s), ?_, ?_⟩
          · simp [recordDistrict, getProp, hname, truthy, hs]
          · simp [comparedName, hname, hs, normaliseKeyOf]
      | _ => simp at h1
  | _ => simp [hasNullableNames] at h

theorem findExact_nullable (ct : CaseTables) (search : JSString) (records : List JSONValue)
    (h : ∀ r ∈ records, hasNullableNames r = true) :
    findExact ct search records
      = .ok (match records.find? (fun r => normaliseKey ct (comparedName r) == search) with
          | some r => .json r
          | none => .undefined) := by
  induction records with
  | nil => rfl
  | cons r rs ih =>
    obtain ⟨n, hn, hkey⟩ := recordDistrict_nullable ct (h r (List.mem_cons_self _ _))
    simp only [findExact, hn, hkey, List.find?_cons]
    by_cases heq : normaliseKey ct (comparedName r) = search
    · simp [heq]
    · rw [if_neg heq, ih (fun x hx => h x (List.mem_cons_of_mem _ hx))]
      have hb : (normaliseKey ct (comparedName r) == search) = false := by simpa using heq
      rw [hb]

/-- Claim C20 (exact district match only), with what the code does on a `null`
name. For records that are objects whose `district_name` and `district`, when
present, are strings, `findDistrictData` returns the first record in input
order whose compared name (`district_name` when it is a non-empty string, else
`district`, else the empty string), trimmed and lower-cased, equals the
trimmed lower-cased search name, and `undefined` when no record matches
exactly; for any `records` that is not an array it returns `null`. The `find`
of the function does the same for records whose names may also be `null`. The
logging block before it does not: on `[{district_name: null}]` and on
`[{district_name: "pune"}, {district_name: null}]` it throws a `TypeError` at
`normaliseKey(null)`, where the `find` alone returns no record and the first
record. -/
theorem findDistrictData_exact_match (ct : CaseTables) (records : List JSONValue)
    (districtName : JSString) (htyped : ∀ r ∈ records, isDistrictRecord r = true) :
    findDistrictData ct (.json (.arr records)) districtName
        = .ok (match firstExactMatch ct records districtName with
            | some r => .json r
            | none => .undefined) ∧
      (∀ other : JSValue, (∀ items, other ≠ .json (.arr items)) →
        findDistrictData ct other districtName = .ok (.json .null)) ∧
      (∀ nullable : List JSONValue, (∀ r ∈ nullable, hasNullableNames r = true) →
        findExact ct (normaliseKey ct districtName) nullable
          = .ok (match firstExactMatch ct nullable districtName with
              | some r => .json r
              | none => .undefined)) ∧
      findDistrictData sampleCase (.json (.arr [.obj [("district_name", .null)]])) (js "Agra")
        = .error .TypeError ∧
      findExact sampleCase (normaliseKey sampleCase (js "Agra")) [.obj [("district_name", .null)]]
        = .ok .undefined ∧
      findDistrictData sampleCase
          (.json (.arr [.obj [("district_name", .str "pune")], .obj [("district_name", .null)]]))
          (js "pune")
        = .error .TypeError ∧
      findExact sampleCase (normaliseKey sampleCase (js "pune"))
          [.obj [("district_name", .str "pune")], .obj [("district_name", .null)]]
        = .ok (.json (.obj [("district_name", .str "pune")])) := by
  refine ⟨?_, ?_, ?_, rfl, rfl, rfl, rfl⟩
  · simp only [findDistrictData, logAvailable_typed ct _ records htyped, firstExactMatch]
    exact findExact_typed ct _ records htyped
  · intro other hother
    unfold findDistrictData
    split
    · exact absurd rfl (hother _)
    · rfl
  · intro nullable hnullable
    exact findExact_nullable ct _ nullable hnullable

/-- An instance of claim C20 on records with string names: among the records
named `Agra Rural`, ` AGRA ` and `agra`, the search name `Agra` finds the
second one. -/
theorem findDistrictData_exact_match_witness :
    (∀ r ∈ [JSONValue.obj [("district_name", .str "Agra Rural")],
        .obj [("district_name", .str " AGRA "), ("district", .str "x")],
        .obj [("district", .str "agra")]], isDistrictRecord r = true) ∧
      findDistrictData sampleCase
          (.json (.arr [.obj [("district_name", .str "Agra Rural")],
            .obj [("district_name", .str " AGRA "), ("district", .str "x")],
            .obj [("district", .str "agra")]])) (js "Agra")
        = .ok (.json (.obj [("district_name", .str " AGRA "), ("district", .str "x")])) :=
  ⟨by decide,
    (findDistrictData_exact_match sampleCase _ (js "Agra") (by decide)).1.trans (by rfl)⟩

/-! ## The window length and the statuses of the statistics handler -/

theorem parseMonths_bounds (value : Option JSString) :
    1 ≤ parseMonths value ∧ parseMonths value ≤ 24 := by
  unfold parseMonths DEFAULT_MONTHS
  cases value with
  | none => decide
  | some s =>
    simp only
    cases parseInt10 s with
    | none => decide
    | some n =>
      simp only
      split
      · omega
      · decide

/-- Claim C24 (`parseMonths` yields a window length in range). For every input,
absent or any string, `parseMonths` returns `n` with `1 ≤ n ≤ 24`; it returns
the integer that `parseInt(value, 10)` reads at the head of the text when that
integer lies in `1..24`, and `12` when `parseInt` gives `NaN` or an integer
outside `1..24`; so `12` for the absent, non-numeric, negative, zero and huge
inputs, and the integer part `6` for the fractional `6.9`. -/
theorem parseMonths_in_range :
    (∀ value, 1 ≤ parseMonths value ∧ parseMonths value ≤ 24) ∧
      (∀ s n, parseInt10 s = some n → 1 ≤ n → n ≤ 24 → (parseMonths (some s) : Int) = n) ∧
      (∀ s n, parseInt10 s = some n → n < 1 ∨ 24 < n → parseMonths (some s) = 12) ∧
      (∀ s, parseInt10 s = none → parseMonths (some s) = 12) ∧
      parseMonths none = 12 ∧
      parseMonths (some (js "abc")) = 12 ∧ parseMonths (some (js "")) = 12 ∧
      parseMonths (some (js "6.9")) = 6 ∧ parseMonths (some (js "-3")) = 12 ∧
      parseMonths (some (js "0")) = 12 ∧ parseMonths (some (js "25")) = 12 ∧
      parseMonths (some (js "99999999999999999999999")) = 12 ∧
      parseMonths (some (js " 24 months")) = 24 ∧ parseMonths (some (js "+1")) = 1 := by
  refine ⟨parseMonths_bounds, ?_, ?_, ?_, by decide, by decide, by decide, by decide, by decide,
    by decide, by decide, by decide, by decide, by decide⟩
  · intro s n hn h1 h24
    simp only [parseMonths, hn]
    rw [if_pos ⟨by omega, h24⟩]
    exact Int.toNat_of_nonneg (by omega)
  · intro s n hn hout
    simp only [parseMonths, hn]
    rw [if_neg (by omega)]
    rfl
  · intro s hn
    simp only [parseMonths, hn]
    rfl

theorem parseMonths_in_range_witness :
    (parseMonths (some (js "18")) : Int) = 18 :=
  parseMonths_in_range.2.1 (js "18") 18 (by decide) (by decide) (by decide)

theorem Mgnrega.staleOr_result (rt : Runtime) (cwd : Path) (cacheKey : JSString) (nowMs : Nat)
    (status : Nat) (error : String) (fetched : Bool) (d : Disk) :
    ∃ r, (Mgnrega.staleOr rt cwd cacheKey nowMs status error fetched d).result = .ok r ∧
      (r.status = 200 ∨ r.status = status) := by
  obtain ⟨stale, hread⟩ := getCached_ok rt cwd cacheKey (.given true) nowMs d
  rw [Mgnrega.staleOr_eq rt cwd cacheKey nowMs status error fetched d stale hread]
  split
  · exact ⟨_, rfl, Or.inl rfl⟩
  · exact ⟨_, rfl, Or.inr rfl⟩

theorem Mgnrega.afterFetch_result (rt : Runtime) (cwd : Path) (cacheKey : JSString)
    (payload : Option Upstream) (clock : Nat → Nat) (d : Disk) :
    (∃ r, (Mgnrega.afterFetch rt cwd cacheKey payload clock d).result = .ok r ∧
        (r.status = 200 ∨ r.status = 503)) ∨
      ∃ p e, payload = some p ∧
        (setCached rt cwd cacheKey (Mgnrega.cachedValue p) (some 86400) (clock 1) (clock 2) d).1
          = .error e ∧
        (Mgnrega.afterFetch rt cwd cacheKey payload clock d).result = .error e := by
  unfold Mgnrega.afterFetch
  split
  · exact Or.inl (Mgnrega.staleOr_result ..)
  · split
    · exact Or.inl (Mgnrega.staleOr_result ..)
    · cases payload with
      | none => simp at *
      | some p =>
        simp only
        rw [show Mgnrega.cacheTTL = 86400 from by norm_num [Mgnrega.cacheTTL]]
        rcases hset : setCached rt cwd cacheKey (Mgnrega.cachedValue p) (some 86400) (clock 1)
          (clock 2) d with ⟨written, d2⟩
        cases written with
        | error e => exact Or.inr ⟨p, e, rfl, by rw [hset], rfl⟩
        | ok done => exact Or.inl ⟨_, rfl, Or.inl rfl⟩

/-- Claim C25 (the statuses of the statistics handler). For every request,
cache state and upstream outcome the run ends: with one response whose status
is `400`, `200` or `503`, or, when the fetch gave data and the `setCached` of
the handler throws, with that exception and no response; the `504` of the
last lines is never sent. On a medium that rejects writes the second case
happens: the run ends with `EACCES`. -/
theorem Mgnrega.handler_never_504 (rt : Runtime) (ct : CaseTables) (cwd : Path) (q : Query)
    (upstream : Fetched) (clock : Nat → Nat) (d : Disk) :
    ((∃ r, (Mgnrega.handler rt ct cwd q upstream clock d).result = .ok r ∧
          (r.status = 400 ∨ r.status = 200 ∨ r.status = 503)) ∨
        ∃ u e, upstream = .data u ∧
          (setCached rt cwd
            (mgnregaCacheKey ct (q.state.getD []) (q.district.getD []) q.month q.lastMonths)
            (Mgnrega.cachedValue (Mgnrega.payloadOf (parseMonths q.lastMonths) u)) (some 86400)
            (clock 1) (clock 2) d).1 = .error e ∧
          (Mgnrega.handler rt ct cwd q upstream clock d).result = .error e) ∧
      (∀ body, (Mgnrega.handler rt ct cwd q upstream clock d).result ≠ .ok ⟨504, body⟩) ∧
      (Mgnrega.handler sampleRuntime sampleCase appRoot agraQuery (.data sampleUpstream)
        (fixedClock 1700000000123) rejectingDisk).result = .error .EACCES := by
  have hmain : (∃ r, (Mgnrega.handler rt ct cwd q upstream clock d).result = .ok r ∧
          (r.status = 400 ∨ r.status = 200 ∨ r.status = 503)) ∨
        ∃ u e, upstream = .data u ∧
          (setCached rt cwd
            (mgnregaCacheKey ct (q.state.getD []) (q.district.getD []) q.month q.lastMonths)
            (Mgnrega.cachedValue (Mgnrega.payloadOf (parseMonths q.lastMonths) u)) (some 86400)
            (clock 1) (clock 2) d).1 = .error e ∧
          (Mgnrega.handler rt ct cwd q upstream clock d).result = .error e := by
    obtain ⟨cached, hread⟩ := getCached_ok rt cwd
      (mgnregaCacheKey ct (q.state.getD []) (q.district.getD []) q.month q.lastMonths)
      .omitted (clock 0) d
    unfold Mgnrega.handler
    split
    · exact Or.inl ⟨_, rfl, Or.inl rfl⟩
    · rw [hread]
      simp only
      split
      · exact Or.inl ⟨_, rfl, Or.inr (Or.inl rfl)⟩
      · rcases Mgnrega.afterFetch_result rt cwd
          (mgnregaCacheKey ct (q.state.getD []) (q.district.getD []) q.month q.lastMonths)
          (Mgnrega.payloadFrom (parseMonths q.lastMonths) upstream) clock d with
          ⟨r, hr, hs⟩ | ⟨p, e, hp, hset, hr⟩
        · exact Or.inl ⟨r, hr, Or.inr hs⟩
        · cases upstream with
          | throws => simp [Mgnrega.payloadFrom] at hp
          | noData => simp [Mgnrega.payloadFrom] at hp
          | data u =>
            simp only [Mgnrega.payloadFrom, Option.some.injEq] at hp
            subst hp
            exact Or.inr ⟨u, e, rfl, hset, hr⟩
  refine ⟨hmain, ?_, rfl⟩
  intro body hbody
  rcases hmain with ⟨r, hr, hs⟩ | ⟨u, e, -, -, hr⟩
  · rw [hbody] at hr
    have h504 : r.status = 504 := by
      cases hr
      rfl
    omega
  · rw [hbody] at hr
    cases hr

/-! ## The district searched by `fetchFromGov` -/

theorem lookupProperty_districtMappings (district : JSString)
    (h₁ : district ≠ js "Allahabad") (h₂ : district ≠ js "Faizabad") :
    lookupProperty districtMappings district
      = if district ∈ objectPrototypeNames then .inherited district else .undefined := by
  have e₁ : (district == js "Allahabad") = false := by simpa using h₁
  have e₂ : (district == js "Faizabad") = false := by simpa using h₂
  simp only [lookupProperty, districtMappings, List.lookup, e₁, e₂]

/-- Claim C21 (district renaming), with what the code does for the remaining
names. `fetchFromGov` searches under `Prayagraj` for `Allahabad` and under
`Ayodhya` for `Faizabad`; for every other name that is not the name of a
property of `Object.prototype` it searches under the requested name itself.
For a name that is one (`constructor`, `toString`, `__proto__` and the like),
`districtMappings[district]` is the inherited function or object, and
`findDistrictData` throws a `TypeError` on every array of records: so for
`constructor`, also when a record has that `district_name`. -/
theorem mappedDistrict_table (ct : CaseTables) :
    mappedDistrict (js "Allahabad") = .text (js "Prayagraj") ∧
      mappedDistrict (js "Faizabad") = .text (js "Ayodhya") ∧
      (∀ records, Gov.districtData ct records (js "Allahabad")
          = findDistrictData ct records (js "Prayagraj")) ∧
      (∀ records, Gov.districtData ct records (js "Faizabad")
          = findDistrictData ct records (js "Ayodhya")) ∧
      (∀ district, district ≠ js "Allahabad" → district ≠ js "Faizabad" →
        district ∉ objectPrototypeNames →
        mappedDistrict district = .text district ∧
          ∀ records, Gov.districtData ct records district
            = findDistrictData ct records district) ∧
      (∀ district, district ∈ objectPrototypeNames →
        mappedDistrict district = .inherited district ∧
          ∀ items, Gov.districtData ct (.json (.arr items)) district = .error .TypeError) ∧
      Gov.districtData sampleCase (.json (.arr inheritedNameRecords)) (js "constructor")
        = .error .TypeError ∧
      findDistrictData sampleCase (.json (.arr inheritedNameRecords)) (js "constructor")
        = .ok (.json (.obj [("district_name", .str "constructor")])) := by
  refine ⟨rfl, rfl, fun _ => rfl, fun _ => rfl, ?_, ?_, rfl, rfl⟩
  · intro district h₁ h₂ h₃
    have hm : mappedDistrict district = .text district := by
      simp only [mappedDistrict, lookupProperty_districtMappings district h₁ h₂, if_neg h₃]
    exact ⟨hm, fun records => by simp only [Gov.districtData, hm]⟩
  · intro district hin
    have h₁ : district ≠ js "Allahabad" := by
      rintro rfl
      revert hin
      decide
    have h₂ : district ≠ js "Faizabad" := by
      rintro rfl
      revert hin
      decide
    have hm : mappedDistrict district = .inherited district := by
      simp only [mappedDistrict, lookupProperty_districtMappings district h₁ h₂, if_pos hin]
    exact ⟨hm, fun items => by simp only [Gov.districtData, hm]⟩

theorem mappedDistrict_table_witness :
    mappedDistrict (js "Agra") = .text (js "Agra") ∧
      ∀ records, Gov.districtData sampleCase records (js "Agra")
        = findDistrictData sampleCase records (js "Agra") :=
  (mappedDistrict_table sampleCase).2.2.2.2.1 (js "Agra") (by decide) (by decide) (by decide)

/-- Claim C26 (what the code does for two spellings with one cache key). The
requests for the districts `Allahabad` and `allahabad` of one state, with the
same month and window, are given the same cache key; yet `fetchFromGov`
searches under `prayagraj` for the first and under `allahabad` for the second,
and on records that hold both names it finds different records, so the entry
under that key depends on the spelling that filled it. -/
theorem Gov.searchKey_depends_on_spelling (ct : CaseTables) (state : JSString)
    (month lastMonths : Option JSString) :
    mgnregaCacheKey ct state (js "Allahabad") month lastMonths
        = mgnregaCacheKey ct state (js "allahabad") month lastMonths ∧
      Gov.searchKey ct (js "Allahabad") = .ok (js "prayagraj") ∧
      Gov.searchKey ct (js "allahabad") = .ok (js "allahabad") ∧
      Gov.districtData sampleCase (.json (.arr renamedRecords)) (js "Allahabad")
        = .ok (.json (.obj [("district_name", .str "PRAYAGRAJ"),
            ("Total_Individuals_Worked", .str "5")])) ∧
      Gov.districtData sampleCase (.json (.arr renamedRecords)) (js "allahabad")
        = .ok (.json (.obj [("district_name", .str "ALLAHABAD"),
            ("Total_Individuals_Worked", .str "7")])) := by
  refine ⟨?_, rfl, rfl, rfl, rfl⟩
  have hkey : normaliseKey ct (js "Allahabad") = normaliseKey ct (js "allahabad") := rfl
  simp only [mgnregaCacheKey, hkey]

/-! ## The trend months -/

theorem daysInMonth_ge (y m : Nat) : 28 ≤ daysInMonth y m := by
  unfold daysInMonth
  split_ifs <;> omega

theorem setMonthBack_of_le (date : CivilDate) (i : Nat) (h : date.day ≤ 28) :
    setMonthBack date i =
      { year := (date.year * 12 + date.month - i) / 12,
        month := (date.year * 12 + date.month - i) % 12,
        day := date.day } := by
  unfold setMonthBack
  rw [if_pos (le_trans h (daysInMonth_ge _ _))]

/-- Claim C22 (twelve-month trend), with what the code does late in a month.
For every reading of the clock the trend has 12 points, built with the factors
of `seasonalPattern` in order, `0.75` for the first and `1.00` for the last.
When the day of the month is at most 28, the months of the points are the 12
consecutive calendar months that end with the current one, in ascending order.
On 31 March 2025 they are not: `setMonth` carries the 31st of a shorter month
into the following month, the labels are `2024-05` twice, `2024-07` twice and
so on to `2025-03` twice, only seven distinct months, without `2025-02`. -/
theorem trendPoints_months :
    (∀ now, (trendPoints now).length = 12 ∧
        (trendPoints now).map (fun p => p.baselineFactor) = seasonalPattern ∧
        (trendPoints now).head?.map (fun p => p.baselineFactor) = some 75 ∧
        (trendPoints now).getLast?.map (fun p => p.baselineFactor) = some 100) ∧
      (∀ date : CivilDate, date.day ≤ 28 → 1 ≤ date.year → date.month < 12 →
        (trendPoints (fun _ => date)).map (fun p => p.month)
            = (List.range 12).map (fun k => isoMonth
                { year := (date.year * 12 + date.month - 11 + k) / 12,
                  month := (date.year * 12 + date.month - 11 + k) % 12,
                  day := date.day }) ∧
          (trendPoints (fun _ => date)).getLast?.map (fun p => p.month) = some (isoMonth date)) ∧
      (trendPoints (fun _ => { year := 2025, month := 2, day := 31 })).map (fun p => p.month)
        = [js "2024-05", js "2024-05", js "2024-07", js "2024-07", js "2024-08", js "2024-10",
            js "2024-10", js "2024-12", js "2024-12", js "2025-01", js "2025-03",
            js "2025-03"] := by
  refine ⟨fun now => ⟨rfl, rfl, rfl, rfl⟩, ?_, by decide⟩
  intro date hday hyear hmonth
  have hpoint : ∀ k, k < 12 → setMonthBack date (11 - k) =
      { year := (date.year * 12 + date.month - 11 + k) / 12,
        month := (date.year * 12 + date.month - 11 + k) % 12,
        day := date.day } := by
    intro k hk
    rw [setMonthBack_of_le date (11 - k) hday]
    have hidx : date.year * 12 + date.month - (11 - k) = date.year * 12 + date.month - 11 + k := by
      omega
    rw [hidx]
  constructor
  · simp only [trendPoints, List.map_map]
    apply List.map_congr_left
    intro k hk
    simp only [Function.comp, hpoint k (List.mem_range.1 hk)]
  · have hlast : (trendPoints (fun _ => date)).getLast?.map (fun p => p.month)
        = some (isoMonth (setMonthBack date (11 - 11))) := rfl
    rw [hlast, hpoint 11 (by omega)]
    have h1 : (date.year * 12 + date.month - 11 + 11) / 12 = date.year := by omega
    have h2 : (date.year * 12 + date.month - 11 + 11) % 12 = date.month := by omega
    rw [h1, h2]

theorem trendPoints_months_witness :
    (trendPoints (fun _ => { year := 2025, month := 10, day := 5 })).getLast?.map
        (fun p => p.month)
      = some (isoMonth { year := 2025, month := 10, day := 5 }) :=
  (trendPoints_months.2.1 { year := 2025, month := 10, day := 5 } (by decide) (by decide)
    (by decide)).2

/-! ## Lemmas on `findDistrictName` -/

theorem includesText_nil (a : JSString) : includesText a [] = true := by
  cases a <;> simp [includesText, List.tails, List.isPrefixOf]

theorem partialMatch_nil_key (entries : List (JSString × JSString)) (h : entries ≠ []) :
    ∃ p ∈ entries, partialMatch [] entries = some p.2 := by
  cases entries with
  | nil => exact absurd rfl h
  | cons p rest =>
    obtain ⟨mapKey, mapName⟩ := p
    refine ⟨(mapKey, mapName), List.mem_cons_self _ _, ?_⟩
    simp only [partialMatch, includesText_nil, Bool.or_true, if_true]

theorem mem_insertByIndex {p q : Nat × (JSString × JSString)}
    {l : List (Nat × (JSString × JSString))} :
    q ∈ insertByIndex p l ↔ q = p ∨ q ∈ l := by
  induction l with
  | nil => simp [insertByIndex]
  | cons r rs ih =>
    simp only [insertByIndex]
    split
    · simp
    · simp only [List.mem_cons, ih]
      tauto

theorem mem_foldr_insertByIndex {q : Nat × (JSString × JSString)}
    {l : List (Nat × (JSString × JSString))} :
    q ∈ l.foldr insertByIndex [] ↔ q ∈ l := by
  induction l with
  | nil => simp
  | cons r rs ih => simp only [List.foldr_cons, mem_insertByIndex, ih, List.mem_cons]

theorem mem_objectEntries {own : List (JSString × JSString)} {p : JSString × JSString} :
    p ∈ objectEntries own ↔ p ∈ own := by
  simp only [objectEntries, List.mem_append, List.mem_map, mem_foldr_insertByIndex,
    List.mem_filterMap, List.mem_filter, Option.map_eq_some']
  constructor
  · rintro (⟨q, ⟨r, hr, i, -, rfl⟩, rfl⟩ | ⟨hp, -⟩)
    · exact hr
    · exact hp
  · intro hp
    cases hidx : arrayIndex p.1 with
    | none => exact Or.inr ⟨hp, by simp⟩
    | some i => exact Or.inl ⟨(i, p), ⟨p, hp, i, hidx, rfl⟩, rfl⟩

theorem assignProperty_values {own : List (JSString × JSString)} {key value : JSString}
    {p : JSString × JSString} (h : p ∈ assignProperty own key value) :
    p ∈ own ∨ p = (key, value) := by
  unfold assignProperty at h
  split at h
  · exact Or.inl h
  · split at h
    · obtain ⟨q, hq, rfl⟩ := List.mem_map.1 h
      split
      · exact Or.inr rfl
      · exact Or.inl hq
    · rcases List.mem_append.1 h with h | h
      · exact Or.inl h
      · exact Or.inr (by simpa using h)

theorem assignProperty_keeps {own : List (JSString × JSString)} (key value k : JSString)
    (h : own.any (fun p => p.1 == k) = true) :
    (assignProperty own key value).any (fun p => p.1 == k) = true := by
  unfold assignProperty
  split
  · exact h
  · split
    · obtain ⟨q, hq, hk⟩ := List.any_eq_true.1 h
      refine List.any_eq_true.2 ⟨if q.1 == key then (key, value) else q, ?_, ?_⟩
      · exact List.mem_map.2 ⟨q, hq, rfl⟩
      · split
        · next hqk =>
          have e₁ : q.1 = key := by simpa using hqk
          have e₂ : q.1 = k := by simpa using hk
          simp [← e₁, e₂]
        · exact hk
    · rw [List.any_append, h]
      rfl

theorem assignProperty_has {own : List (JSString × JSString)} (key value : JSString)
    (h : key ≠ js "__proto__") :
    (assignProperty own key value).any (fun p => p.1 == key) = true := by
  unfold assignProperty
  rw [if_neg h]
  split
  · next hany =>
    obtain ⟨q, hq, hk⟩ := List.any_eq_true.1 hany
    refine List.any_eq_true.2 ⟨if q.1 == key then (key, value) else q, ?_, ?_⟩
    · exact List.mem_map.2 ⟨q, hq, rfl⟩
    · rw [if_pos hk]
      simp
  · simp

theorem foldl_assign_keeps (f : JSString → JSString) (k : JSString) (districts : List JSString) :
    ∀ acc : List (JSString × JSString), acc.any (fun p => p.1 == k) = true →
      (districts.foldl (fun acc name => assignProperty acc (f name) name) acc).any
        (fun p => p.1 == k) = true := by
  induction districts with
  | nil => exact fun acc h => h
  | cons d ds ih => exact fun acc h => ih _ (assignProperty_keeps _ _ _ h)

theorem foldl_assign_has (f : JSString → JSString) (districts : List JSString) (d : JSString)
    (hd : d ∈ districts) (hkey : f d ≠ js "__proto__") :
    ∀ acc : List (JSString × JSString),
      (districts.foldl (fun acc name => assignProperty acc (f name) name) acc).any
        (fun p => p.1 == f d) = true := by
  induction districts with
  | nil => simp at hd
  | cons x xs ih =>
    intro acc
    rcases List.mem_cons.1 hd with rfl | hd
    · exact foldl_assign_keeps f _ xs _ (assignProperty_has _ _ hkey)
    · exact ih hd _

theorem foldl_assign_values (f : JSString → JSString) (districts : List JSString) :
    ∀ (acc : List (JSString × JSString)) (p : JSString × JSString),
      p ∈ districts.foldl (fun acc name => assignProperty acc (f name) name) acc →
      p ∈ acc ∨ p.2 ∈ districts := by
  induction districts with
  | nil => exact fun acc p h => Or.inl h
  | cons x xs ih =>
    intro acc p h
    rcases ih _ p h with h | h
    · rcases assignProperty_values h with h | rfl
      · exact Or.inl h
      · exact Or.inr (List.mem_cons_self _ _)
    · exact Or.inr (List.mem_cons_of_mem _ h)

theorem lookup_mem {own : List (JSString × JSString)} {k v : JSString}
    (h : own.lookup k = some v) : (k, v) ∈ own := by
  induction own with
  | nil => simp at h
  | cons p ps ih =>
    obtain ⟨a, b⟩ := p
    simp only [List.lookup] at h
    split at h
    · next hk =>
      have e : k = a := by simpa using hk
      simp only [Option.some.injEq] at h
      subst e h
      exact List.mem_cons_self _ _
    · exact List.mem_cons_of_mem _ (ih h)

/-- Claim C28 (what the code does for a candidate with an empty normalised
form). Whenever the list of districts is not empty (one of them has a key
other than `__proto__`), a candidate that is a non-empty string whose
normalised form is the empty string selects a district: `findDistrictName`
returns one of the districts for it, whatever the candidates after it are,
because every key contains the empty string. So the candidates `District` and
a single blank select `Agra` among `Agra` and `Aligarh`. -/
theorem findDistrictName_empty_candidate (ct : CaseTables) (name : String) (rest : List JSValue)
    (districts : List JSString) (hname : name ≠ "")
    (hempty : Geolocate.normalise ct (js name) = [])
    (hkey : ∃ d ∈ districts, Geolocate.normalise ct d ≠ js "__proto__") :
    (∃ district ∈ districts,
        findDistrictName ct (.json (.str name) :: rest) districts = .ok (some (.text district))) ∧
      Geolocate.normalise sampleCase (js "District") = [] ∧
      findDistrictName sampleCase [.json (.str "District")] [js "Agra", js "Aligarh"]
        = .ok (some (.text (js "Agra"))) ∧
      findDistrictName sampleCase [.undefined, .json (.str " "), .json (.str "Aligarh")]
          [js "Agra", js "Aligarh"]
        = .ok (some (.text (js "Agra"))) := by
  refine ⟨?_, by decide, rfl, rfl⟩
  obtain ⟨d, hd, hdkey⟩ := hkey
  have hlen : ¬ districts.length = 0 := by
    cases districts with
    | nil => simp at hd
    | cons x xs => simp
  have hany : (districtMapOf ct districts).any (fun p => p.1 == Geolocate.normalise ct d) = true :=
    foldl_assign_has (Geolocate.normalise ct) districts d hd hdkey []
  have hvalues : ∀ p ∈ districtMapOf ct districts, p.2 ∈ districts := by
    intro p hp
    rcases foldl_assign_values (Geolocate.normalise ct) districts [] p hp with h | h
    · simp at h
    · exact h
  have hentries : objectEntries (districtMapOf ct districts) ≠ [] := by
    obtain ⟨q, hq, -⟩ := List.any_eq_true.1 hany
    intro hnil
    have hmem := mem_objectEntries.2 hq
    rw [hnil] at hmem
    simp at hmem
  obtain ⟨p, hp, hfirst⟩ := partialMatch_nil_key _ hentries
  have htruthy : (!truthy (.json (.str name))) = false := by simp [truthy, hname]
  have hnorm : Geolocate.normaliseOf ct (.json (.str name)) = .ok [] := by
    simp only [Geolocate.normaliseOf, hempty]
  have hproto : ([] : JSString) ∉ objectPrototypeNames := by decide
  simp only [findDistrictName, if_neg hlen, findAmong, htruthy, hnorm, lookupProperty,
    Bool.false_eq_true, if_false]
  cases hlook : (districtMapOf ct districts).lookup [] with
  | none =>
    simp only [if_neg hproto, hfirst]
    exact ⟨p.2, hvalues p (mem_objectEntries.1 hp), rfl⟩
  | some v =>
    simp only
    by_cases hv : v = []
    · simp only [hv, ne_eq, not_true_eq_false, if_false, hfirst]
      exact ⟨p.2, hvalues p (mem_objectEntries.1 hp), rfl⟩
    · simp only [ne_eq, hv, not_false_eq_true, if_true]
      exact ⟨v, hvalues _ (lookup_mem hlook), rfl⟩

theorem findDistrictName_empty_candidate_witness :
    ∃ district ∈ [js "Kollam", js "Kottayam"],
      findDistrictName sampleCase [.json (.str "DISTRICT\t"), .json (.str "Kottayam")]
        [js "Kollam", js "Kottayam"] = .ok (some (.text district)) :=
  (findDistrictName_empty_candidate sampleCase "DISTRICT\t" [.json (.str "Kottayam")]
    [js "Kollam", js "Kottayam"] (by decide) (by decide)
    ⟨js "Kollam", by decide, by decide⟩).1

/-! ## Lemmas on the order of texts and on `sort()` -/

theorem unitsLe_total (a b : JSString) : unitsLe a b = true ∨ unitsLe b a = true := by
  induction a generalizing b with
  | nil => exact Or.inl (by simp [unitsLe])
  | cons x xs ih =>
    cases b with
    | nil => exact Or.inr (by simp [unitsLe])
    | cons y ys =>
      simp only [unitsLe, Bool.or_eq_true, Bool.and_eq_true, decide_eq_true_eq]
      rcases Nat.lt_trichotomy x y with h | h | h
      · exact Or.inl (Or.inl h)
      · rcases ih ys with h' | h'
        · exact Or.inl (Or.inr ⟨h, h'⟩)
        · exact Or.inr (Or.inr ⟨h.symm, h'⟩)
      · exact Or.inr (Or.inl h)

theorem unitsLe_trans {a b c : JSString} (hab : unitsLe a b = true) (hbc : unitsLe b c = true) :
    unitsLe a c = true := by
  induction a generalizing b c with
  | nil => simp [unitsLe]
  | cons x xs ih =>
    cases b with
    | nil => simp [unitsLe] at hab
    | cons y ys =>
      cases c with
      | nil => simp [unitsLe] at hbc
      | cons z zs =>
        simp only [unitsLe, Bool.or_eq_true, Bool.and_eq_true, decide_eq_true_eq] at hab hbc ⊢
        rcases hab with h | ⟨h, h'⟩
        · rcases hbc with g | ⟨g, -⟩
          · exact Or.inl (by omega)
          · exact Or.inl (by omega)
        · rcases hbc with g | ⟨g, g'⟩
          · exact Or.inl (by omega)
          · exact Or.inr ⟨by omega, ih h' g'⟩

theorem insertByText_eq_orderedInsert (x : JSONValue) (l : List JSONValue) :
    insertByText x l = List.orderedInsert textLe x l := by
  induction l with
  | nil => rfl
  | cons y ys ih =>
    simp only [insertByText, List.orderedInsert, ih, textLe]

theorem sortedByText (l : List JSONValue) :
    (l.foldr insertByText []).Pairwise textLe ∧ (l.foldr insertByText []).Perm l := by
  haveI : IsTotal JSONValue textLe := ⟨fun a b => unitsLe_total _ _⟩
  haveI : IsTrans JSONValue textLe := ⟨fun _ _ _ hab hbc => unitsLe_trans hab hbc⟩
  have heq : l.foldr insertByText [] = List.insertionSort textLe l := by
    induction l with
    | nil => rfl
    | cons x xs ih =>
      simp only [List.foldr_cons, List.insertionSort, ih, insertByText_eq_orderedInsert]
  rw [heq]
  exact ⟨List.sorted_insertionSort textLe l, List.perm_insertionSort textLe l⟩

theorem workersOf_ne_nan (nr : NumberRuntime) (r : JSONValue) : workersOf nr r ≠ .nan := by
  unfold workersOf
  split
  · next x _ =>
    cases hx : nr.parseInt x <;> simp [orZero]
  · simp

theorem differenceSign_nonpos_iff {b a : ParsedNumber} (hb : b ≠ .nan) (ha : a ≠ .nan) :
    differenceSign b a ≤ 0 ↔ numberLe b a = true := by
  cases b with
  | nan => exact absurd rfl hb
  | finite m =>
    cases a with
    | nan => exact absurd rfl ha
    | finite n =>
      simp only [differenceSign, numberLe, decide_eq_true_eq]
      rcases lt_trichotomy m n with h | h | h
      · rw [Int.sign_eq_neg_one_of_neg (by omega)]
        constructor
        · intro _
          omega
        · intro _
          decide
      · subst h
        simp
      · rw [Int.sign_eq_one_of_pos (by omega)]
        constructor
        · intro h'
          exact absurd h' (by decide)
        · intro h'
          omega
    | negInf => simp [differenceSign, numberLe]
    | posInf => simp [differenceSign, numberLe]
  | negInf => cases a <;> simp_all [differenceSign, numberLe]
  | posInf => cases a <;> simp_all [differenceSign, numberLe]

theorem numberLe_total {a b : ParsedNumber} (ha : a ≠ .nan) (hb : b ≠ .nan) :
    numberLe a b = true ∨ numberLe b a = true := by
  cases a <;> cases b <;> simp_all [numberLe]
  omega

theorem numberLe_trans {a b c : ParsedNumber} (hab : numberLe a b = true)
    (hbc : numberLe b c = true) : numberLe a c = true := by
  cases a <;> cases b <;> cases c <;> simp_all [numberLe]
  omega

theorem insertByWorkers_eq_orderedInsert (nr : NumberRuntime) (x : JSONValue)
    (l : List JSONValue) :
    insertByWorkers nr x l
      = List.orderedInsert
          (fun a b => differenceSign (workersOf nr b) (workersOf nr a) ≤ 0) x l := by
  induction l with
  | nil => rfl
  | cons y ys ih =>
    simp only [insertByWorkers, List.orderedInsert, ih]

theorem sortByWorkers_sorted (nr : NumberRuntime) (l : List JSONValue) :
    (sortByWorkers nr l).Pairwise (fun a b => numberLe (workersOf nr b) (workersOf nr a) = true) ∧
      (sortByWorkers nr l).Perm l := by
  have hiff : ∀ a b : JSONValue, differenceSign (workersOf nr b) (workersOf nr a) ≤ 0 ↔
      numberLe (workersOf nr b) (workersOf nr a) = true :=
    fun a b => differenceSign_nonpos_iff (workersOf_ne_nan nr b) (workersOf_ne_nan nr a)
  haveI : IsTotal JSONValue (fun a b => differenceSign (workersOf nr b) (workersOf nr a) ≤ 0) :=
    ⟨fun a b => by
      rcases numberLe_total (workersOf_ne_nan nr b) (workersOf_ne_nan nr a) with h | h
      · exact Or.inl ((hiff a b).2 h)
      · exact Or.inr ((hiff b a).2 h)⟩
  haveI : IsTrans JSONValue (fun a b => differenceSign (workersOf nr b) (workersOf nr a) ≤ 0) :=
    ⟨fun a b c hab hbc => (hiff a c).2 (numberLe_trans ((hiff b c).1 hbc) ((hiff a b).1 hab))⟩
  have heq : sortByWorkers nr l
      = List.insertionSort
          (fun a b => differenceSign (workersOf nr b) (workersOf nr a) ≤ 0) l := by
    unfold sortByWorkers
    induction l with
    | nil => rfl
    | cons x xs ih =>
      simp only [List.foldr_cons, List.insertionSort, ih, insertByWorkers_eq_orderedInsert]
  rw [heq]
  refine ⟨?_, List.perm_insertionSort _ l⟩
  exact (List.sorted_insertionSort
    (fun a b => differenceSign (workersOf nr b) (workersOf nr a) ≤ 0) l).imp
    (fun {a b} h => (hiff a b).1 h)

/-! ## Lemmas on the district list -/

theorem namedByText_name {r : JSONValue} (h : namedByText r = true) :
    getProp r "district_name" = .ok .undefined ∨
      ∃ s, getProp r "district_name" = .ok (.json (.str s)) := by
  unfold namedByText at h
  split at h
  · next heq => exact Or.inl heq
  · next s heq => exact Or.inr ⟨s, heq⟩
  · exact absurd h (by simp)

theorem districtNames_named (records : List JSONValue)
    (h : ∀ r ∈ records, namedByText r = true) :
    ∃ names, districtNames records = .ok names ∧
      (∀ x ∈ names, x = .undefined ∨ ∃ s, x = .json (.str s)) ∧
      ∀ x, x ∈ names ↔ ∃ r ∈ records, getProp r "district_name" = .ok x := by
  induction records with
  | nil => exact ⟨[], rfl, by simp, by simp⟩
  | cons r rs ih =>
    obtain ⟨names, hnames, htext, hmem⟩ := ih (fun x hx => h x (List.mem_cons_of_mem _ hx))
    have hr := namedByText_name (h r (List.mem_cons_self _ _))
    obtain ⟨name, hname, hshape⟩ : ∃ name, getProp r "district_name" = .ok name ∧
        (name = .undefined ∨ ∃ s, name = .json (.str s)) := by
      rcases hr with hr | ⟨s, hr⟩
      · exact ⟨_, hr, Or.inl rfl⟩
      · exact ⟨_, hr, Or.inr ⟨s, rfl⟩⟩
    refine ⟨name :: names, by simp only [districtNames, hname, hnames], ?_, ?_⟩
    · intro x hx
      rcases List.mem_cons.1 hx with rfl | hx
      · exact hshape
      · exact htext x hx
    · intro x
      simp only [List.mem_cons, hmem, exists_eq_or_imp, hname, Except.ok.injEq]
      constructor
      · rintro (rfl | hx)
        · exact Or.inl rfl
        · exact Or.inr hx
      · rintro (hx | hx)
        · exact Or.inl hx.symm
        · exact Or.inr hx

theorem sameValueZero_of_text {x y : JSValue}
    (hx : x = .undefined ∨ ∃ s, x = .json (.str s))
    (hy : y = .undefined ∨ ∃ s, y = .json (.str s)) :
    sameValueZero x y = true ↔ x = y := by
  rcases hx with rfl | ⟨s, rfl⟩ <;> rcases hy with rfl | ⟨t, rfl⟩ <;> simp [sameValueZero]

theorem mem_uniqueValues_iff {l : List JSValue}
    (hl : ∀ x ∈ l, x = .undefined ∨ ∃ s, x = .json (.str s)) (y : JSValue) :
    y ∈ uniqueValues l ↔ y ∈ l := by
  induction l with
  | nil => simp [uniqueValues]
  | cons x xs ih =>
    have ih' := ih (fun z hz => hl z (List.mem_cons_of_mem _ hz))
    simp only [uniqueValues, List.mem_cons, List.mem_filter, ih']
    constructor
    · rintro (h | ⟨h, -⟩)
      · exact Or.inl h
      · exact Or.inr h
    · rintro (h | h)
      · exact Or.inl h
      · by_cases hxy : sameValueZero x y = true
        · have hy := hl y (List.mem_cons_of_mem _ h)
          exact Or.inl ((sameValueZero_of_text (hl x (List.mem_cons_self _ _)) hy).1 hxy).symm
        · exact Or.inr ⟨h, by simpa using hxy⟩

theorem nodup_uniqueValues {l : List JSValue}
    (hl : ∀ x ∈ l, x = .undefined ∨ ∃ s, x = .json (.str s)) : (uniqueValues l).Nodup := by
  induction l with
  | nil => simp [uniqueValues]
  | cons x xs ih =>
    have ih' := ih (fun z hz => hl z (List.mem_cons_of_mem _ hz))
    simp only [uniqueValues, List.nodup_cons, List.mem_filter, not_and]
    refine ⟨?_, ih'.filter _⟩
    intro _
    have hxx := (sameValueZero_of_text (hl x (List.mem_cons_self _ _))
      (hl x (List.mem_cons_self _ _))).2 rfl
    simp [hxx]

theorem mem_definedItems_iff {v : JSONValue} {l : List JSValue} :
    v ∈ definedItems l ↔ JSValue.json v ∈ l := by
  induction l with
  | nil => simp [definedItems]
  | cons x xs ih =>
    cases x with
    | undefined => simp [definedItems, ih]
    | json w => simp [definedItems, ih]

theorem nodup_definedItems {l : List JSValue} (h : l.Nodup) : (definedItems l).Nodup := by
  induction l with
  | nil => simp [definedItems]
  | cons x xs ih =>
    obtain ⟨hx, hxs⟩ := List.nodup_cons.1 h
    cases x with
    | undefined => exact ih hxs
    | json w =>
      simp only [definedItems, List.nodup_cons, mem_definedItems_iff]
      exact ⟨hx, ih hxs⟩

theorem definedItems_append (l₁ l₂ : List JSValue) :
    definedItems (l₁ ++ l₂) = definedItems l₁ ++ definedItems l₂ := by
  induction l₁ with
  | nil => rfl
  | cons x xs ih =>
    cases x with
    | undefined => simpa [definedItems] using ih
    | json w => simp [definedItems, ih]

theorem definedItems_map_json (l : List JSONValue) : definedItems (l.map JSValue.json) = l := by
  induction l with
  | nil => rfl
  | cons x xs ih => simp [definedItems, ih]

theorem definedItems_filter_undefined (l : List JSValue) :
    definedItems (l.filter (fun x => match x with | .undefined => true | .json _ => false))
      = [] := by
  induction l with
  | nil => rfl
  | cons x xs ih =>
    cases x with
    | undefined => simpa [definedItems] using ih
    | json w => simpa [definedItems] using ih

theorem definedItems_defaultSort (l : List JSValue) :
    definedItems (defaultSort l) = (definedItems l).foldr insertByText [] := by
  simp only [defaultSort, definedItems_append, definedItems_map_json,
    definedItems_filter_undefined, List.append_nil]

/-- The list of the district-list handler for names that are strings or
absent: the non-empty names, each once, in ascending order of code units. -/
theorem Districts.listOf_shape (records : List JSONValue) (names : List JSValue)
    (htext : ∀ x ∈ names, x = .undefined ∨ ∃ s, x = .json (.str s))
    (hmem : ∀ x, x ∈ names ↔ ∃ r ∈ records, getProp r "district_name" = .ok x) :
    (∀ v, v ∈ Districts.listOf names ↔
        ∃ s, v = .str s ∧ s ≠ "" ∧
          ∃ r ∈ records, getProp r "district_name" = .ok (.json (.str s))) ∧
      (Districts.listOf names).Nodup ∧ (Districts.listOf names).Pairwise textLe := by
  obtain ⟨hsorted, hperm⟩ :=
    sortedByText (definedItems ((uniqueValues names).filter truthy))
  have hlist : Districts.listOf names
      = (definedItems ((uniqueValues names).filter truthy)).foldr insertByText [] := by
    simp only [Districts.listOf, definedItems_defaultSort]
  rw [hlist]
  refine ⟨?_, ?_, hsorted⟩
  · intro v
    rw [hperm.mem_iff, mem_definedItems_iff, List.mem_filter, mem_uniqueValues_iff htext, hmem]
    constructor
    · rintro ⟨⟨r, hr, hname⟩, htruthy⟩
      have hv := htext (.json v) ((hmem _).2 ⟨r, hr, hname⟩)
      rcases hv with hv | ⟨s, hv⟩
      · cases hv
      · cases hv
        refine ⟨s, rfl, ?_, r, hr, hname⟩
        simpa [truthy] using htruthy
    · rintro ⟨s, rfl, hs, r, hr, hname⟩
      exact ⟨⟨r, hr, hname⟩, by simpa [truthy] using hs⟩
  · exact hperm.nodup_iff.2 (nodup_definedItems ((nodup_uniqueValues htext).filter _))

theorem Districts.onEnd_of_names (rt : Runtime) (cwd : Path) (cacheKey : JSString)
    (data : String) (now₁ now₂ : Nat) (d : Disk) (json : JSONValue) (records : List JSONValue)
    (names : List JSValue) (hparse : rt.parse data = some json)
    (hrecords : getProp json "records" = .ok (.json (.arr records)))
    (hnames : districtNames records = .ok names) :
    Districts.onEnd rt cwd cacheKey data now₁ now₂ d =
      match setCached rt cwd cacheKey
          (.obj [("districts", .arr (Districts.listOf names)),
            ("count", .num (Districts.listOf names).length)])
          (some 86400) now₁ now₂ d with
      | (.error e, d1) => (.error e, d1)
      | (.ok _, d1) =>
        (.ok ⟨200, .obj [("districts", .arr (Districts.listOf names)),
          ("count", .num (Districts.listOf names).length), ("fromCache", .bool false)]⟩, d1) := by
  unfold Districts.onEnd
  rw [hparse]
  simp only
  rw [hrecords]
  simp only
  rw [hnames]
  simp only
  rw [show (60 * 60 * 24 : Int) = 86400 from by norm_num]
  rfl

/-- Claim C23, as amended (district list shape). The request names a state,
the API key is set, no fresh record is cached, and the upstream body parses to
an object whose `records` is an array of records, none `null`, whose
`district_name` is a string when present. Then the handler builds the list of
the non-empty names of the records, each once, in ascending order of code
units. It writes `{ districts, count }` with `count` the length of the list to
the cache, and answers `200` with that object and `fromCache: false`; or, when
that write throws, it answers `500`. -/
theorem Districts.handler_list_shape (rt : Runtime) (ct : CaseTables) (cwd : Path)
    (state : Option JSString) (data : String) (clock : Nat → Nat) (d : Disk) (cached : JSValue)
    (json : JSONValue) (records : List JSONValue)
    (hstate : truthyText state = true)
    (hread : getCached rt cwd (Districts.cacheKey ct (state.getD [])) .omitted (clock 0) d
      = (.ok cached, d))
    (hmiss : truthy cached = false)
    (hparse : rt.parse data = some json)
    (hrecords : getProp json "records" = .ok (.json (.arr records)))
    (htyped : ∀ r ∈ records, namedByText r = true) :
    ∃ districts : List JSONValue,
      ((∀ v, v ∈ districts ↔
          ∃ s, v = .str s ∧ s ≠ "" ∧
            ∃ r ∈ records, getProp r "district_name" = .ok (.json (.str s))) ∧
        districts.Nodup ∧ districts.Pairwise textLe) ∧
      ((∃ d', setCached rt cwd (Districts.cacheKey ct (state.getD []))
              (.obj [("districts", .arr districts), ("count", .num districts.length)])
              (some 86400) (clock 1) (clock 2) d = (.ok (), d') ∧
            d'.content (keyToFile cwd (Districts.cacheKey ct (state.getD []))) =
              some (rt.stringify (payload
                (.obj [("districts", .arr districts), ("count", .num districts.length)])
                (((clock 1 / 1000 : Nat) : Int) + 86400) (clock 2))) ∧
            Districts.handler rt ct cwd state true (.body data) clock d =
              { result := .ok ⟨200, .obj [("districts", .arr districts),
                  ("count", .num districts.length), ("fromCache", .bool false)]⟩,
                fetched := true, disk := d' }) ∨
        ∃ e d', setCached rt cwd (Districts.cacheKey ct (state.getD []))
              (.obj [("districts", .arr districts), ("count", .num districts.length)])
              (some 86400) (clock 1) (clock 2) d = (.error e, d') ∧
            Districts.handler rt ct cwd state true (.body data) clock d =
              { result := .ok ⟨500, .obj [("error", .str "Failed to parse API response"),
                  ("districts", .arr [])]⟩,
                fetched := true, disk := d' }) := by
  obtain ⟨names, hnames, htext, hmem⟩ := districtNames_named records htyped
  refine ⟨Districts.listOf names, Districts.listOf_shape records names htext hmem, ?_⟩
  have hstate' : ¬ ((!truthyText state) = true) := by simp [hstate]
  have hkey' : ¬ ((!true) = true) := by simp
  have hmiss' : ¬ (truthy cached = true) := by simp [hmiss]
  have hrun : Districts.handler rt ct cwd state true (.body data) clock d =
      match Districts.onEnd rt cwd (Districts.cacheKey ct (state.getD [])) data (clock 1)
          (clock 2) d with
      | (.ok response, d2) => { result := .ok response, fetched := true, disk := d2 }
      | (.error _, d2) =>
        { result := .ok ⟨500, .obj [("error", .str "Failed to parse API response"),
            ("districts", .arr [])]⟩,
          fetched := true, disk := d2 } := by
    unfold Districts.handler
    rw [if_neg hstate', if_neg hkey', hread]
    simp only
    rw [if_neg hmiss']
  rw [hrun, Districts.onEnd_of_names rt cwd _ data (clock 1) (clock 2) d json records names hparse
    hrecords hnames]
  rcases hset : setCached rt cwd (Districts.cacheKey ct (state.getD []))
      (.obj [("districts", .arr (Districts.listOf names)),
        ("count", .num (Districts.listOf names).length)])
      (some 86400) (clock 1) (clock 2) d with ⟨written, d'⟩
  cases written with
  | error e => exact Or.inr ⟨e, d', rfl, rfl⟩
  | ok done =>
    refine Or.inl ⟨d', rfl, ?_, rfl⟩
    have hcontent := (setCached_ok hset).2
    simpa using hcontent

set_option maxRecDepth 100000 in
theorem Districts.handler_list_shape_witness :
    ∃ districts : List JSONValue,
      ((∀ v, v ∈ districts ↔
          ∃ s, v = .str s ∧ s ≠ "" ∧
            ∃ r ∈ [JSONValue.obj [("district_name", .str "Kottayam")],
                .obj [("district_name", .str "Kollam")],
                .obj [("district_name", .str "Kollam")]],
              getProp r "district_name" = .ok (.json (.str s))) ∧
        districts.Nodup ∧ districts.Pairwise textLe) ∧
      ((∃ d', setCached sampleRuntime appRoot (Districts.cacheKey sampleCase
                ((some (js "Kerala")).getD []))
              (.obj [("districts", .arr districts), ("count", .num districts.length)])
              (some 86400) (fixedClock 1700000000123 1) (fixedClock 1700000000123 2) freshDisk
              = (.ok (), d') ∧
            d'.content (keyToFile appRoot (Districts.cacheKey sampleCase
                ((some (js "Kerala")).getD []))) =
              some (sampleRuntime.stringify (payload
                (.obj [("districts", .arr districts), ("count", .num districts.length)])
                (((fixedClock 1700000000123 1 / 1000 : Nat) : Int) + 86400)
                (fixedClock 1700000000123 2))) ∧
            Districts.handler sampleRuntime sampleCase appRoot (some (js "Kerala")) true
                (.body keralaBody) (fixedClock 1700000000123) freshDisk =
              { result := .ok ⟨200, .obj [("districts", .arr districts),
                  ("count", .num districts.length), ("fromCache", .bool false)]⟩,
                fetched := true, disk := d' }) ∨
        ∃ e d', setCached sampleRuntime appRoot (Districts.cacheKey sampleCase
                ((some (js "Kerala")).getD []))
              (.obj [("districts", .arr districts), ("count", .num districts.length)])
              (some 86400) (fixedClock 1700000000123 1) (fixedClock 1700000000123 2) freshDisk
              = (.error e, d') ∧
            Districts.handler sampleRuntime sampleCase appRoot (some (js "Kerala")) true
                (.body keralaBody) (fixedClock 1700000000123) freshDisk =
              { result := .ok ⟨500, .obj [("error", .str "Failed to parse API response"),
                  ("districts", .arr [])]⟩,
                fetched := true, disk := d' }) :=
  Districts.handler_list_shape sampleRuntime sampleCase appRoot (some (js "Kerala")) keralaBody
    (fixedClock 1700000000123) freshDisk (.json .null)
    (.obj [("records", .arr [.obj [("district_name", .str "Kottayam")],
      .obj [("district_name", .str "Kollam")], .obj [("district_name", .str "Kollam")]])])
    _ rfl rfl rfl rfl rfl (by decide)

/-- Claim C23, as stated, fails. The body `{"records":[null]}` has an array for
`records`, and the handler answers `500`; for two records whose
`district_name` is the array `["a"]`, the list holds that name twice. -/
theorem Districts.handler_list_malformed :
    sampleRuntime.parse nullRecordBody = some (.obj [("records", .arr [.null])]) ∧
      (Districts.handler sampleRuntime sampleCase appRoot (some (js "Kerala")) true
          (.body nullRecordBody) (fixedClock 1700000000123) freshDisk).result =
        .ok ⟨500, .obj [("error", .str "Failed to parse API response"),
          ("districts", .arr [])]⟩ ∧
      (Districts.handler sampleRuntime sampleCase appRoot (some (js "Kerala")) true
          (.body arrayNameBody) (fixedClock 1700000000123) freshDisk).result =
        .ok ⟨200, .obj [("districts", .arr [.arr [.str "a"], .arr [.str "a"]]),
          ("count", .num 2), ("fromCache", .bool false)]⟩ := by
  refine ⟨rfl, rfl, rfl⟩

/-! ## Lemmas on the ranking -/

theorem namedByText_key (ct : CaseTables) {r : JSONValue} (h : namedByText r = true) :
    ∃ name, getProp r "district_name" = .ok name ∧
      normaliseKeyOf ct name = .ok (normaliseKey ct (districtNameText r)) := by
  rcases namedByText_name h with hr | ⟨s, hr⟩
  · exact ⟨.undefined, hr, by simp only [normaliseKeyOf, districtNameText, hr]⟩
  · exact ⟨.json (.str s), hr, by simp only [normaliseKeyOf, districtNameText, hr]⟩

theorem namedByText_not_null {r : JSONValue} (h : namedByText r = true) : isNull r = false := by
  cases r <;> first | rfl | simp [namedByText, getProp] at h

theorem findRank_named (ct : CaseTables) (record : JSONValue) (target : JSValue)
    (htarget : normaliseKeyOf ct target = .ok (normaliseKey ct (districtNameText record)))
    (l : List JSONValue) (hl : ∀ r ∈ l, namedByText r = true) (i : Nat) :
    ∃ rank, findRank ct target l i = .ok rank ∧
      ((rank = 0 ∧ ∀ r ∈ l, carriesName ct record r = false) ∨
        ∃ j found, rank = i + j + 1 ∧ l[j]? = some found ∧ carriesName ct record found = true ∧
          ∀ k before, k < j → l[k]? = some before → carriesName ct record before = false) := by
  induction l generalizing i with
  | nil => exact ⟨0, rfl, Or.inl ⟨rfl, by simp⟩⟩
  | cons r rs ih =>
    obtain ⟨name, hname, hkey⟩ := namedByText_key ct (hl r (List.mem_cons_self _ _))
    simp only [findRank, hname, hkey, htarget]
    by_cases hcarries : normaliseKey ct (districtNameText r)
        = normaliseKey ct (districtNameText record)
    · rw [if_pos hcarries]
      refine ⟨i + 1, rfl, Or.inr ⟨0, r, rfl, by simp, ?_, ?_⟩⟩
      · simp [carriesName, hcarries]
      · intro k before hk
        omega
    · rw [if_neg hcarries]
      have hr : carriesName ct record r = false := by simp [carriesName, hcarries]
      obtain ⟨rank, hrank, hcases⟩ := ih (fun x hx => hl x (List.mem_cons_of_mem _ hx)) (i + 1)
      refine ⟨rank, hrank, ?_⟩
      rcases hcases with ⟨h0, hnone⟩ | ⟨j, found, hj, hfound, hc, hbefore⟩
      · refine Or.inl ⟨h0, ?_⟩
        intro x hx
        rcases List.mem_cons.1 hx with rfl | hx
        · exact hr
        · exact hnone x hx
      · refine Or.inr ⟨j + 1, found, by omega, by simpa using hfound, hc, ?_⟩
        intro k before hk hget
        cases k with
        | zero =>
          simp only [List.getElem?_cons_zero, Option.some.injEq] at hget
          subst hget
          exact hr
        | succ k =>
          simp only [List.getElem?_cons_succ] at hget
          exact hbefore k before (by omega) hget

/-- Claim C27, as amended (rank bounds). The district record is truthy, no
state record is `null`, and every `district_name` among them is a string when
present; the list of state records is not empty. Then, whatever `parseInt`
reads, the call returns with `totalDistricts` the number of state records; the
ranking is the state records in descending order of
`parseInt(Total_Individuals_Worked) || 0`; `rankByWorkers` is `0` exactly when
no state record carries the district's name (trimmed and lower-cased); and
when one does, `1 ≤ rankByWorkers ≤ totalDistricts`, the record at that place
of the ranking carries the name, and every record before it has at least as
many workers and does not carry the name. -/
theorem computeComparisonFromRecords_rank (ct : CaseTables) (nr : NumberRuntime)
    (record : JSONValue) (stateRecords : List JSONValue)
    (hrecord : truthy (.json record) = true) (hname : namedByText record = true)
    (htyped : ∀ r ∈ stateRecords, namedByText r = true) (hne : stateRecords ≠ []) :
    ∃ cmp, computeComparisonFromRecords ct nr (.json record) stateRecords = .ok (some cmp) ∧
      cmp.totalDistricts = stateRecords.length ∧
      (sortByWorkers nr stateRecords).Perm stateRecords ∧
      (sortByWorkers nr stateRecords).Pairwise
        (fun a b => numberLe (workersOf nr b) (workersOf nr a) = true) ∧
      (cmp.rankByWorkers = 0 ↔ ∀ r ∈ stateRecords, carriesName ct record r = false) ∧
      ((∃ r ∈ stateRecords, carriesName ct record r = true) →
        1 ≤ cmp.rankByWorkers ∧ cmp.rankByWorkers ≤ cmp.totalDistricts ∧
          ∃ found, (sortByWorkers nr stateRecords)[cmp.rankByWorkers - 1]? = some found ∧
            carriesName ct record found = true ∧
            ∀ k before, k < cmp.rankByWorkers - 1 →
              (sortByWorkers nr stateRecords)[k]? = some before →
              numberLe (workersOf nr found) (workersOf nr before) = true ∧
                carriesName ct record before = false) := by
  obtain ⟨hsorted, hperm⟩ := sortByWorkers_sorted nr stateRecords
  obtain ⟨target, htarget, hkey⟩ := namedByText_key ct hname
  have hsortedTyped : ∀ r ∈ sortByWorkers nr stateRecords, namedByText r = true :=
    fun r hr => htyped r (hperm.mem_iff.1 hr)
  obtain ⟨rank, hrank, hcases⟩ :=
    findRank_named ct record target hkey (sortByWorkers nr stateRecords) hsortedTyped 0
  have hlen : ¬ stateRecords.length = 0 := by
    cases stateRecords with
    | nil => exact absurd rfl hne
    | cons x xs => simp
  have hnull : stateRecords.any isNull = false := by
    rw [List.any_eq_false]
    intro r hr
    simp [namedByText_not_null (htyped r hr)]
  have hcompute : computeComparisonFromRecords ct nr (.json record) stateRecords
      = .ok (some { rankByWorkers := rank, totalDistricts := stateRecords.length }) := by
    simp only [computeComparisonFromRecords, hrecord, hlen, hnull, htarget, hrank,
      Bool.not_true, decide_False, Bool.or_self, Bool.false_eq_true, if_false]
  refine ⟨_, hcompute, rfl, hperm, hsorted, ?_, ?_⟩
  · simp only
    rcases hcases with ⟨h0, hnone⟩ | ⟨j, found, hj, hfound, hc, -⟩
    · exact ⟨fun _ r hr => hnone r (hperm.mem_iff.2 hr), fun _ => h0⟩
    · constructor
      · intro h
        omega
      · intro hnone
        obtain ⟨hjlt, hjget⟩ := List.getElem?_eq_some.1 hfound
        have hmem : found ∈ stateRecords :=
          hperm.mem_iff.1 (hjget ▸ List.getElem_mem hjlt)
        rw [hnone found hmem] at hc
        cases hc
  · rintro ⟨r, hr, hcr⟩
    simp only
    rcases hcases with ⟨-, hnone⟩ | ⟨j, found, hj, hfound, hc, hbefore⟩
    · rw [hnone r (hperm.mem_iff.2 hr)] at hcr
      cases hcr
    · obtain ⟨hjlt, hjget⟩ := List.getElem?_eq_some.1 hfound
      have hrankj : rank - 1 = j := by omega
      refine ⟨by omega, ?_, found, by rw [hrankj]; exact hfound, hc, ?_⟩
      · have := hperm.length_eq
        omega
      · intro k before hk hget
        rw [hrankj] at hk
        obtain ⟨hklt, hkget⟩ := List.getElem?_eq_some.1 hget
        refine ⟨?_, hbefore k before hk hget⟩
        have hrel := List.pairwise_iff_getElem.1 hsorted k j hklt hjlt hk
        rw [hkget, hjget] at hrel
        exact hrel

set_option maxRecDepth 100000 in
theorem computeComparisonFromRecords_rank_witness :
    ∃ cmp, computeComparisonFromRecords sampleCase sampleNumbers (.json agraRecord) threeRecords
        = .ok (some cmp) ∧
      cmp.totalDistricts = threeRecords.length ∧
      (sortByWorkers sampleNumbers threeRecords).Perm threeRecords ∧
      (sortByWorkers sampleNumbers threeRecords).Pairwise
        (fun a b => numberLe (workersOf sampleNumbers b) (workersOf sampleNumbers a) = true) ∧
      (cmp.rankByWorkers = 0 ↔ ∀ r ∈ threeRecords, carriesName sampleCase agraRecord r = false) ∧
      ((∃ r ∈ threeRecords, carriesName sampleCase agraRecord r = true) →
        1 ≤ cmp.rankByWorkers ∧ cmp.rankByWorkers ≤ cmp.totalDistricts ∧
          ∃ found, (sortByWorkers sampleNumbers threeRecords)[cmp.rankByWorkers - 1]?
              = some found ∧
            carriesName sampleCase agraRecord found = true ∧
            ∀ k before, k < cmp.rankByWorkers - 1 →
              (sortByWorkers sampleNumbers threeRecords)[k]? = some before →
              numberLe (workersOf sampleNumbers found) (workersOf sampleNumbers before) = true ∧
                carriesName sampleCase agraRecord before = false) :=
  computeComparisonFromRecords_rank sampleCase sampleNumbers agraRecord threeRecords
    (by decide) (by decide) (by decide) (List.cons_ne_nil _ _)

/-- Claim C27, as stated, fails. Among the state records one carries the name
of the district record, and another, with more workers, has the number `7` as
its `district_name`: the call throws a `TypeError`, because `trim` is not a
function on a number. With typed records the rank of Agra among three
districts is `2` of `3`. -/
theorem computeComparisonFromRecords_throws :
    carriesName sampleCase agraRecord agraRecord = true ∧
      agraRecord ∈ numberNameRecords ∧
      computeComparisonFromRecords sampleCase sampleNumbers (.json agraRecord) numberNameRecords
        = .error .TypeError ∧
      computeComparisonFromRecords sampleCase sampleNumbers (.json agraRecord) threeRecords
        = .ok (some { rankByWorkers := 2, totalDistricts := 3 }) := by
  refine ⟨by decide, List.mem_cons_self _ _, rfl, rfl⟩

/-- The ranks of Agra on records whose counts need the whole of `parseInt`:
`0x1F` is read in base 16 as 31, above 20, so Agra is second; `2^53 + 1` is
read as the double `2^53`, equal to the count of Agra, which stays first. -/
theorem computeComparisonFromRecords_samples :
    sampleNumbers.parseInt (.json (.str "0x1F")) = .finite 31 ∧
      sampleNumbers.parseInt (.json (.str "9007199254740993")) = .finite 9007199254740992 ∧
      sampleNumbers.parseInt (.json (.str " -12.5kg")) = .finite (-12) ∧
      sampleNumbers.parseInt (.json (.str "abc")) = .nan ∧
      computeComparisonFromRecords sampleCase sampleNumbers (.json agraRecord) hexRecords
        = .ok (some { rankByWorkers := 2, totalDistricts := 2 }) ∧
      computeComparisonFromRecords sampleCase sampleNumbers (.json agraRecord) largeRecords
        = .ok (some { rankByWorkers := 1, totalDistricts := 2 }) := by
  refine ⟨by decide, by decide, by decide, by decide, rfl, rfl⟩

end Cache
